import Mathlib

/-!
# c2go, package `cl`: expression compiler and flow-context manager

A shallow embedding of `cl/expr.go` and `cl/blockctx.go`.

* The code builder (`gox.CodeBuilder`) is an external sink.  Every call the
  translated code issues on it is recorded, in order, as a `CbCall`.
* A function of `expr.go` becomes a function returning an `Emit`: the ordered
  list of `Step`s its body performs (builder calls, recursive
  `compileExprEx` calls on a child `v.Inner[i]`, calls of helpers of the
  package) together with the fatal message, if the body ends in `log.Panic*`.
* A method of `blockctx.go` becomes a state transformer on `blockCtx`,
  returning `Except String _` where the Go code can panic.
-/

namespace cl

/-! ## go/token -/

/-- Go's `token.Token` (`type Token int`). -/
abbrev Token := Int

namespace token
def INT : Token := 5
def FLOAT : Token := 6
def ADD : Token := 12
def SUB : Token := 13
def MUL : Token := 14
def QUO : Token := 15
def REM : Token := 16
def AND : Token := 17
def OR : Token := 18
def XOR : Token := 19
def SHL : Token := 20
def SHR : Token := 21
def ADD_ASSIGN : Token := 23
def SUB_ASSIGN : Token := 24
def MUL_ASSIGN : Token := 25
def QUO_ASSIGN : Token := 26
def REM_ASSIGN : Token := 27
def AND_ASSIGN : Token := 28
def OR_ASSIGN : Token := 29
def XOR_ASSIGN : Token := 30
def SHL_ASSIGN : Token := 31
def SHR_ASSIGN : Token := 32
def LAND : Token := 34
def LOR : Token := 35
def INC : Token := 37
def DEC : Token := 38
def EQL : Token := 39
def LSS : Token := 40
def GTR : Token := 41
def NOT : Token := 43
def NEQ : Token := 44
def LEQ : Token := 45
def GEQ : Token := 46
end token

/-! ## strconv -/

/-- Go's `strconv.Itoa` on a non-negative `int`: the decimal numeral, most
significant digit first, `"0"` for zero.  The counters it is applied to start
at zero and are only ever incremented by one per allocated object, so they are
kept as natural numbers. -/
def Itoa (n : Nat) : String := Nat.repr n

/-! ## Data model -/

/-- Go types as far as the translated code inspects them (`go/types`): a
pointer type with its element type, or any other type, told apart by its
name. -/
inductive GoType where
  | Pointer (elem : GoType)
  | Other (name : String)
deriving DecidableEq, Repr

/-- Modelled from the spec: the package variable `tyUintptrPtr`, declared in
another file of the package, the type `*uintptr` through which a pointer
variable is reinterpreted "as an integer-sized address type". -/
def tyUintptrPtr : GoType := .Pointer (.Other "uintptr")

/-- Modelled from the spec: the AST node `ast.Node` of package `clang/ast`,
whose declaration is not among the translated files ("tagged union over
expression/statement kinds ... carrying a type descriptor, source range, and
child nodes").  Only the fields read by the translated functions are kept;
`Kind`, `OpCode` and `CastKind` are string-typed, `ReferencedDecl` keeps the
name of the referenced declaration. -/
inductive Node where
  | mk (Kind : String) (OpCode : String) (IsPostfix : Bool) (CastKind : String)
      (Name : String) (ReferencedDecl : Option String) (Inner : List Node)

namespace Node
def Kind : Node → String
  | mk k _ _ _ _ _ _ => k
def OpCode : Node → String
  | mk _ o _ _ _ _ _ => o
def IsPostfix : Node → Bool
  | mk _ _ p _ _ _ _ => p
def CastKind : Node → String
  | mk _ _ _ c _ _ _ => c
def Name : Node → String
  | mk _ _ _ _ n _ _ => n
def ReferencedDecl : Node → Option String
  | mk _ _ _ _ _ r _ => r
def Inner : Node → List Node
  | mk _ _ _ _ _ _ is => is
end Node

/-! Modelled from the spec: the node kinds of package `clang/ast` named in
`compileExprEx` (`type Kind string`, each constant spelled as its name). -/

namespace ast
def BinaryOperator : String := "BinaryOperator"
def UnaryOperator : String := "UnaryOperator"
def DeclRefExpr : String := "DeclRefExpr"
def MemberExpr : String := "MemberExpr"
def CallExpr : String := "CallExpr"
def CompoundAssignOperator : String := "CompoundAssignOperator"
def ImplicitCastExpr : String := "ImplicitCastExpr"
def IntegerLiteral : String := "IntegerLiteral"
def StringLiteral : String := "StringLiteral"
def CharacterLiteral : String := "CharacterLiteral"
def FloatingLiteral : String := "FloatingLiteral"
def ParenExpr : String := "ParenExpr"
def ConstantExpr : String := "ConstantExpr"
def CStyleCastExpr : String := "CStyleCastExpr"
def ArraySubscriptExpr : String := "ArraySubscriptExpr"
def UnaryExprOrTypeTraitExpr : String := "UnaryExprOrTypeTraitExpr"
def ImplicitValueInitExpr : String := "ImplicitValueInitExpr"
def ConditionalOperator : String := "ConditionalOperator"
def ImaginaryLiteral : String := "ImaginaryLiteral"
def VAArgExpr : String := "VAArgExpr"
def AtomicExpr : String := "AtomicExpr"
def OffsetOfExpr : String := "OffsetOfExpr"
end ast

/-- A label of the code builder (`*gox.Label`), identified by its name. -/
structure Label where
  name : String
deriving DecidableEq, Repr

/-- Operands handed to the code builder by the translated functions. -/
inductive Value where
  /-- The object found by `cb.Scope().Lookup(name)`. -/
  | scopeLookup (name : String)
  /-- The result parameter of the closure under construction, made by
  `pkg.NewAutoParam(name)` or `pkg.NewParam(_, name, _)`. -/
  | result (name : String)
  /-- An integer constant. -/
  | int (n : Int)
  /-- Go's `nil`. -/
  | nil
  /-- The object found by `cb.Scope().LookupParent(name, token.NoPos)`. -/
  | lookupParent (name : String)
deriving DecidableEq, Repr

/-- Calls on `gox.CodeBuilder` issued by the translated functions. -/
inductive CbCall where
  | NewClosure (results : List Value)
  | BodyStart
  | DefineVarStart (name : String)
  | EndInit (n : Int)
  | UnaryOp (op : Token)
  | BinaryOp (op : Token)
  | Val (v : Value)
  | VarRef (v : Value)
  | Elem
  | ElemRef
  | Assign (n : Int)
  | AssignOp (op : Token)
  | IncDec (op : Token)
  | Return (n : Int)
  | End
  | Call (n : Int)
  | EndStmt
  | VBlock
  | NewLabel (name : String)
  | Label (l : Label)
  /-- The call `cb.CallWith(n, flags, src)`; `ellipsis` tells whether `flags` is
  `gox.InstrFlagEllipsis` (otherwise it is the zero value). -/
  | CallWith (n : Int) (ellipsis : Bool)
deriving DecidableEq, Repr

/-- Functions of package `cl` that `expr.go` calls and that are defined in
other files of the package; a call is recorded with the arguments that
distinguish it (`src` is the index of the child whose `goNode` is passed). -/
inductive Helper where
  | assign (src : Nat)
  | assignOp (op : Token) (src : Nat)
  | castPtrType (typ : GoType)
  | valOfAddr (addr : Value)
  | castToBoolExpr
  | binaryOp (op : Token)
  | unaryOp (op : Token)
deriving DecidableEq, Repr

/-- The compile functions `compileExprEx` dispatches to whose bodies are not
unfolded in this development; `lhs` is the argument `(flags&flagLHS) != 0`. -/
inductive CompileFn where
  | compileDeclRefExpr (lhs : Bool)
  | compileMemberExpr (lhs : Bool)
  | compileCallExpr
  | compileImplicitCastExpr
  | compileLiteral (kind : Token)
  | compileStringLiteral
  | compileCharacterLiteral
  | compileTypeCast
  | compileArraySubscriptExpr (lhs : Bool)
  | compileUnaryExprOrTypeTraitExpr
  | compileImplicitValueInitExpr
  | compileConditionalOperator
  | compileImaginaryLiteral
  | compileVAArgExpr
  | compileAtomicExpr
  | compileOffsetOfExpr
deriving DecidableEq, Repr

/-- One action of the body of a compile function on a node `v`. -/
inductive Step where
  /-- A call on the code builder. -/
  | cb (c : CbCall)
  /-- The call `compileExprEx(ctx, v.Inner[inner], prompt, flags)`. -/
  | compileExprEx (inner : Nat) (prompt : String) (flags : Nat)
  /-- The call `pkg.NewAutoParam(name)`. -/
  | NewAutoParam (name : String)
  /-- The call `cb.InternalStack().Pop()`. -/
  | stkPop
  /-- A call of a helper of the package. -/
  | call (h : Helper)
  /-- A call of another compile function on the same node `v`. -/
  | run (fn : CompileFn)
deriving DecidableEq, Repr

/-- What a compile function does: the steps of its body in order and, when the
body ends in `log.Panicln`, the message. -/
structure Emit where
  steps : List Step
  fatal : Option String
deriving DecidableEq, Repr

/-- Answers of the code builder and of the type system that the translated
functions branch on. -/
structure ExprCtx where
  /-- `gox.DerefType(stk.Get(-1).Type)` once `v.Inner[0]` has been compiled. -/
  stkTopType : GoType
  /-- `ctx.sizeof`, that is `int(pkg.Sizeof(typ))`. -/
  sizeof : GoType → Int
  /-- The element size returned by `valOfAddr(cb, addr, ctx)`. -/
  valOfAddrSize : Int
  /-- `isFunc(cb.Get(-1).Type)` once `v.Inner[0]` has been compiled. -/
  stkTopIsFunc : Bool

/-! ## expr.go -/

def flagLHS : Nat := 1
def flagIgnoreResult : Nat := 2

def unknownExprPrompt : String := "compileExpr: unknown kind ="

def addrVarName : String := "_cgo_addr"

/-- The step `compileExpr(ctx, v.Inner[i])`. -/
def compileExpr (i : Nat) : Step := .compileExprEx i unknownExprPrompt 0

/-- The step `compileExprLHS(ctx, v.Inner[i])`. -/
def compileExprLHS (i : Nat) : Step := .compileExprEx i unknownExprPrompt flagLHS

def binaryOps (op : String) : Option Token :=
  if op = "+" then some token.ADD
  else if op = "-" then some token.SUB
  else if op = "*" then some token.MUL
  else if op = "/" then some token.QUO
  else if op = "%" then some token.REM
  else if op = "&" then some token.AND
  else if op = "|" then some token.OR
  else if op = "^" then some token.XOR
  else if op = "<<" then some token.SHL
  else if op = ">>" then some token.SHR
  else if op = "==" then some token.EQL
  else if op = "<" then some token.LSS
  else if op = ">" then some token.GTR
  else if op = "!=" then some token.NEQ
  else if op = "<=" then some token.LEQ
  else if op = ">=" then some token.GEQ
  else if op = "||" then some token.LOR
  else if op = "&&" then some token.LAND
  else none

def assignOps (op : String) : Option Token :=
  if op = "+=" then some token.ADD_ASSIGN
  else if op = "-=" then some token.SUB_ASSIGN
  else if op = "*=" then some token.MUL_ASSIGN
  else if op = "/=" then some token.QUO_ASSIGN
  else if op = "%=" then some token.REM_ASSIGN
  else if op = "&=" then some token.AND_ASSIGN
  else if op = "|=" then some token.OR_ASSIGN
  else if op = "^=" then some token.XOR_ASSIGN
  else if op = "<<=" then some token.SHL_ASSIGN
  else if op = ">>=" then some token.SHR_ASSIGN
  else none

def unaryOps (op : String) : Option Token :=
  if op = "-" then some token.SUB
  else if op = "&" then some token.AND
  else if op = "~" then some token.XOR
  else if op = "!" then some token.NOT
  else none

/-- The body of `closureStart(ctx, retName)` and the result parameter it
returns next to the builder. -/
def closureStart (retName : String) : List Step × Value :=
  ([.NewAutoParam retName, .cb (.NewClosure [.result retName]), .cb .BodyStart],
    .result retName)

/-- The body of `closureStartInitAddr(ctx, v)` and the result parameter. -/
def closureStartInitAddr : List Step × Value :=
  let (start, ret) := closureStart "_cgo_ret"
  (start ++ [.cb (.DefineVarStart addrVarName), compileExprLHS 0,
    .cb (.UnaryOp token.AND), .cb (.EndInit 1)], ret)

def compileSimpleAssignExpr (_v : Node) : Emit :=
  ⟨[compileExprLHS 0, compileExpr 1, .call (.assign 1)], none⟩

def compileAssignExpr (_v : Node) : Emit :=
  let (init, _) := closureStartInitAddr
  let addr := Value.scopeLookup addrVarName
  ⟨init ++ [.cb (.Val addr), .cb .ElemRef, compileExpr 1, .call (.assign 1)]
    ++ [.cb (.Val addr), .cb .Elem, .cb (.Return 1), .cb .End, .cb (.Call 0)], none⟩

def compileSimpleAssignOpExpr (op : Token) (_v : Node) : Emit :=
  ⟨[compileExprLHS 0, compileExpr 1, .call (.assignOp op 1)], none⟩

def compileAssignOpExpr (op : Token) (_v : Node) : Emit :=
  let (init, _) := closureStartInitAddr
  let addr := Value.scopeLookup addrVarName
  ⟨init ++ [.cb (.Val addr), .cb .ElemRef, compileExpr 1, .call (.assignOp op 1)]
    ++ [.cb (.Val addr), .cb .Elem, .cb (.Return 1), .cb .End, .cb (.Call 0)], none⟩

def compileSimpleIncDec (ctx : ExprCtx) (op : Token) (_v : Node) : Emit :=
  let lhs := [compileExprLHS 0]
  match ctx.stkTopType with
  | .Pointer elem =>
    let cast := [.cb (.UnaryOp token.AND), .stkPop, .call (.castPtrType tyUintptrPtr),
      .cb .ElemRef]
    let elemSize := ctx.sizeof elem
    if elemSize ≠ 1 then
      ⟨lhs ++ cast ++ [.cb (.Val (.int elemSize)),
        .cb (.AssignOp (op + (token.ADD_ASSIGN - token.INC)))], none⟩
    else
      ⟨lhs ++ cast ++ [.cb (.IncDec op)], none⟩
  | .Other _ => ⟨lhs ++ [.cb (.IncDec op)], none⟩

def compileIncDec (ctx : ExprCtx) (op : Token) (v : Node) : Emit :=
  let (init, ret) := closureStartInitAddr
  let addr := Value.scopeLookup addrVarName
  let save : List Step := if v.IsPostfix then
    [.cb (.VarRef ret), .cb (.Val addr), .cb .Elem, .cb (.Assign 1)] else []
  let elemSize := ctx.valOfAddrSize
  let modify : List Step := [.call (.valOfAddr addr), .cb .ElemRef] ++
    (if elemSize = 1 then [.cb (.IncDec op)]
     else [.cb (.Val (.int elemSize)), .cb (.AssignOp (op + (token.ADD_ASSIGN - token.INC)))])
  let reread : List Step := if !v.IsPostfix then [.cb (.Val addr), .cb .Elem] else []
  let n : Int := if !v.IsPostfix then 1 else 0
  ⟨init ++ save ++ modify ++ reread ++ [.cb (.Return n), .cb .End, .cb (.Call 0)], none⟩

def compileCommaExpr (_v : Node) (_flags : Nat) : Emit :=
  let (start, _) := closureStart ""
  ⟨start ++ [.compileExprEx 0 unknownExprPrompt flagIgnoreResult, .cb .EndStmt, compileExpr 1,
    .cb (.Return 1), .cb .End, .cb (.Call 0)], none⟩

def compileBinaryExpr (v : Node) (flags : Nat) : Emit :=
  match binaryOps v.OpCode with
  | some op =>
    let isBoolOp := (op == token.LOR || op == token.LAND)
    ⟨[compileExpr 0] ++ (if isBoolOp then [.call .castToBoolExpr] else []) ++ [compileExpr 1]
      ++ (if isBoolOp then [.call .castToBoolExpr, .cb (.BinaryOp op)]
          else [.call (.binaryOp op)]), none⟩
  | none =>
    if v.OpCode = "=" then
      if (flags &&& flagIgnoreResult) ≠ 0 then compileSimpleAssignExpr v
      else compileAssignExpr v
    else if v.OpCode = "," then compileCommaExpr v flags
    else ⟨[], some ("compileBinaryExpr unknown operator: " ++ v.OpCode ++ "\n")⟩

def compileCompoundAssignOperator (v : Node) (flags : Nat) : Emit :=
  match assignOps v.OpCode with
  | some op =>
    if (flags &&& flagIgnoreResult) ≠ 0 then compileSimpleAssignOpExpr op v
    else compileAssignOpExpr op v
  | none => ⟨[], some ("compileCompoundAssignOperator unknown operator: " ++ v.OpCode ++ "\n")⟩

def compileStarExpr (ctx : ExprCtx) (_v : Node) (lhs : Bool) : Emit :=
  if lhs then ⟨[compileExpr 0, .cb .ElemRef], none⟩
  else if !ctx.stkTopIsFunc then ⟨[compileExpr 0, .cb .Elem], none⟩
  else ⟨[compileExpr 0], none⟩

def compileUnaryOperator (ctx : ExprCtx) (v : Node) (flags : Nat) : Emit :=
  let lhs : Bool := (flags &&& flagLHS) ≠ 0
  if v.OpCode = "*" then compileStarExpr ctx v lhs
  else if lhs then
    ⟨[], some ("compileUnaryOperator: not a lhs expression - " ++ v.OpCode ++ "\n")⟩
  else
    match unaryOps v.OpCode with
    | some op => ⟨[compileExpr 0, .call (.unaryOp op)], none⟩
    | none =>
      let incDec (tok : Token) : Emit :=
        if (flags &&& flagIgnoreResult) ≠ 0 then compileSimpleIncDec ctx tok v
        else compileIncDec ctx tok v
      if v.OpCode = "++" then incDec token.INC
      else if v.OpCode = "--" then incDec token.DEC
      else if v.OpCode = "__extension__" then ⟨[compileExpr 0], none⟩
      else if v.OpCode = "+" then ⟨[compileExpr 0], none⟩
      else ⟨[], some ("compileUnaryOperator: unknown operator - " ++ v.OpCode ++ "\n")⟩

def compileExprEx (ctx : ExprCtx) (expr : Node) (prompt : String) (flags : Nat) : Emit :=
  let lhs : Bool := (flags &&& flagLHS) ≠ 0
  if expr.Kind = ast.BinaryOperator then compileBinaryExpr expr flags
  else if expr.Kind = ast.UnaryOperator then compileUnaryOperator ctx expr flags
  else if expr.Kind = ast.DeclRefExpr then ⟨[.run (.compileDeclRefExpr lhs)], none⟩
  else if expr.Kind = ast.MemberExpr then ⟨[.run (.compileMemberExpr lhs)], none⟩
  else if expr.Kind = ast.CallExpr then ⟨[.run .compileCallExpr], none⟩
  else if expr.Kind = ast.CompoundAssignOperator then compileCompoundAssignOperator expr flags
  else if expr.Kind = ast.ImplicitCastExpr then ⟨[.run .compileImplicitCastExpr], none⟩
  else if expr.Kind = ast.IntegerLiteral then ⟨[.run (.compileLiteral token.INT)], none⟩
  else if expr.Kind = ast.StringLiteral then ⟨[.run .compileStringLiteral], none⟩
  else if expr.Kind = ast.CharacterLiteral then ⟨[.run .compileCharacterLiteral], none⟩
  else if expr.Kind = ast.FloatingLiteral then ⟨[.run (.compileLiteral token.FLOAT)], none⟩
  else if expr.Kind = ast.ParenExpr ∨ expr.Kind = ast.ConstantExpr then
    ⟨[.compileExprEx 0 prompt flags], none⟩
  else if expr.Kind = ast.CStyleCastExpr then ⟨[.run .compileTypeCast], none⟩
  else if expr.Kind = ast.ArraySubscriptExpr then ⟨[.run (.compileArraySubscriptExpr lhs)], none⟩
  else if expr.Kind = ast.UnaryExprOrTypeTraitExpr then
    ⟨[.run .compileUnaryExprOrTypeTraitExpr], none⟩
  else if expr.Kind = ast.ImplicitValueInitExpr then ⟨[.run .compileImplicitValueInitExpr], none⟩
  else if expr.Kind = ast.ConditionalOperator then ⟨[.run .compileConditionalOperator], none⟩
  else if expr.Kind = ast.ImaginaryLiteral then ⟨[.run .compileImaginaryLiteral], none⟩
  else if expr.Kind = ast.VAArgExpr then ⟨[.run .compileVAArgExpr], none⟩
  else if expr.Kind = ast.AtomicExpr then ⟨[.run .compileAtomicExpr], none⟩
  else if expr.Kind = ast.OffsetOfExpr then ⟨[.run .compileOffsetOfExpr], none⟩
  else ⟨[], some (prompt ++ " " ++ expr.Kind ++ "\n")⟩

/-- Message of the Go runtime panic raised by a method call or field access
through a nil pointer or nil interface. -/
def nilDeref : String := "runtime error: invalid memory address or nil pointer dereference"

/-- Message of the Go runtime panic raised by `s[0]` on an empty slice. -/
def indexOutOfRange : String := "runtime error: index out of range [0] with length 0"

/-- Modelled from the spec: the cast kind `ast.BuiltinFnToFnPtr` of package
`clang/ast` (`type CastKind string`, spelled as its name), which marks a
reference to a builtin function. -/
def ast.BuiltinFnToFnPtr : String := "BuiltinFnToFnPtr"

/-- Modelled from the spec: the package constant `valistName`, declared in
another file of the package: the name under which "the function's
variable-argument-list object" is found in scope.  Its spelling plays no role
in what is proved. -/
def valistName : String := "__cgo_args"

def isBuiltinFn (fn : Node) : Bool :=
  fn.CastKind = ast.BuiltinFnToFnPtr

/-- The test at the head of `compileCallExpr` on the callee `fn = v.Inner[0]`:
whether the call is one of the builtins `__builtin_va_start` and
`__builtin_va_end`, for which the function returns at once.  It panics when a
builtin callee has no child or its child no referenced declaration. -/
def isVaStartOrEnd (fn : Node) : Except String Bool :=
  if isBuiltinFn fn then
    match fn.Inner with
    | [] => .error indexOutOfRange
    | item :: _ =>
      match item.ReferencedDecl with
      | none => .error nilDeref
      | some name => .ok (name = "__builtin_va_start" ∨ name = "__builtin_va_end")
  else .ok false

/-- The function `compileCallExpr`; `stkTopIsValist` is the answer of
`isEllipsis(ctx, cb)`: whether the value on top of the builder's stack, once the
callee and the arguments are compiled, has the va_list type. -/
def compileCallExpr (stkTopIsValist : Bool) (v : Node) : Emit :=
  let n := v.Inner.length
  match v.Inner with
  | [] => ⟨[], none⟩
  | fn :: _ =>
    match isVaStartOrEnd fn with
    | .error e => ⟨[], some e⟩
    | .ok true => ⟨[], none⟩
    | .ok false =>
      let args := (List.range n).map compileExpr
      let ellipsis : Bool := decide (n > 2) && stkTopIsValist
      let subst : List Step :=
        if ellipsis then [.stkPop, .cb (.Val (.lookupParent valistName))] else []
      ⟨args ++ subst ++ [.cb (.CallWith ((n : Int) - 1) ellipsis)], none⟩

/-! ## blockctx.go: data model -/

/-- Objects bound in a `types.Scope`: a variable, a substitution alias made by
`gox.NewSubstVar(pos, pkg, name, real)`, or any other named object. -/
inductive Object where
  | Var (name : String) (typ : GoType)
  | SubstVar (name : String) (real : Object)
  | Other (name : String)
deriving DecidableEq, Repr

def Object.Name : Object → String
  | .Var name _ => name
  | .SubstVar name _ => name
  | .Other name => name

/-- Go's `types.Scope`, as the objects it holds, oldest first. -/
abbrev Scope := List Object

/-- Go's `(*types.Scope).Lookup`: the object bound to `name`, if any. -/
def Scope.Lookup (s : Scope) (name : String) : Option Object :=
  s.find? (fun o => o.Name == name)

/-- Go's `(*types.Scope).Insert`: if the scope already holds an object `alt`
of the same name, the scope is left unchanged and `alt` is returned; otherwise
the object is inserted and nil is returned. -/
def Scope.Insert (s : Scope) (obj : Object) : Option Object × Scope :=
  match s.Lookup obj.Name with
  | some alt => (some alt, s)
  | none => (none, s ++ [obj])

/-- The value returned by `(*gox.VarDefs).New`: the declared type and name. -/
structure VarDecl where
  typ : GoType
  name : String
deriving DecidableEq, Repr

/-- The object `ret.Ref(name)` of a declaration. -/
def VarDecl.Ref (d : VarDecl) (name : String) : Object := .Var name d.typ

/-- A variable-definition group `gox.VarDefs`: the scope (by reference) it was
made for by `pkg.NewVarDefs(scope)` and the variables declared through it,
oldest first. -/
structure VarDefs where
  scope : Nat
  vars : List VarDecl
deriving DecidableEq, Repr

/-- The method `(*gox.VarDefs).New(pos, typ, name)`: the builder declares the
variable in the scope of the group (`scope.Insert`) and records it in the
group.  When the scope already holds an object of that name, the declaration
is accepted only as a redeclaration, in the package scope, of a variable of
the identical type (the package is made redeclarable for C sources); otherwise
the builder panics with "<name> redeclared in this block" (the position text
of the message is left out).  `scopes` is the store of the scopes, `pkgScope`
the reference of the package scope. -/
def VarDefs.New (p : VarDefs) (scopes : Nat → Scope) (pkgScope : Nat) (typ : GoType)
    (name : String) : Except String (VarDecl × VarDefs × (Nat → Scope)) :=
  match (scopes p.scope).Insert (.Var name typ) with
  | (none, sc) =>
    .ok (⟨typ, name⟩, { p with vars := p.vars ++ [⟨typ, name⟩] },
      Function.update scopes p.scope sc)
  | (some old, _) =>
    if p.scope = pkgScope ∧ old = .Var name typ then
      .ok (⟨typ, name⟩, { p with vars := p.vars ++ [⟨typ, name⟩] }, scopes)
    else .error (name ++ " redeclared in this block")

def VarDefs.Delete (p : VarDefs) (name : String) : VarDefs :=
  { p with vars := p.vars.filter (fun d => d.name != name) }

/-- Kinds of blocks the code builder has open. -/
inductive Block where
  | vblock
  | other
deriving DecidableEq, Repr

/-- The code builder `gox.CodeBuilder`, as far as the translated code depends
on it: the calls issued so far (oldest first) and the blocks currently open
(innermost first). -/
structure CodeBuilder where
  log : List CbCall
  blocks : List Block
deriving DecidableEq, Repr

namespace CodeBuilder
def VBlock (cb : CodeBuilder) : CodeBuilder :=
  { log := cb.log ++ [.VBlock], blocks := .vblock :: cb.blocks }
def End (cb : CodeBuilder) : CodeBuilder :=
  { log := cb.log ++ [.End], blocks := cb.blocks.tail }
def InVBlock (cb : CodeBuilder) : Bool :=
  cb.blocks.head? = some .vblock
def NewLabel (cb : CodeBuilder) (name : String) : Label × CodeBuilder :=
  (⟨name⟩, { cb with log := cb.log ++ [.NewLabel name] })
def Label (cb : CodeBuilder) (l : cl.Label) : CodeBuilder :=
  { cb with log := cb.log ++ [.Label l] }
end CodeBuilder

structure funcCtx where
  labels : List (String × Label)
  /-- Reference to the hoisted-variable group, nil unless the function is
  complicated. -/
  vdefs : Option Nat
  basel : Nat
  basev : Nat
deriving DecidableEq, Repr

def flowKindIf : Nat := 1
def flowKindSwitch : Nat := 2
def flowKindLoop : Nat := 4

/-- A value of the interface `flowCtx`: nil, or a pointer to one of the four
context structs.  The fields `parent` and `kind` are written only when the
struct is created, so they are part of the value; the fields that are
assigned later (`done`, `next`, `defau`, `start`) live in the store
`blockCtx.flows` under the reference `ref`, which stands for the identity of
the struct. -/
inductive flowCtx where
  | nil
  | baseFlowCtx (parent : flowCtx) (kind : Nat)
  | switchCtx (ref : Nat) (parent : flowCtx)
  | ifCtx (ref : Nat) (parent : flowCtx)
  | loopCtx (ref : Nat) (parent : flowCtx)
deriving DecidableEq, Repr

/-- The assignable fields of a `switchCtx`, `ifCtx` or `loopCtx`: `done` (of
the embedded `endLabelCtx`), `next` and `defau` (switch), `start` (loop). -/
structure flowVars where
  done : Option Label
  next : Option Label
  defau : Option Label
  start : Option Label
deriving DecidableEq, Repr

/-- The zero value of the assignable fields. -/
def flowVars.zero : flowVars := ⟨none, none, none, none⟩

/-- The translation context `blockCtx` together with the objects it reaches
by reference: the flow contexts (`flows`, `nflows` of them allocated), the
scopes (`scopes`, with `pkgScope` the reference of `pkg.Types.Scope()`) and
the variable-definition groups (`defs`, `ndefs` of them allocated). -/
structure blockCtx where
  cb : CodeBuilder
  gblvars : String → Option Nat
  curfn : Option funcCtx
  curflow : flowCtx
  flows : Nat → flowVars
  nflows : Nat
  scopes : Nat → Scope
  pkgScope : Nat
  defs : Nat → VarDefs
  ndefs : Nat

/-! ## blockctx.go: function context -/

def funcCtx.newLabel (p : funcCtx) (cb : CodeBuilder) : Label × funcCtx × CodeBuilder :=
  let p1 := { p with basel := p.basel + 1 }
  let name := "_cgol_" ++ Itoa p1.basel
  let (l, cb1) := cb.NewLabel name
  (l, p1, cb1)

def funcCtx.label (p : funcCtx) (cb : CodeBuilder) : Label × funcCtx × CodeBuilder :=
  let (l, p1, cb1) := p.newLabel cb
  (l, p1, cb1.Label l)

def funcCtx.newAutoVar (p : funcCtx) (defs : Nat → VarDefs) (scopes : Nat → Scope)
    (pkgScope : Nat) (typ : GoType) (name : String) :
    Except String ((VarDecl × Object) × funcCtx × (Nat → VarDefs) × (Nat → Scope)) :=
  let p1 := { p with basev := p.basev + 1 }
  let realName := name ++ "_cgo" ++ Itoa p1.basev
  match p1.vdefs with
  | none => .error nilDeref
  | some d =>
    match (defs d).New scopes pkgScope typ realName with
    | .error e => .error e
    | .ok (ret, vd, scopes1) =>
      .ok ((ret, ret.Ref realName), p1, Function.update defs d vd, scopes1)

/-- The function `newFuncCtx(pkg, complicated)`; `scope` is the reference of
`pkg.CB().Scope()`.  The group made by `pkg.NewVarDefs` is allocated in the
store of the translation context. -/
def newFuncCtx (p : blockCtx) (scope : Nat) (complicated : Bool) : funcCtx × blockCtx :=
  let ctx : funcCtx := { labels := [], vdefs := none, basel := 0, basev := 0 }
  if complicated then
    ({ ctx with vdefs := some p.ndefs },
      { p with defs := Function.update p.defs p.ndefs ⟨scope, []⟩, ndefs := p.ndefs + 1 })
  else (ctx, p)

/-! ## blockctx.go: flow contexts -/

def flowCtx.Parent : flowCtx → Except String flowCtx
  | .nil => .error nilDeref
  | .baseFlowCtx parent _ => .ok parent
  | .switchCtx _ parent => .ok parent
  | .ifCtx _ parent => .ok parent
  | .loopCtx _ parent => .ok parent

/-- The method `(*endLabelCtx).EndLabel` of the context stored under `ref`. -/
def endLabelCtx.EndLabel (ref : Nat) (ctx : blockCtx) : Except String (Option Label × blockCtx) :=
  match (ctx.flows ref).done with
  | some done => .ok (some done, ctx)
  | none =>
    match ctx.curfn with
    | none => .error nilDeref
    | some fn =>
      let (done, fn1, cb1) := fn.newLabel ctx.cb
      .ok (some done, { ctx with
        curfn := some fn1, cb := cb1,
        flows := Function.update ctx.flows ref { ctx.flows ref with done := some done } })

/-- The method `EndLabel` of the interface: `baseFlowCtx` has its own, the
other three structs embed `endLabelCtx` and inherit its method. -/
def flowCtx.EndLabel : flowCtx → blockCtx → Except String (Option Label × blockCtx)
  | .nil, _ => .error nilDeref
  | .baseFlowCtx parent kind, ctx =>
    if (kind &&& (flowKindLoop ||| flowKindSwitch)) ≠ 0 then .ok (none, ctx)
    else parent.EndLabel ctx
  | .switchCtx ref _, ctx => endLabelCtx.EndLabel ref ctx
  | .ifCtx ref _, ctx => endLabelCtx.EndLabel ref ctx
  | .loopCtx ref _, ctx => endLabelCtx.EndLabel ref ctx

def flowCtx.ContinueLabel : flowCtx → blockCtx → Except String (Option Label × blockCtx)
  | .nil, _ => .error nilDeref
  | .baseFlowCtx parent kind, ctx =>
    if (kind &&& flowKindLoop) ≠ 0 then .ok (none, ctx)
    else parent.ContinueLabel ctx
  | .switchCtx _ parent, ctx => parent.ContinueLabel ctx
  | .ifCtx _ parent, ctx => parent.ContinueLabel ctx
  | .loopCtx ref _, ctx => .ok ((ctx.flows ref).start, ctx)

/-- The method `(*switchCtx).nextCaseLabel` of the switch stored under `ref`. -/
def switchCtx.nextCaseLabel (ref : Nat) (ctx : blockCtx) : Except String (Label × blockCtx) :=
  match ctx.curfn with
  | none => .error nilDeref
  | some fn =>
    let (l, fn1, cb1) := fn.newLabel ctx.cb
    .ok (l, { ctx with
      curfn := some fn1, cb := cb1,
      flows := Function.update ctx.flows ref { ctx.flows ref with next := some l } })

/-- The method `(*switchCtx).labelDefault` of the switch stored under `ref`. -/
def switchCtx.labelDefault (ref : Nat) (ctx : blockCtx) : Except String blockCtx :=
  match ctx.curfn with
  | none => .error nilDeref
  | some fn =>
    let (l, fn1, cb1) := fn.label ctx.cb
    .ok { ctx with
      curfn := some fn1, cb := cb1,
      flows := Function.update ctx.flows ref { ctx.flows ref with defau := some l } }

/-- The method `(*ifCtx).elseLabel`. -/
def ifCtx.elseLabel (_ref : Nat) (ctx : blockCtx) : Except String (Label × blockCtx) :=
  match ctx.curfn with
  | none => .error nilDeref
  | some fn =>
    let (l, fn1, cb1) := fn.newLabel ctx.cb
    .ok (l, { ctx with curfn := some fn1, cb := cb1 })

/-- The method `(*loopCtx).labelStart` of the loop stored under `ref`. -/
def loopCtx.labelStart (ref : Nat) (ctx : blockCtx) : Except String blockCtx :=
  match ctx.curfn with
  | none => .error nilDeref
  | some fn =>
    let (l, fn1, cb1) := fn.label ctx.cb
    .ok { ctx with
      curfn := some fn1, cb := cb1,
      flows := Function.update ctx.flows ref { ctx.flows ref with start := some l } }

/-! ## blockctx.go: the translation context -/

namespace blockCtx

def newVar (p : blockCtx) (scope : Nat) (typ : GoType) (name : String) :
    Except String ((VarDecl × Bool) × blockCtx) :=
  if p.cb.InVBlock then
    match p.curfn with
    | none => .error nilDeref
    | some fn =>
      match fn.newAutoVar p.defs p.scopes p.pkgScope typ name with
      | .error e => .error e
      | .ok ((ret, obj), fn1, defs1, scopes1) =>
        let (alt, sc) := (scopes1 scope).Insert (.SubstVar name obj)
        if alt ≠ none then
          .error ("newVar: variable " ++ name ++ " exists already\n")
        else
          .ok ((ret, true), { p with
            curfn := some fn1, defs := defs1,
            scopes := Function.update scopes1 scope sc })
  else
    let inGlobal : Bool := scope = p.pkgScope
    let (defs1, gblvars1) :=
      if inGlobal then
        match p.gblvars name with
        | some d =>
          (Function.update p.defs d ((p.defs d).Delete name), Function.update p.gblvars name none)
        | none => (p.defs, p.gblvars)
      else (p.defs, p.gblvars)
    let d := p.ndefs
    match (VarDefs.mk scope []).New p.scopes p.pkgScope typ name with
    | .error e => .error e
    | .ok (ret, vd, scopes1) =>
      .ok ((ret, false), { p with
        defs := Function.update defs1 d vd, ndefs := p.ndefs + 1, scopes := scopes1,
        gblvars := if inGlobal then Function.update gblvars1 name (some d) else gblvars1 })

def enterIf (p : blockCtx) : flowCtx × blockCtx :=
  let f := flowCtx.ifCtx p.nflows p.curflow
  (f, { p with
    flows := Function.update p.flows p.nflows flowVars.zero, nflows := p.nflows + 1,
    cb := p.cb.VBlock, curflow := f })

def enterSwitch (p : blockCtx) : flowCtx × blockCtx :=
  let f := flowCtx.switchCtx p.nflows p.curflow
  (f, { p with
    flows := Function.update p.flows p.nflows flowVars.zero, nflows := p.nflows + 1,
    cb := p.cb.VBlock, curflow := f })

def enterLoop (p : blockCtx) : flowCtx × blockCtx :=
  let f := flowCtx.loopCtx p.nflows p.curflow
  (f, { p with
    flows := Function.update p.flows p.nflows flowVars.zero, nflows := p.nflows + 1,
    cb := p.cb.VBlock, curflow := f })

def enterFlow (p : blockCtx) (kind : Nat) : flowCtx × blockCtx :=
  let f := flowCtx.baseFlowCtx p.curflow kind
  (f, { p with curflow := f })

def leave (p : blockCtx) (cur : flowCtx) : Except String blockCtx :=
  let simple : Bool := match cur with
    | .baseFlowCtx _ _ => true
    | _ => false
  let cb1 := if !simple then p.cb.End else p.cb
  match cur.Parent with
  | .error e => .error e
  | .ok parent => .ok { p with cb := cb1, curflow := parent }

end blockCtx

/-! ## Vocabulary of the statements -/

/-- `StackedOn L f`: the context `f` is `L` itself or is reached from `L` by
stacking `ifCtx`, `switchCtx` and plain-flow contexts of kind If or Switch on
top of it. -/
inductive StackedOn (L : flowCtx) : flowCtx → Prop where
  | self : StackedOn L L
  | ifCtx (ref : Nat) {p : flowCtx} : StackedOn L p → StackedOn L (.ifCtx ref p)
  | switchCtx (ref : Nat) {p : flowCtx} : StackedOn L p → StackedOn L (.switchCtx ref p)
  | flow (kind : Nat) {p : flowCtx} : kind = flowKindIf ∨ kind = flowKindSwitch →
      StackedOn L p → StackedOn L (.baseFlowCtx p kind)

/-- The four enter operations of `blockCtx`. -/
inductive Enter where
  | enterIf
  | enterSwitch
  | enterLoop
  | enterFlow (kind : Nat)
deriving DecidableEq, Repr

/-- The enter operation named by `e`. -/
def Enter.run (e : Enter) (p : blockCtx) : flowCtx × blockCtx :=
  match e with
  | .enterIf => p.enterIf
  | .enterSwitch => p.enterSwitch
  | .enterLoop => p.enterLoop
  | .enterFlow kind => p.enterFlow kind

/-- A properly nested sequence of enter/leave pairs: nothing, or a pair
`enter ... leave` around a nested sequence, followed by a nested sequence. -/
inductive Nesting where
  | done
  | pair (e : Enter) (body : Nesting) (rest : Nesting)
deriving Repr

/-- Runs a properly nested sequence: each `leave` is called on the context
returned by the matching enter operation. -/
def Nesting.run : Nesting → blockCtx → Except String blockCtx
  | .done, p => .ok p
  | .pair e body rest, p =>
    match body.run (e.run p).2 with
    | .error err => .error err
    | .ok p2 =>
      match p2.leave (e.run p).1 with
      | .error err => .error err
      | .ok p3 => rest.run p3

/-- The label-allocating operations of `blockctx.go`: `newLabel` and `label`
of the current function context, `EndLabel` of a flow context, and the
methods of the switch, if and loop context stored under `ref`. -/
inductive LabelOp where
  | newLabel
  | label
  | EndLabel (f : flowCtx)
  | nextCaseLabel (ref : Nat)
  | elseLabel (ref : Nat)
  | labelDefault (ref : Nat)
  | labelStart (ref : Nat)
deriving DecidableEq, Repr

/-- One label operation on the translation context; `newLabel` and `label`
are called as `ctx.curfn.newLabel(ctx.cb)` and `ctx.curfn.label(ctx.cb)`. -/
def LabelOp.run : LabelOp → blockCtx → Except String blockCtx
  | .newLabel, ctx =>
    match ctx.curfn with
    | none => .error nilDeref
    | some fn =>
      .ok { ctx with curfn := some (fn.newLabel ctx.cb).2.1, cb := (fn.newLabel ctx.cb).2.2 }
  | .label, ctx =>
    match ctx.curfn with
    | none => .error nilDeref
    | some fn =>
      .ok { ctx with curfn := some (fn.label ctx.cb).2.1, cb := (fn.label ctx.cb).2.2 }
  | .EndLabel f, ctx => (f.EndLabel ctx).map Prod.snd
  | .nextCaseLabel ref, ctx => (switchCtx.nextCaseLabel ref ctx).map Prod.snd
  | .elseLabel ref, ctx => (ifCtx.elseLabel ref ctx).map Prod.snd
  | .labelDefault ref, ctx => switchCtx.labelDefault ref ctx
  | .labelStart ref, ctx => loopCtx.labelStart ref ctx

/-- A sequence of label operations, stopped by the first that panics. -/
def runLabelOps : List LabelOp → blockCtx → Except String blockCtx
  | [], ctx => .ok ctx
  | op :: ops, ctx =>
    match op.run ctx with
    | .error err => .error err
    | .ok ctx1 => runLabelOps ops ctx1

/-- The names of the labels created by a run of builder calls
(`cb.NewLabel`), in order. -/
def labelsCreated (log : List CbCall) : List String :=
  log.filterMap (fun c => match c with
    | .NewLabel name => some name
    | _ => none)

/-- Successive calls of `newAutoVar` on one function context, one per entry
of `vars` (type and source name); returns the storage names synthesized, in
call order. -/
def newAutoVars (pkgScope : Nat) : List (GoType × String) → funcCtx → (Nat → VarDefs) →
    (Nat → Scope) → Except String (List String × funcCtx × (Nat → VarDefs) × (Nat → Scope))
  | [], p, defs, scopes => .ok ([], p, defs, scopes)
  | (typ, name) :: vars, p, defs, scopes =>
    match p.newAutoVar defs scopes pkgScope typ name with
    | .error err => .error err
    | .ok ((ret, _), p1, defs1, scopes1) =>
      match newAutoVars pkgScope vars p1 defs1 scopes1 with
      | .error err => .error err
      | .ok (names, p2, defs2, scopes2) => .ok (ret.name :: names, p2, defs2, scopes2)

/-- A translation context at the start of a complicated function: nothing
issued to the builder yet, no flow context, empty scopes. -/
def blockCtx.start : blockCtx :=
  { cb := ⟨[], []⟩, gblvars := fun _ => none, curfn := some ⟨[], some 0, 0, 0⟩,
    curflow := .nil, flows := fun _ => flowVars.zero, nflows := 0,
    scopes := fun _ => [], pkgScope := 0, defs := fun _ => ⟨1, []⟩, ndefs := 1 }

/-- Number of steps of a body that compile the child `v.Inner[i]`. -/
def timesCompiled (i : Nat) (steps : List Step) : Nat :=
  steps.countP (fun s => match s with
    | .compileExprEx j _ _ => j == i
    | _ => false)

/-- The object a step reads or writes through, when it names one. -/
def Step.operand : Step → Option Value
  | .cb (.Val v) => some v
  | .cb (.VarRef v) => some v
  | .call (.valOfAddr v) => some v
  | _ => none

/-- Number of closures a body creates (`cb.NewClosure` calls among its own
steps). -/
def closuresCreated (steps : List Step) : Nat :=
  steps.countP (fun s => match s with
    | .cb (.NewClosure _) => true
    | _ => false)

/-- Whether a step is a statement that modifies the location on the stack:
`cb.IncDec` or `cb.AssignOp`. -/
def Step.modifies : Step → Bool
  | .cb (.IncDec _) => true
  | .cb (.AssignOp _) => true
  | _ => false

/-- Whether a step stores into the location on the stack: a modifying
statement, or the helper `assign` / `assignOp`. -/
def Step.stores : Step → Bool
  | .call (.assign _) => true
  | .call (.assignOp _ _) => true
  | s => s.modifies

/-- Go's meaning of the statement handed to the builder for a `uintptr`
location `x`: the signed number of bytes by which `x++`, `x--`, `x += k` and
`x -= k` move the address (the statement is given as the steps that push its
right operand, if it has one, and apply it). -/
def uintptrDelta : List Step → Option Int
  | [.cb (.IncDec op)] =>
    if op = token.INC then some 1 else if op = token.DEC then some (-1) else none
  | [.cb (.Val (.int k)), .cb (.AssignOp op)] =>
    if op = token.ADD_ASSIGN then some k else if op = token.SUB_ASSIGN then some (-k) else none
  | _ => none

/-- The node kinds named in the `case` clauses of `compileExprEx`. -/
def listedKinds : List String :=
  [ast.BinaryOperator, ast.UnaryOperator, ast.DeclRefExpr, ast.MemberExpr, ast.CallExpr,
    ast.CompoundAssignOperator, ast.ImplicitCastExpr, ast.IntegerLiteral, ast.StringLiteral,
    ast.CharacterLiteral, ast.FloatingLiteral, ast.ParenExpr, ast.ConstantExpr,
    ast.CStyleCastExpr, ast.ArraySubscriptExpr, ast.UnaryExprOrTypeTraitExpr,
    ast.ImplicitValueInitExpr, ast.ConditionalOperator, ast.ImaginaryLiteral, ast.VAArgExpr,
    ast.AtomicExpr, ast.OffsetOfExpr]

/-! ## blockctx.go: struct and bit-field view -/

/-- A bit-field descriptor `gox.BitField`: its own name, the name of the
struct field that stores it, its bit offset and its width. -/
structure BitField where
  Name : String
  FldName : String
  Off : Int
  Bits : Int
deriving DecidableEq, Repr

/-- The type of a struct field (`types.Type`): a Go type, or the view type
`bfType` of `blockctx.go`, which wraps a field type, a bit-field descriptor
and the flag `first`. -/
inductive FieldType where
  | type (t : GoType)
  | bfType (typ : FieldType) (bf : BitField) (first : Bool)
deriving DecidableEq, Repr

/-- A struct field `*types.Var`, as made by
`types.NewField(token.NoPos, pkg, name, typ, false)`. -/
structure Var where
  Name : String
  Typ : FieldType
deriving DecidableEq, Repr

/-- A struct type `*types.Struct`: its fields in order (`NumFields`, `Field`). -/
abbrev Struct := List Var

/-- The types `offsetof` tells apart: a struct, a named type with its
underlying type, or any other type. -/
inductive TypeExpr where
  | Struct (t : Struct)
  | Named (name : String) (underlying : TypeExpr)
  | Other (t : GoType)
deriving Repr

/-- The virtual-field metadata `gox.VFields` of a named type: bit-fields
(`*gox.BitFields`), or any other implementation of the interface. -/
inductive VFields where
  | BitFields (v : List BitField)
  | Other
deriving DecidableEq, Repr

/-- Answers of the package `gox.Package` used by the struct queries:
`Offsetsof` (the layout offsets of a field list, one per field), `VFields` (the
metadata registered for a named type, found by the type's name) and the
`%v` rendering of a type in messages. -/
structure Package where
  Offsetsof : List Var → List Int
  Offsetsof_length : ∀ flds, (Offsetsof flds).length = flds.length
  VFields : String → Option VFields
  Sprint : TypeExpr → String

/-- The loop of `getFld`: `rest` are the fields from index `i` on, `flds` the
fields appended so far. -/
def getFldLoop (name : String) : List Var → Nat → List Var → List Var × Int
  | [], _, _ => ([], -1)
  | f :: rest, i, flds =>
    if f.Name = name then (flds ++ [f], (i : Int))
    else getFldLoop name rest (i + 1) (flds ++ [f])

/-- The function `getFld(t, name, from)`. -/
def getFld (t : Struct) (name : String) (frm : Nat) : List Var × Int :=
  getFldLoop name (t.drop frm) frm []

/-- The method `offsetof` of `blockCtx` (it reads only `p.pkg`). -/
def offsetof (pkg : Package) : TypeExpr → String → Except String Int
  | .Struct t, name =>
    if (getFld t name 0).2 ≥ 0 then
      match (pkg.Offsetsof (getFld t name 0).1)[(getFld t name 0).2.toNat]? with
      | some off => .ok off
      | none => .error "runtime error: index out of range"
    else
      .error ("offsetof(" ++ pkg.Sprint (.Struct t) ++ ", " ++ name ++ "): field not found")
  | .Named _ underlying, name => offsetof pkg underlying name
  | .Other t, name =>
    .error ("offsetof(" ++ pkg.Sprint (.Other t) ++ ", " ++ name ++ "): field not found")

/-- The function `compileOffsetOfExpr`, given the type `t` that `toType` makes
of the first parameter of `__builtin_offsetof` and the field name `name`. -/
def compileOffsetOfExpr (pkg : Package) (t : TypeExpr) (name : String) : Emit :=
  match offsetof pkg t name with
  | .ok off => ⟨[.cb (.Val (.int off))], none⟩
  | .error e => ⟨[], some e⟩

/-- The inner loop of `buildVStruct`: the bit-fields that follow the first
one of a run and share its `FldName` become fields of type `bfType` with
`first = false`; returns these fields and the bit-fields left. -/
def bitfieldRun (typ : FieldType) (name : String) : List BitField → List Var × List BitField
  | [] => ([], [])
  | nextf :: rest =>
    if nextf.FldName ≠ name then ([], nextf :: rest)
    else (⟨nextf.Name, .bfType typ nextf false⟩ :: (bitfieldRun typ name rest).1,
      (bitfieldRun typ name rest).2)

/-- The outer loop of `buildVStruct`: `bfs` are the bit-fields from index `i`
on, `fuel` bounds the number of iterations left (`n - i`); returns `from` and
`vFlds` at the end of the loop. -/
def buildVStructLoop (struc : Struct) :
    Nat → List BitField → Nat → List Var → Except String (Nat × List Var)
  | 0, _, frm, vFlds => .ok (frm, vFlds)
  | _ + 1, [], frm, vFlds => .ok (frm, vFlds)
  | fuel + 1, f :: rest, frm, vFlds =>
    let name := f.FldName
    let flds := (getFld struc name frm).1
    let idx := (getFld struc name frm).2
    if idx < 0 then .error ("buildVStruct: field not found - " ++ name ++ "\n")
    else
      match flds[(idx - frm).toNat]? with
      | none => .error "runtime error: index out of range"
      | some realf =>
        let vFlds1 := vFlds ++ flds.take (idx - frm).toNat ++
          [⟨f.Name, .bfType realf.Typ f true⟩]
        buildVStructLoop struc fuel (bitfieldRun realf.Typ name rest).2 (idx + 1).toNat
          (vFlds1 ++ (bitfieldRun realf.Typ name rest).1)

/-- The method `buildVStruct` of `blockCtx`. -/
def buildVStruct (struc : Struct) (vfs : VFields) : Except String Struct :=
  match vfs with
  | .BitFields v =>
    match buildVStructLoop struc v.length v 0 [] with
    | .error e => .error e
    | .ok (frm, vFlds) => .ok (vFlds ++ struc.drop frm)
  | .Other => .ok struc

/-- The method `getVStruct` of `blockCtx` on the named type `name` with the
given underlying type. -/
def getVStruct (pkg : Package) (name : String) (underlying : TypeExpr) : Except String Struct :=
  match underlying with
  | .Struct t =>
    match pkg.VFields name with
    | some vfs => buildVStruct t vfs
    | none => .ok t
  | _ => .error "interface conversion: types.Type is not *types.Struct"

/-- The chain of named types around a type removed. -/
def TypeExpr.unwrap : TypeExpr → TypeExpr
  | .Named _ underlying => underlying.unwrap
  | t => t

/-- The synthetic fields that replace the storage slot `slot` for the run
`run` of bit-fields: one per bit-field, named as the bit-field, typed as a
`bfType` of the slot's type and that bit-field; the first one has
`first = true`, the others `first = false`. -/
def synthFields (slot : Var) : List BitField → List Var
  | [] => []
  | b :: bs => ⟨b.Name, .bfType slot.Typ b true⟩ ::
      bs.map (fun c => ⟨c.Name, .bfType slot.Typ c false⟩)

/-- The field list the struct view is specified to have: the fields of the
struct in order, where the first field named as the storage slot of the next
run of bit-fields is replaced by the synthetic fields of that run, and every
other field is kept.  It fails when fields run out while a run is left. -/
def viewFields : Struct → List BitField → Except String (List Var)
  | s, [] => .ok s
  | [], b :: _ => .error ("buildVStruct: field not found - " ++ b.FldName ++ "\n")
  | f :: s, b :: bs =>
    if f.Name = b.FldName then
      (viewFields s (bs.dropWhile (fun c => c.FldName = b.FldName))).map
        (fun r => synthFields f (b :: bs.takeWhile (fun c => c.FldName = b.FldName)) ++ r)
    else (viewFields s (b :: bs)).map (fun r => f :: r)

/-- Number of runs of consecutive bit-fields with the same `FldName`. -/
def numRuns : List BitField → Nat
  | [] => 0
  | [_] => 1
  | b :: c :: rest => (if b.FldName = c.FldName then 0 else 1) + numRuns (c :: rest)

/-- `SlotsInOrder s v`: the storage slot of every run of `v` occurs in `s`
after the slot of the previous run (the slot of a run being the first field
of that name from there on). -/
inductive SlotsInOrder : Struct → List BitField → Prop where
  | done (s : Struct) : SlotsInOrder s []
  | run (pre : List Var) (slot : Var) (post : List Var) (b : BitField) (bs : List BitField) :
      slot.Name = b.FldName → (∀ f ∈ pre, f.Name ≠ b.FldName) →
      SlotsInOrder post (bs.dropWhile (fun c => c.FldName = b.FldName)) →
      SlotsInOrder (pre ++ slot :: post) (b :: bs)

/-- A package for the examples: every field takes 4 bytes in the layout, the
named type `struct_foo` carries the bit-fields `a` and `b`, both stored in
the field `a_`, and types are printed by their kind. -/
def Package.sample : Package where
  Offsetsof := fun flds => List.map (fun i : Nat => 4 * (i : Int)) (List.range flds.length)
  Offsetsof_length := fun flds => by rw [List.length_map, List.length_range]
  VFields := fun name =>
    if name = "struct_foo" then some (.BitFields [⟨"a", "a_", 0, 3⟩, ⟨"b", "a_", 3, 5⟩])
    else none
  Sprint := fun t => match t with
    | .Struct _ => "struct"
    | .Named name _ => name
    | .Other _ => "other"

/-! ## blockctx.go: scanning the source text

A byte string (`[]byte`) is the list of its bytes, each written as the
character of that code.  The classifications below depend on ASCII codes only:
every byte from 0x80 on is neither a blank nor an identifier character, as for
the runes Go decodes from such bytes. -/

def space : String := " \t\r\n"

/-- The test `ctype.Is(ctype.CSYMBOL_NEXT_CHAR, r)` of package
`github.com/qiniu/x/ctype`: an ASCII letter, an ASCII digit or the underscore. -/
def isCSymbolNextChar (r : Char) : Bool :=
  r.isAlphanum || r == '_'

/-- Go's `bytes.TrimLeft(b, cutset)` for an ASCII cutset. -/
def TrimLeft (b : List Char) (cutset : String) : List Char :=
  b.dropWhile (fun c => cutset.toList.contains c)

/-- The scan of Go's `bytes.IndexFunc`: `rest` is the text from index `i` on. -/
def IndexFuncLoop (f : Char → Bool) : List Char → Nat → Int
  | [], _ => -1
  | c :: rest, i => if f c then (i : Int) else IndexFuncLoop f rest (i + 1)

/-- Go's `bytes.IndexFunc(b, f)`: the index of the first character that
satisfies `f`, or -1 if none does. -/
def IndexFunc (b : List Char) (f : Char → Bool) : Int :=
  IndexFuncLoop f b 0

/-- The function `ident(b, msg)`. -/
def ident (b : List Char) (msg : String) : Except String String :=
  let b1 := TrimLeft b space
  let idx := IndexFunc b1 (fun r => !isCSymbolNextChar r)
  if idx ≤ 0 then .error (msg ++ "\n")
  else .ok (String.mk (b1.take idx.toNat))

/-- The method `labelOfGoto` of `blockCtx`: `src` is the source text returned
by `p.getSource()`, `off` and `n` are `v.Range.Begin.Offset` and
`v.Range.Begin.TokLen`.  Slicing beyond the text is a runtime panic. -/
def labelOfGoto (src : List Char) (off n : Nat) : Except String String :=
  if off + n > src.length then .error "runtime error: slice bounds out of range"
  else
    let op := String.mk ((src.drop off).take n)
    if op ≠ "goto" then .error ("gotoOp: " ++ op ++ "\n")
    else ident (src.drop (off + n)) "label not found"

/-! ## Theorems -/

/-- C1: in the result-ignored forms and in the closure forms of assignment,
compound assignment and increment/decrement the operand `v.Inner[0]` is
compiled exactly once.  In the closure forms the body starts with
`closureStartInitAddr`, whose single compilation of the operand initialises
`_cgo_addr` (`DefineVarStart`, the operand as an lvalue, `&`, `EndInit(1)`);
the rest of the body never compiles the operand again, and every object it
reads or writes through is `_cgo_addr` (or the result parameter, or an
integer constant), `_cgo_addr` at least once. -/
theorem lvalue_compiled_once (ctx : ExprCtx) (op : Token) (v : Node) :
    timesCompiled 0 (compileSimpleAssignExpr v).steps = 1 ∧
    timesCompiled 0 (compileSimpleAssignOpExpr op v).steps = 1 ∧
    timesCompiled 0 (compileSimpleIncDec ctx op v).steps = 1 ∧
    timesCompiled 0 (compileAssignExpr v).steps = 1 ∧
    timesCompiled 0 (compileAssignOpExpr op v).steps = 1 ∧
    timesCompiled 0 (compileIncDec ctx op v).steps = 1 ∧
    (∃ pre, closureStartInitAddr.1 = pre ++ [.cb (.DefineVarStart addrVarName),
        compileExprLHS 0, .cb (.UnaryOp token.AND), .cb (.EndInit 1)] ∧
      timesCompiled 0 pre = 0) ∧
    (∀ e ∈ [compileAssignExpr v, compileAssignOpExpr op v, compileIncDec ctx op v],
      ∃ rest, e.steps = closureStartInitAddr.1 ++ rest ∧ timesCompiled 0 rest = 0 ∧
        (∀ s ∈ rest, ∀ x, s.operand = some x →
          x = .scopeLookup addrVarName ∨ x = .result "_cgo_ret" ∨ ∃ k, x = .int k) ∧
        (∃ s ∈ rest, s.operand = some (.scopeLookup addrVarName))) := by
  refine ⟨by simp [timesCompiled, compileSimpleAssignExpr, compileExprLHS, compileExpr],
    by simp [timesCompiled, compileSimpleAssignOpExpr, compileExprLHS, compileExpr],
    ?_, by simp [timesCompiled, compileAssignExpr, closureStartInitAddr, closureStart,
      compileExprLHS, compileExpr],
    by simp [timesCompiled, compileAssignOpExpr, closureStartInitAddr, closureStart,
      compileExprLHS, compileExpr], ?_, ?_, ?_⟩
  · unfold compileSimpleIncDec
    cases ctx.stkTopType with
    | Pointer elem =>
      by_cases h : ctx.sizeof elem = 1 <;> simp [timesCompiled, compileExprLHS, h]
    | Other t => simp [timesCompiled, compileExprLHS]
  · unfold compileIncDec
    cases v.IsPostfix <;> by_cases h : ctx.valOfAddrSize = 1 <;>
      simp [timesCompiled, closureStartInitAddr, closureStart, compileExprLHS, h]
  · exact ⟨(closureStart "_cgo_ret").1, by simp [closureStartInitAddr],
      by simp [timesCompiled, closureStart]⟩
  · intro e he
    simp only [List.mem_cons, List.mem_singleton, List.not_mem_nil, or_false] at he
    rcases he with rfl | rfl | rfl
    · refine ⟨_, by simp only [compileAssignExpr, List.append_assoc]; rfl, ?_, ?_, ?_⟩
      · simp [timesCompiled, compileExpr]
      · simp [Step.operand, compileExpr]
      · exact ⟨.cb (.Val (.scopeLookup addrVarName)), by simp, rfl⟩
    · refine ⟨_, by simp only [compileAssignOpExpr, List.append_assoc]; rfl, ?_, ?_, ?_⟩
      · simp [timesCompiled, compileExpr]
      · simp [Step.operand, compileExpr]
      · exact ⟨.cb (.Val (.scopeLookup addrVarName)), by simp, rfl⟩
    · refine ⟨_, by simp only [compileIncDec, List.append_assoc]; rfl, ?_, ?_, ?_⟩
      · cases v.IsPostfix <;> by_cases h : ctx.valOfAddrSize = 1 <;>
          simp [timesCompiled, h]
      · cases v.IsPostfix <;> by_cases h : ctx.valOfAddrSize = 1 <;>
          simp [Step.operand, closureStartInitAddr, closureStart, h]
      · exact ⟨.call (.valOfAddr (.scopeLookup addrVarName)), by simp, rfl⟩

/-- C2: for a pointer-typed operand with pointee size `k` the result-ignored
`++`/`--` compiles the operand, reinterprets the location (`&`, `castPtrType`
to `*uintptr`, `ElemRef`) and then issues exactly one modifying statement: for
`k != 1` the operand `k` and `AssignOp(op + (ADD_ASSIGN - INC))`, which is
`ADD_ASSIGN` for `++` and `SUB_ASSIGN` for `--`; for `k = 1` the plain
`IncDec(op)` with no size operand.  Either way the address moves by exactly
`k` bytes (`+k` for `++`, `-k` for `--`).  `compileIncDec` makes the same
choice on the size returned by `valOfAddr`, and no other step of its body
modifies the location. -/
theorem pointer_incdec_scaled_once (ctx : ExprCtx) (op : Token) (v : Node) (elem : GoType)
    (hptr : ctx.stkTopType = .Pointer elem) (hop : op = token.INC ∨ op = token.DEC) :
    (∃ stmt,
      (compileSimpleIncDec ctx op v).steps =
        [compileExprLHS 0, .cb (.UnaryOp token.AND), .stkPop,
          .call (.castPtrType tyUintptrPtr), .cb .ElemRef]
          ++ stmt ∧
      (compileSimpleIncDec ctx op v).fatal = none ∧
      (ctx.sizeof elem ≠ 1 → stmt = [.cb (.Val (.int (ctx.sizeof elem))),
          .cb (.AssignOp (op + (token.ADD_ASSIGN - token.INC)))] ∧
        op + (token.ADD_ASSIGN - token.INC) =
          (if op = token.INC then token.ADD_ASSIGN else token.SUB_ASSIGN)) ∧
      (ctx.sizeof elem = 1 → stmt = [.cb (.IncDec op)]) ∧
      uintptrDelta stmt =
        some (if op = token.INC then ctx.sizeof elem else - ctx.sizeof elem)) ∧
    (∃ pre stmt post,
      (compileIncDec ctx op v).steps =
        pre ++ [.call (.valOfAddr (.scopeLookup addrVarName)), .cb .ElemRef] ++ stmt ++ post ∧
      (∀ s ∈ pre ++ post, s.modifies = false) ∧
      (ctx.valOfAddrSize ≠ 1 → stmt = [.cb (.Val (.int ctx.valOfAddrSize)),
          .cb (.AssignOp (if op = token.INC then token.ADD_ASSIGN else token.SUB_ASSIGN))]) ∧
      (ctx.valOfAddrSize = 1 → stmt = [.cb (.IncDec op)]) ∧
      uintptrDelta stmt =
        some (if op = token.INC then ctx.valOfAddrSize else - ctx.valOfAddrSize)) := by
  constructor
  · unfold compileSimpleIncDec
    rw [hptr]
    by_cases h : ctx.sizeof elem = 1
    · refine ⟨[.cb (.IncDec op)], by simp [h], by simp [h], by simp [h], fun _ => rfl, ?_⟩
      rcases hop with rfl | rfl <;> simp [uintptrDelta, h, token.INC, token.DEC]
    · refine ⟨[.cb (.Val (.int (ctx.sizeof elem))),
        .cb (.AssignOp (op + (token.ADD_ASSIGN - token.INC)))], by simp [h], by simp [h],
        fun _ => ⟨rfl, ?_⟩, fun h1 => absurd h1 h, ?_⟩
      · rcases hop with rfl | rfl <;>
          simp [token.INC, token.DEC, token.ADD_ASSIGN, token.SUB_ASSIGN]
      · rcases hop with rfl | rfl <;>
          simp [uintptrDelta, token.INC, token.DEC, token.ADD_ASSIGN, token.SUB_ASSIGN]
  · unfold compileIncDec
    by_cases h : ctx.valOfAddrSize = 1
    · refine ⟨(closureStartInitAddr.1 ++ (if v.IsPostfix then
          [.cb (.VarRef closureStartInitAddr.2), .cb (.Val (.scopeLookup addrVarName)),
            .cb .Elem, .cb (.Assign 1)] else [])),
        [.cb (.IncDec op)],
        ((if !v.IsPostfix then [.cb (.Val (.scopeLookup addrVarName)), .cb .Elem] else []) ++
          [.cb (.Return (if !v.IsPostfix then 1 else 0)), .cb .End, .cb (.Call 0)]),
        by simp [h], ?_, fun h1 => absurd h h1, fun _ => rfl, ?_⟩
      · cases v.IsPostfix <;> simp [Step.modifies, closureStartInitAddr, closureStart,
          compileExprLHS]
      · rcases hop with rfl | rfl <;> simp [uintptrDelta, h, token.INC, token.DEC]
    · refine ⟨(closureStartInitAddr.1 ++ (if v.IsPostfix then
          [.cb (.VarRef closureStartInitAddr.2), .cb (.Val (.scopeLookup addrVarName)),
            .cb .Elem, .cb (.Assign 1)] else [])),
        [.cb (.Val (.int ctx.valOfAddrSize)),
          .cb (.AssignOp (op + (token.ADD_ASSIGN - token.INC)))],
        ((if !v.IsPostfix then [.cb (.Val (.scopeLookup addrVarName)), .cb .Elem] else []) ++
          [.cb (.Return (if !v.IsPostfix then 1 else 0)), .cb .End, .cb (.Call 0)]),
        by simp [h], ?_, fun _ => ?_, fun h1 => absurd h1 h, ?_⟩
      · cases v.IsPostfix <;> simp [Step.modifies, closureStartInitAddr, closureStart,
          compileExprLHS]
      · rcases hop with rfl | rfl <;>
          simp [token.INC, token.DEC, token.ADD_ASSIGN, token.SUB_ASSIGN]
      · rcases hop with rfl | rfl <;>
          simp [uintptrDelta, token.INC, token.DEC, token.ADD_ASSIGN, token.SUB_ASSIGN]

/-- Witness of C2: `p++` on a pointer to a 4-byte element. -/
theorem pointer_incdec_scaled_once_witness :
    (∃ stmt,
      (compileSimpleIncDec ⟨.Pointer (.Other "int"), fun _ => 4, 4, false⟩ token.INC
          (.mk ast.UnaryOperator "++" true "" "" none [])).steps =
        [compileExprLHS 0, .cb (.UnaryOp token.AND), .stkPop,
          .call (.castPtrType tyUintptrPtr), .cb .ElemRef]
          ++ stmt ∧
      uintptrDelta stmt = some 4) := by
  obtain ⟨⟨stmt, h1, _, _, _, h5⟩, _⟩ :=
    pointer_incdec_scaled_once ⟨.Pointer (.Other "int"), fun _ => 4, 4, false⟩ token.INC
      (.mk ast.UnaryOperator "++" true "" "" none []) (.Other "int") rfl (Or.inl rfl)
  exact ⟨stmt, h1, by simpa using h5⟩

/-- C3: in the closure forms, plain assignment, compound assignment and prefix
`++`/`--` end with the store followed by a re-read of the location through
`_cgo_addr` (`Val(addr).Elem()`), `Return(1)`, `End()` and `Call(0)`, and never
write the named result.  Postfix `++`/`--` copies the location into the named
result `_cgo_ret` (`VarRef(ret).Val(addr).Elem().Assign(1)`) right after
`_cgo_addr` is initialised and before any storing step, then modifies the
location and ends with `Return(0)`, `End()`, `Call(0)`.  The closure is created
with `_cgo_ret` as its only result, and the last step of every form is
`Call(0)`. -/
theorem closure_returned_value (ctx : ExprCtx) (op : Token) (v : Node) :
    (∃ pre, (compileAssignExpr v).steps = pre ++ [.call (.assign 1)] ++
        [.cb (.Val (.scopeLookup addrVarName)), .cb .Elem, .cb (.Return 1), .cb .End,
          .cb (.Call 0)] ∧
      ∀ s ∈ pre, s.stores = false ∧ s ≠ .cb (.VarRef (.result "_cgo_ret"))) ∧
    (∃ pre, (compileAssignOpExpr op v).steps = pre ++ [.call (.assignOp op 1)] ++
        [.cb (.Val (.scopeLookup addrVarName)), .cb .Elem, .cb (.Return 1), .cb .End,
          .cb (.Call 0)] ∧
      ∀ s ∈ pre, s.stores = false ∧ s ≠ .cb (.VarRef (.result "_cgo_ret"))) ∧
    (v.IsPostfix = false →
      ∃ pre store, (compileIncDec ctx op v).steps = pre ++ [store] ++
          [.cb (.Val (.scopeLookup addrVarName)), .cb .Elem, .cb (.Return 1), .cb .End,
            .cb (.Call 0)] ∧
        store.modifies = true ∧
        ∀ s ∈ pre, s.stores = false ∧ s ≠ .cb (.VarRef (.result "_cgo_ret"))) ∧
    (v.IsPostfix = true →
      ∃ mid store, (compileIncDec ctx op v).steps = closureStartInitAddr.1 ++
          [.cb (.VarRef (.result "_cgo_ret")), .cb (.Val (.scopeLookup addrVarName)),
            .cb .Elem, .cb (.Assign 1)] ++ mid ++ [store] ++
          [.cb (.Return 0), .cb .End, .cb (.Call 0)] ∧
        store.modifies = true ∧
        (∀ s ∈ closureStartInitAddr.1 ++ mid, s.stores = false)) ∧
    Step.cb (.NewClosure [.result "_cgo_ret"]) ∈ closureStartInitAddr.1 ∧
    (∀ e ∈ [compileAssignExpr v, compileAssignOpExpr op v, compileIncDec ctx op v],
      e.steps.getLast? = some (.cb (.Call 0)) ∧ e.fatal = none) := by
  refine ⟨⟨closureStartInitAddr.1 ++ [.cb (.Val (.scopeLookup addrVarName)), .cb .ElemRef,
      compileExpr 1], by simp [compileAssignExpr], ?_⟩,
    ⟨closureStartInitAddr.1 ++ [.cb (.Val (.scopeLookup addrVarName)), .cb .ElemRef,
      compileExpr 1], by simp [compileAssignOpExpr], ?_⟩, ?_, ?_, ?_, ?_⟩
  · simp [closureStartInitAddr, closureStart, compileExprLHS, compileExpr, Step.stores,
      Step.modifies]
  · simp [closureStartInitAddr, closureStart, compileExprLHS, compileExpr, Step.stores,
      Step.modifies]
  · intro hp
    by_cases h : ctx.valOfAddrSize = 1
    · exact ⟨closureStartInitAddr.1 ++
          [.call (.valOfAddr (.scopeLookup addrVarName)), .cb .ElemRef],
        .cb (.IncDec op), by simp [compileIncDec, hp, h], rfl,
        by simp [closureStartInitAddr, closureStart, compileExprLHS, Step.stores,
          Step.modifies]⟩
    · exact ⟨closureStartInitAddr.1 ++
          [.call (.valOfAddr (.scopeLookup addrVarName)), .cb .ElemRef,
            .cb (.Val (.int ctx.valOfAddrSize))],
        .cb (.AssignOp (op + (token.ADD_ASSIGN - token.INC))),
        by simp [compileIncDec, hp, h], rfl,
        by simp [closureStartInitAddr, closureStart, compileExprLHS, Step.stores,
          Step.modifies]⟩
  · intro hp
    by_cases h : ctx.valOfAddrSize = 1
    · exact ⟨[.call (.valOfAddr (.scopeLookup addrVarName)), .cb .ElemRef],
        .cb (.IncDec op),
        by simp [compileIncDec, hp, h, closureStartInitAddr, closureStart], rfl,
        by simp [closureStartInitAddr, closureStart, compileExprLHS, Step.stores,
          Step.modifies]⟩
    · exact ⟨[.call (.valOfAddr (.scopeLookup addrVarName)), .cb .ElemRef,
            .cb (.Val (.int ctx.valOfAddrSize))],
        .cb (.AssignOp (op + (token.ADD_ASSIGN - token.INC))),
        by simp [compileIncDec, hp, h, closureStartInitAddr, closureStart], rfl,
        by simp [closureStartInitAddr, closureStart, compileExprLHS, Step.stores,
          Step.modifies]⟩
  · simp [closureStartInitAddr, closureStart]
  · intro e he
    simp only [List.mem_cons, List.mem_singleton, List.not_mem_nil, or_false] at he
    rcases he with rfl | rfl | rfl
    · simp [compileAssignExpr, List.getLast?_append]
    · simp [compileAssignOpExpr, List.getLast?_append]
    · cases hp : v.IsPostfix <;> by_cases h : ctx.valOfAddrSize = 1 <;>
        simp [compileIncDec, List.getLast?_append, h, hp]

/-- C4 (as amended): a `=` BinaryOperator and a CompoundAssignOperator with a
supported opcode, under any flags, and a `++`/`--` UnaryOperator passed
without `flagLHS`, are compiled by the direct statement form with no closure
when `flagIgnoreResult` is set, and by the closure form, with exactly one
closure created and `Call(0)` as last step, when it is not set.  A `++`/`--`
UnaryOperator passed with `flagLHS` aborts ("not a lhs expression") before any
step.  ParenExpr and ConstantExpr compile their child `Inner[0]` with the same
prompt and flags and do nothing else. -/
theorem assign_form_chosen_by_flag (ctx : ExprCtx) (v : Node) (prompt : String) (flags : Nat) :
    (v.Kind = ast.BinaryOperator → v.OpCode = "=" →
      ((flags &&& flagIgnoreResult) ≠ 0 →
        compileExprEx ctx v prompt flags = compileSimpleAssignExpr v ∧
        closuresCreated (compileExprEx ctx v prompt flags).steps = 0) ∧
      ((flags &&& flagIgnoreResult) = 0 →
        compileExprEx ctx v prompt flags = compileAssignExpr v ∧
        closuresCreated (compileExprEx ctx v prompt flags).steps = 1 ∧
        (compileExprEx ctx v prompt flags).steps.getLast? = some (.cb (.Call 0)))) ∧
    (v.Kind = ast.CompoundAssignOperator → ∀ op, assignOps v.OpCode = some op →
      ((flags &&& flagIgnoreResult) ≠ 0 →
        compileExprEx ctx v prompt flags = compileSimpleAssignOpExpr op v ∧
        closuresCreated (compileExprEx ctx v prompt flags).steps = 0) ∧
      ((flags &&& flagIgnoreResult) = 0 →
        compileExprEx ctx v prompt flags = compileAssignOpExpr op v ∧
        closuresCreated (compileExprEx ctx v prompt flags).steps = 1 ∧
        (compileExprEx ctx v prompt flags).steps.getLast? = some (.cb (.Call 0)))) ∧
    (v.Kind = ast.UnaryOperator → ∀ tok,
      (v.OpCode = "++" ∧ tok = token.INC ∨ v.OpCode = "--" ∧ tok = token.DEC) →
      ((flags &&& flagLHS) = 0 →
        ((flags &&& flagIgnoreResult) ≠ 0 →
          compileExprEx ctx v prompt flags = compileSimpleIncDec ctx tok v ∧
          closuresCreated (compileExprEx ctx v prompt flags).steps = 0) ∧
        ((flags &&& flagIgnoreResult) = 0 →
          compileExprEx ctx v prompt flags = compileIncDec ctx tok v ∧
          closuresCreated (compileExprEx ctx v prompt flags).steps = 1 ∧
          (compileExprEx ctx v prompt flags).steps.getLast? = some (.cb (.Call 0)))) ∧
      ((flags &&& flagLHS) ≠ 0 →
        compileExprEx ctx v prompt flags =
          ⟨[], some ("compileUnaryOperator: not a lhs expression - " ++ v.OpCode ++ "\n")⟩)) ∧
    (v.Kind = ast.ParenExpr ∨ v.Kind = ast.ConstantExpr →
      compileExprEx ctx v prompt flags = ⟨[.compileExprEx 0 prompt flags], none⟩) := by
  refine ⟨?_, ?_, ?_, ?_⟩
  · intro hk ho
    have hb : binaryOps "=" = none := by decide
    have hd : compileExprEx ctx v prompt flags =
        (if (flags &&& flagIgnoreResult) ≠ 0 then compileSimpleAssignExpr v
          else compileAssignExpr v) := by
      simp [compileExprEx, hk, compileBinaryExpr, hb, ho]
    constructor
    · intro hf
      rw [hd, if_pos hf]
      exact ⟨rfl, by simp [closuresCreated, compileSimpleAssignExpr, compileExprLHS, compileExpr]⟩
    · intro hf
      rw [hd, if_neg (not_not.mpr hf)]
      exact ⟨rfl, by simp [closuresCreated, compileAssignExpr, closureStartInitAddr,
          closureStart, compileExprLHS, compileExpr],
        by simp [compileAssignExpr, List.getLast?_append]⟩
  · intro hk op ho
    have hd : compileExprEx ctx v prompt flags =
        (if (flags &&& flagIgnoreResult) ≠ 0 then compileSimpleAssignOpExpr op v
          else compileAssignOpExpr op v) := by
      simp [compileExprEx, hk, compileCompoundAssignOperator, ho, ast.CompoundAssignOperator,
        ast.BinaryOperator, ast.UnaryOperator, ast.DeclRefExpr, ast.MemberExpr, ast.CallExpr]
    constructor
    · intro hf
      rw [hd, if_pos hf]
      exact ⟨rfl, by simp [closuresCreated, compileSimpleAssignOpExpr, compileExprLHS,
        compileExpr]⟩
    · intro hf
      rw [hd, if_neg (not_not.mpr hf)]
      exact ⟨rfl, by simp [closuresCreated, compileAssignOpExpr, closureStartInitAddr,
          closureStart, compileExprLHS, compileExpr],
        by simp [compileAssignOpExpr, List.getLast?_append]⟩
  · intro hk tok ho
    have hu : unaryOps "++" = none ∧ unaryOps "--" = none := by decide
    have hstar : v.OpCode ≠ "*" := by
      rcases ho with ⟨ho, _⟩ | ⟨ho, _⟩ <;> rw [ho] <;> decide
    constructor
    · intro hl
      have hd : compileExprEx ctx v prompt flags =
          (if (flags &&& flagIgnoreResult) ≠ 0 then compileSimpleIncDec ctx tok v
            else compileIncDec ctx tok v) := by
        rcases ho with ⟨ho, rfl⟩ | ⟨ho, rfl⟩ <;>
          simp [compileExprEx, hk, compileUnaryOperator, hu.1, hu.2, hstar, hl, ho,
            ast.BinaryOperator, ast.UnaryOperator]
      constructor
      · intro hf
        rw [hd, if_pos hf]
        refine ⟨rfl, ?_⟩
        unfold compileSimpleIncDec
        cases ctx.stkTopType with
        | Pointer elem =>
          by_cases h : ctx.sizeof elem = 1 <;> simp [closuresCreated, compileExprLHS, h]
        | Other t => simp [closuresCreated, compileExprLHS]
      · intro hf
        rw [hd, if_neg (not_not.mpr hf)]
        refine ⟨rfl, ?_, ?_⟩ <;>
          cases hp : v.IsPostfix <;> by_cases h : ctx.valOfAddrSize = 1 <;>
          simp [closuresCreated, compileIncDec, closureStartInitAddr, closureStart,
            compileExprLHS, List.getLast?_append, h, hp]
    · intro hl
      simp [compileExprEx, hk, compileUnaryOperator, hstar, hl,
        ast.BinaryOperator, ast.UnaryOperator]
  · intro hk
    rcases hk with hk | hk <;>
      simp [compileExprEx, hk, ast.BinaryOperator, ast.UnaryOperator, ast.DeclRefExpr,
        ast.MemberExpr, ast.CallExpr, ast.CompoundAssignOperator, ast.ImplicitCastExpr,
        ast.IntegerLiteral, ast.StringLiteral, ast.CharacterLiteral, ast.FloatingLiteral,
        ast.ParenExpr, ast.ConstantExpr]

/-- Witness of C4: the statement `x = 1` (result ignored) and the expression
`x = 1` (result needed). -/
theorem assign_form_chosen_by_flag_witness :
    compileExprEx ⟨.Other "int", fun _ => 4, 1, false⟩
        (.mk ast.BinaryOperator "=" false "" "" none []) unknownExprPrompt flagIgnoreResult =
      compileSimpleAssignExpr (.mk ast.BinaryOperator "=" false "" "" none []) ∧
    closuresCreated (compileExprEx ⟨.Other "int", fun _ => 4, 1, false⟩
        (.mk ast.BinaryOperator "=" false "" "" none []) unknownExprPrompt 0).steps = 1 :=
  ⟨(((assign_form_chosen_by_flag ⟨.Other "int", fun _ => 4, 1, false⟩
      (.mk ast.BinaryOperator "=" false "" "" none []) unknownExprPrompt flagIgnoreResult).1
      rfl rfl).1 (by decide)).1,
   (((assign_form_chosen_by_flag ⟨.Other "int", fun _ => 4, 1, false⟩
      (.mk ast.BinaryOperator "=" false "" "" none []) unknownExprPrompt 0).1
      rfl rfl).2 (by decide)).2.1⟩

/-- Counterexample to C4 as stated: the UnaryOperator `++x` passed to
`compileExprEx` with `flags = flagLHS` (so `flagIgnoreResult` is not set)
creates no closure at all: it aborts before any step; passed with
`flags = flagLHS|flagIgnoreResult` it is not compiled by the direct
statement form either. -/
theorem incdec_with_flagLHS_aborts :
    (flagLHS &&& flagIgnoreResult) = 0 ∧
    compileExprEx ⟨.Other "int", fun _ => 4, 1, false⟩
        (.mk ast.UnaryOperator "++" false "" "" none []) unknownExprPrompt flagLHS =
      ⟨[], some "compileUnaryOperator: not a lhs expression - ++\n"⟩ ∧
    closuresCreated (compileExprEx ⟨.Other "int", fun _ => 4, 1, false⟩
        (.mk ast.UnaryOperator "++" false "" "" none []) unknownExprPrompt flagLHS).steps ≠ 1 ∧
    ((flagLHS ||| flagIgnoreResult) &&& flagIgnoreResult) ≠ 0 ∧
    compileExprEx ⟨.Other "int", fun _ => 4, 1, false⟩
        (.mk ast.UnaryOperator "++" false "" "" none []) unknownExprPrompt
        (flagLHS ||| flagIgnoreResult) ≠
      compileSimpleIncDec ⟨.Other "int", fun _ => 4, 1, false⟩ token.INC
        (.mk ast.UnaryOperator "++" false "" "" none []) := by
  decide

/-! ### Flow contexts -/

/-- C5: from any context stacked on a loop context `L` through `ifCtx`,
`switchCtx` and plain-flow contexts of kind If or Switch, `ContinueLabel`
returns `L.start` and leaves the translation context (label counter included)
as it was.  A `switchCtx` answers with whatever its parent answers; a
plain-flow context whose kind includes `flowKindLoop` returns nil whatever its
parent is.  `L.start` is nil for a loop just entered, and is the label made by
`labelStart` afterwards. -/
theorem continue_resolves_to_loop_start (ref : Nat) (parent f : flowCtx) (ctx : blockCtx)
    (h : StackedOn (.loopCtx ref parent) f) :
    f.ContinueLabel ctx = .ok ((ctx.flows ref).start, ctx) ∧
    (∀ r p, (flowCtx.switchCtx r p).ContinueLabel ctx = p.ContinueLabel ctx) ∧
    (∀ p kind, (kind &&& flowKindLoop) ≠ 0 →
      (flowCtx.baseFlowCtx p kind).ContinueLabel ctx = .ok (none, ctx)) ∧
    (ctx.enterLoop.1 = .loopCtx ctx.nflows ctx.curflow ∧
      (ctx.enterLoop.2.flows ctx.nflows).start = none) ∧
    (∀ fn, ctx.curfn = some fn → ∃ ctx1, loopCtx.labelStart ref ctx = .ok ctx1 ∧
      (ctx1.flows ref).start = some ⟨"_cgol_" ++ Itoa (fn.basel + 1)⟩ ∧
      f.ContinueLabel ctx1 = .ok (some ⟨"_cgol_" ++ Itoa (fn.basel + 1)⟩, ctx1)) := by
  have key : ∀ c : blockCtx, f.ContinueLabel c = .ok ((c.flows ref).start, c) := by
    intro c
    induction h with
    | self => rfl
    | ifCtx r _ ih => simpa [flowCtx.ContinueLabel] using ih
    | switchCtx r _ ih => simpa [flowCtx.ContinueLabel] using ih
    | flow kind hk _ ih =>
      have : (kind &&& flowKindLoop) = 0 := by
        rcases hk with rfl | rfl <;> decide
      simpa [flowCtx.ContinueLabel, this] using ih
  refine ⟨key ctx, fun r p => rfl, ?_, ⟨rfl, ?_⟩, ?_⟩
  · intro p kind hk
    simp [flowCtx.ContinueLabel, hk]
  · simp [blockCtx.enterLoop, flowVars.zero]
  · intro fn hfn
    refine ⟨_, by simp only [loopCtx.labelStart, hfn]; rfl, ?_, ?_⟩
    · simp [funcCtx.label, funcCtx.newLabel, CodeBuilder.NewLabel]
    · rw [key]
      simp [funcCtx.label, funcCtx.newLabel, CodeBuilder.NewLabel]

/-- Witness of C5: `continue` inside an `if` inside a `switch` inside a plain
`if` inside a loop whose start label is `_cgol_1`. -/
theorem continue_resolves_to_loop_start_witness :
    StackedOn (.loopCtx 0 .nil)
      (.ifCtx 2 (.switchCtx 1 (.baseFlowCtx (.loopCtx 0 .nil) flowKindIf))) ∧
    (flowCtx.ifCtx 2 (.switchCtx 1 (.baseFlowCtx (.loopCtx 0 .nil) flowKindIf))).ContinueLabel
        { blockCtx.start with
          flows := fun r => if r = 0 then ⟨none, none, none, some ⟨"_cgol_1"⟩⟩ else flowVars.zero } =
      .ok (some ⟨"_cgol_1"⟩, { blockCtx.start with
          flows := fun r => if r = 0 then ⟨none, none, none, some ⟨"_cgol_1"⟩⟩ else flowVars.zero }) :=
  ⟨.ifCtx 2 (.switchCtx 1 (.flow flowKindIf (Or.inl rfl) .self)),
    (continue_resolves_to_loop_start 0 .nil _ _
      (.ifCtx 2 (.switchCtx 1 (.flow flowKindIf (Or.inl rfl) .self)))).1⟩

/-- What `EndLabel` does on the two kinds of If context: a plain-flow context
of kind `flowKindIf` with parent `P` answers with exactly what `P.EndLabel`
answers (result and resulting translation context alike), allocating nothing
of its own, whereas an `ifCtx` (as created by `enterIf`) does not consult its
parent: the method promoted from its embedded `endLabelCtx` returns the label
stored in the context itself, or, on the first call, allocates one fresh label
for it and stores it. -/
theorem if_EndLabel (ctx : blockCtx) (P : flowCtx) (ref : Nat) :
    (flowCtx.baseFlowCtx P flowKindIf).EndLabel ctx = P.EndLabel ctx ∧
    ctx.enterIf.1 = .ifCtx ctx.nflows ctx.curflow ∧
    (∀ l, (ctx.flows ref).done = some l →
      (flowCtx.ifCtx ref P).EndLabel ctx = .ok (some l, ctx)) ∧
    (∀ fn, (ctx.flows ref).done = none → ctx.curfn = some fn →
      ∃ ctx1, (flowCtx.ifCtx ref P).EndLabel ctx =
          .ok (some ⟨"_cgol_" ++ Itoa (fn.basel + 1)⟩, ctx1) ∧
        ctx1.curfn = some { fn with basel := fn.basel + 1 } ∧
        (ctx1.flows ref).done = some ⟨"_cgol_" ++ Itoa (fn.basel + 1)⟩ ∧
        ctx1.cb.log = ctx.cb.log ++ [.NewLabel ("_cgol_" ++ Itoa (fn.basel + 1))]) := by
  refine ⟨?_, rfl, ?_, ?_⟩
  · have : (flowKindIf &&& (flowKindLoop ||| flowKindSwitch)) = 0 := by decide
    simp [flowCtx.EndLabel, this]
  · intro l hl
    simp [flowCtx.EndLabel, endLabelCtx.EndLabel, hl]
  · intro fn hd hfn
    refine ⟨_, by simp only [flowCtx.EndLabel, endLabelCtx.EndLabel, hd, hfn]; rfl, ?_, ?_, ?_⟩
    · simp [funcCtx.newLabel]
    · simp [funcCtx.newLabel, CodeBuilder.NewLabel]
    · simp [funcCtx.newLabel, CodeBuilder.NewLabel]

/-- C6: the claim holds for a plain-flow context of kind `flowKindIf` and
fails for an `ifCtx`.  Enter a loop and ask for its end label (`_cgol_1`), then
enter an `if` inside it with `enterIf`: `EndLabel` of that `ifCtx` is a new
label `_cgol_2` of its own, while `EndLabel` of its parent, the loop, is still
`_cgol_1`, so a `break` resolved through the `ifCtx` does not leave the loop.
The sibling paths delegate: `EndLabel` of a plain-flow context of kind
`flowKindIf` on the same parent is `_cgol_1`, and `ContinueLabel` of the same
`ifCtx` is what `ContinueLabel` of the loop is. -/
theorem ifCtx_EndLabel_not_parent :
    ∃ c2, blockCtx.start.enterLoop.1.EndLabel blockCtx.start.enterLoop.2 =
        .ok (some ⟨"_cgol_1"⟩, c2) ∧
      c2.enterIf.1 = .ifCtx 1 blockCtx.start.enterLoop.1 ∧
      (c2.enterIf.1.EndLabel c2.enterIf.2).map Prod.fst = .ok (some ⟨"_cgol_2"⟩) ∧
      (blockCtx.start.enterLoop.1.EndLabel c2.enterIf.2).map Prod.fst =
        .ok (some ⟨"_cgol_1"⟩) ∧
      ((flowCtx.baseFlowCtx blockCtx.start.enterLoop.1 flowKindIf).EndLabel
        c2.enterIf.2).map Prod.fst = .ok (some ⟨"_cgol_1"⟩) ∧
      c2.enterIf.1.ContinueLabel c2.enterIf.2 =
        blockCtx.start.enterLoop.1.ContinueLabel c2.enterIf.2 :=
  ⟨_, rfl, rfl, rfl, rfl, rfl, rfl⟩

/-- C7: `leave` called on the context returned by an enter operation makes the
context that was current before the enter current again, whatever state the
translation has reached in between.  `enterIf`, `enterSwitch` and `enterLoop`
issue exactly `cb.VBlock()` and the matching `leave` exactly `cb.End()`;
`enterFlow` and its `leave` issue no builder call.  Hence every properly
nested sequence of enter/leave pairs runs to completion, leaves `curflow` and
the open blocks as they were, and issues as many `End` as `VBlock` calls. -/
theorem leave_restores_curflow (p : blockCtx) :
    (∀ (e : Enter) (q : blockCtx), (e.run p).2.curflow = (e.run p).1 ∧
      ∃ q1, q.leave (e.run p).1 = .ok q1 ∧ q1.curflow = p.curflow) ∧
    (∀ e : Enter, e = .enterIf ∨ e = .enterSwitch ∨ e = .enterLoop →
      (e.run p).2.cb = ⟨p.cb.log ++ [.VBlock], .vblock :: p.cb.blocks⟩ ∧
      ∀ q : blockCtx, ∃ q1, q.leave (e.run p).1 = .ok q1 ∧
        q1.cb = ⟨q.cb.log ++ [.End], q.cb.blocks.tail⟩) ∧
    (∀ kind, (p.enterFlow kind).2.cb = p.cb ∧
      ∀ q : blockCtx, ∃ q1, q.leave (p.enterFlow kind).1 = .ok q1 ∧ q1.cb = q.cb) ∧
    (∀ n : Nesting, ∃ p1 added, n.run p = .ok p1 ∧ p1.curflow = p.curflow ∧
      p1.cb.blocks = p.cb.blocks ∧ p1.cb.log = p.cb.log ++ added ∧
      added.count .VBlock = added.count .End) := by
  refine ⟨?_, ?_, ?_, ?_⟩
  · intro e q
    cases e <;> exact ⟨rfl, _, rfl, rfl⟩
  · intro e he
    rcases he with rfl | rfl | rfl <;> exact ⟨rfl, fun q => ⟨_, rfl, rfl⟩⟩
  · intro kind
    exact ⟨rfl, fun q => ⟨_, rfl, rfl⟩⟩
  · intro n
    induction n generalizing p with
    | done => exact ⟨p, [], rfl, rfl, rfl, by simp, rfl⟩
    | pair e body rest ihb ihr =>
      obtain ⟨p2, a2, h2, hf2, hb2, hl2, hc2⟩ := ihb (e.run p).2
      have hleave : ∃ p3 a3, p2.leave (e.run p).1 = .ok p3 ∧ p3.curflow = p.curflow ∧
          p3.cb.blocks = p.cb.blocks ∧ p3.cb.log = p.cb.log ++ a3 ∧
          a3.count .VBlock = a3.count .End := by
        cases e with
        | enterFlow kind =>
          exact ⟨_, a2, rfl, rfl, hb2, hl2, hc2⟩
        | enterIf =>
          refine ⟨_, [.VBlock] ++ a2 ++ [.End], rfl, rfl, ?_, ?_, ?_⟩
          · show p2.cb.blocks.tail = p.cb.blocks
            rw [hb2]; rfl
          · show p2.cb.log ++ [.End] = _
            rw [hl2]; simp [Enter.run, blockCtx.enterIf, CodeBuilder.VBlock]
          · simp [List.count_cons, hc2]
        | enterSwitch =>
          refine ⟨_, [.VBlock] ++ a2 ++ [.End], rfl, rfl, ?_, ?_, ?_⟩
          · show p2.cb.blocks.tail = p.cb.blocks
            rw [hb2]; rfl
          · show p2.cb.log ++ [.End] = _
            rw [hl2]; simp [Enter.run, blockCtx.enterSwitch, CodeBuilder.VBlock]
          · simp [List.count_cons, hc2]
        | enterLoop =>
          refine ⟨_, [.VBlock] ++ a2 ++ [.End], rfl, rfl, ?_, ?_, ?_⟩
          · show p2.cb.blocks.tail = p.cb.blocks
            rw [hb2]; rfl
          · show p2.cb.log ++ [.End] = _
            rw [hl2]; simp [Enter.run, blockCtx.enterLoop, CodeBuilder.VBlock]
          · simp [List.count_cons, hc2]
      obtain ⟨p3, a3, h3, hf3, hb3, hl3, hc3⟩ := hleave
      obtain ⟨p4, a4, h4, hf4, hb4, hl4, hc4⟩ := ihr p3
      refine ⟨p4, a3 ++ a4, ?_, by rw [hf4, hf3], by rw [hb4, hb3], ?_, ?_⟩
      · simp only [Nesting.run, h2, h3, h4]
      · rw [hl4, hl3, List.append_assoc]
      · simp [List.count_append, hc3, hc4]

/-! ### Decimal numerals and synthesized names -/

theorem digitChar_isDigit (d : Nat) (h : d < 10) : (Nat.digitChar d).isDigit = true := by
  interval_cases d <;> decide

theorem digitChar_inj (a b : Nat) (ha : a < 10) (hb : b < 10)
    (h : Nat.digitChar a = Nat.digitChar b) : a = b := by
  interval_cases a <;> interval_cases b <;> first | rfl | (exact absurd h (by decide))

theorem map_digitChar_inj : ∀ (l1 l2 : List Nat), (∀ d ∈ l1, d < 10) → (∀ d ∈ l2, d < 10) →
    l1.map Nat.digitChar = l2.map Nat.digitChar → l1 = l2
  | [], [], _, _, _ => rfl
  | [], _ :: _, _, _, h => by simp at h
  | _ :: _, [], _, _, h => by simp at h
  | a :: l1, b :: l2, h1, h2, h => by
    simp only [List.map_cons, List.cons.injEq] at h
    rw [digitChar_inj a b (h1 a (by simp)) (h2 b (by simp)) h.1,
      map_digitChar_inj l1 l2 (fun d hd => h1 d (by simp [hd]))
        (fun d hd => h2 d (by simp [hd])) h.2]

/-- The digit loop of `Nat.repr` computes the base-10 digits, most significant
first, in front of the accumulator. -/
theorem toDigitsCore_eq (fuel : Nat) : ∀ (n : Nat) (ds : List Char), n < fuel →
    Nat.toDigitsCore 10 fuel n ds =
      (if n = 0 then [Nat.digitChar 0]
        else ((Nat.digits 10 n).reverse.map Nat.digitChar)) ++ ds := by
  induction fuel with
  | zero => intro n ds h; omega
  | succ fuel ih =>
    intro n ds h
    simp only [Nat.toDigitsCore]
    by_cases h0 : n / 10 = 0
    · have hlt : n < 10 := by omega
      rw [if_pos h0, Nat.mod_eq_of_lt hlt]
      by_cases hn : n = 0
      · subst hn; simp
      · rw [if_neg hn, Nat.digits_of_lt 10 n hn hlt]; simp
    · have hn : n ≠ 0 := by rintro rfl; simp at h0
      rw [if_neg h0, ih (n / 10) _ (by omega), if_neg h0, if_neg hn]
      rw [Nat.digits_def' (by norm_num) (Nat.pos_of_ne_zero hn)]
      simp

theorem Itoa_data (n : Nat) : (Itoa n).data =
    if n = 0 then [Nat.digitChar 0] else (Nat.digits 10 n).reverse.map Nat.digitChar := by
  simp [Itoa, Nat.repr, Nat.toDigits, List.asString, toDigitsCore_eq]

theorem Itoa_isDigit (n : Nat) : ∀ c ∈ (Itoa n).data, c.isDigit = true := by
  intro c hc
  rw [Itoa_data] at hc
  split_ifs at hc with h
  · simp at hc; subst hc; decide
  · simp only [List.mem_map, List.mem_reverse] at hc
    obtain ⟨d, hd, rfl⟩ := hc
    exact digitChar_isDigit d (Nat.digits_lt_base (by norm_num) hd)

theorem Itoa_injective : Function.Injective Itoa := by
  intro a b h
  have h1 := congrArg String.data h
  rw [Itoa_data, Itoa_data] at h1
  have key : ∀ n, n ≠ 0 → (Nat.digits 10 n).reverse.map Nat.digitChar ≠ [Nat.digitChar 0] := by
    intro n hn he
    have hl := congrArg List.length he
    simp at hl
    have hlast := Nat.getLast_digit_ne_zero 10 hn
    obtain ⟨d, hd⟩ : ∃ d, Nat.digits 10 n = [d] := by
      match hdg : Nat.digits 10 n, hl with
      | [d], _ => exact ⟨d, rfl⟩
    simp [hd] at he hlast
    have hd10 : d < 10 := Nat.digits_lt_base (b := 10) (m := n) (by norm_num) (by simp [hd])
    exact hlast (digitChar_inj d 0 hd10 (by norm_num) he)
  by_cases ha : a = 0 <;> by_cases hb : b = 0
  · omega
  · rw [if_pos ha, if_neg hb] at h1; exact absurd h1.symm (key b hb)
  · rw [if_neg ha, if_pos hb] at h1; exact absurd h1 (key a ha)
  · rw [if_neg ha, if_neg hb] at h1
    have h2 : Nat.digits 10 a = Nat.digits 10 b := by
      apply List.reverse_injective
      apply map_digitChar_inj _ _ _ _ h1
      · intro d hd
        exact Nat.digits_lt_base (by norm_num) (List.mem_reverse.mp hd)
      · intro d hd
        exact Nat.digits_lt_base (by norm_num) (List.mem_reverse.mp hd)
    exact Nat.digits_inj_iff.mp h2

/-- Two names `src ++ "_cgo" ++ Itoa n` are equal only if the numbers are: the
number is the maximal run of digits at the end of the name, whatever `src`
is. -/
theorem cgo_name_number (s1 s2 : String) (a b : Nat)
    (h : s1 ++ "_cgo" ++ Itoa a = s2 ++ "_cgo" ++ Itoa b) : a = b := by
  have hd := congrArg (fun s : String => (s.data.reverse).takeWhile Char.isDigit) h
  simp only [String.data_append, List.reverse_append] at hd
  have e : ∀ (s : String) (n : Nat),
      List.takeWhile Char.isDigit
        ((Itoa n).data.reverse ++ ("_cgo".data.reverse ++ s.data.reverse)) =
        (Itoa n).data.reverse := by
    intro s n
    rw [List.takeWhile_append_of_pos]
    · have : List.takeWhile Char.isDigit ("_cgo".data.reverse ++ s.data.reverse) = [] := by
        show List.takeWhile Char.isDigit (('o' :: 'g' :: 'c' :: '_' :: []) ++ _) = []
        rfl
      rw [this, List.append_nil]
    · intro c hc
      exact Itoa_isDigit n c (List.mem_reverse.mp hc)
  rw [e, e] at hd
  exact Itoa_injective (String.ext (List.reverse_injective hd))

/-- The label names `"_cgol_" ++ Itoa n` are pairwise different. -/
theorem cgol_name_injective : Function.Injective (fun n : Nat => "_cgol_" ++ Itoa n) := by
  intro a b h
  have hd := congrArg String.data h
  simp only [String.data_append] at hd
  exact Itoa_injective (String.ext (List.append_cancel_left hd))

/-! ### Label allocation -/

/-- `EndLabel` of any flow context allocates no label or exactly the next
one. -/
theorem EndLabel_allocates (f : flowCtx) : ∀ (ctx : blockCtx) (l : Option Label)
    (ctx1 : blockCtx) (fn : funcCtx), f.EndLabel ctx = .ok (l, ctx1) → ctx.curfn = some fn →
    ∃ fn1 added, ctx1.curfn = some fn1 ∧ ctx1.cb.log = ctx.cb.log ++ added ∧
      ((fn1.basel = fn.basel ∧ labelsCreated added = []) ∨
        (fn1.basel = fn.basel + 1 ∧ labelsCreated added = ["_cgol_" ++ Itoa (fn.basel + 1)])) := by
  have hend : ∀ (ref : Nat) (ctx : blockCtx) (l : Option Label) (ctx1 : blockCtx) (fn : funcCtx),
      endLabelCtx.EndLabel ref ctx = .ok (l, ctx1) → ctx.curfn = some fn →
      ∃ fn1 added, ctx1.curfn = some fn1 ∧ ctx1.cb.log = ctx.cb.log ++ added ∧
        ((fn1.basel = fn.basel ∧ labelsCreated added = []) ∨
          (fn1.basel = fn.basel + 1 ∧
            labelsCreated added = ["_cgol_" ++ Itoa (fn.basel + 1)])) := by
    intro ref ctx l ctx1 fn h hfn
    unfold endLabelCtx.EndLabel at h
    cases hd : (ctx.flows ref).done with
    | some done =>
      simp only [hd, Except.ok.injEq, Prod.mk.injEq] at h
      obtain ⟨_, rfl⟩ := h
      exact ⟨fn, [], hfn, by simp, Or.inl ⟨rfl, rfl⟩⟩
    | none =>
      simp only [hd, hfn, Except.ok.injEq, Prod.mk.injEq] at h
      obtain ⟨_, rfl⟩ := h
      exact ⟨_, [.NewLabel ("_cgol_" ++ Itoa (fn.basel + 1))], rfl, rfl, Or.inr ⟨rfl, rfl⟩⟩
  induction f with
  | nil => intro ctx l ctx1 fn h; simp [flowCtx.EndLabel] at h
  | baseFlowCtx parent kind ih =>
    intro ctx l ctx1 fn h hfn
    unfold flowCtx.EndLabel at h
    split_ifs at h with hk
    · simp only [Except.ok.injEq, Prod.mk.injEq] at h
      obtain ⟨_, rfl⟩ := h
      exact ⟨fn, [], hfn, by simp, Or.inl ⟨rfl, rfl⟩⟩
    · exact ih ctx l ctx1 fn h hfn
  | switchCtx ref parent _ => exact hend ref
  | ifCtx ref parent _ => exact hend ref
  | loopCtx ref parent _ => exact hend ref

/-- Every label operation allocates no label or exactly the next one. -/
theorem LabelOp_allocates (op : LabelOp) (ctx ctx1 : blockCtx) (fn : funcCtx)
    (h : op.run ctx = .ok ctx1) (hfn : ctx.curfn = some fn) :
    ∃ fn1 added, ctx1.curfn = some fn1 ∧ ctx1.cb.log = ctx.cb.log ++ added ∧
      ((fn1.basel = fn.basel ∧ labelsCreated added = []) ∨
        (fn1.basel = fn.basel + 1 ∧ labelsCreated added = ["_cgol_" ++ Itoa (fn.basel + 1)])) := by
  cases op with
  | EndLabel f =>
    simp only [LabelOp.run] at h
    cases hr : f.EndLabel ctx with
    | error e => simp [hr, Except.map] at h
    | ok r =>
      obtain ⟨l, c⟩ := r
      simp only [hr, Except.map, Except.ok.injEq] at h
      subst h
      exact EndLabel_allocates f ctx l c fn hr hfn
  | newLabel =>
    simp only [LabelOp.run, hfn, Except.ok.injEq] at h
    subst h
    exact ⟨_, [.NewLabel ("_cgol_" ++ Itoa (fn.basel + 1))], rfl, rfl, Or.inr ⟨rfl, rfl⟩⟩
  | label =>
    simp only [LabelOp.run, hfn, Except.ok.injEq] at h
    subst h
    exact ⟨_, [.NewLabel ("_cgol_" ++ Itoa (fn.basel + 1)),
      .Label ⟨"_cgol_" ++ Itoa (fn.basel + 1)⟩],
      rfl, by simp [funcCtx.label, funcCtx.newLabel, CodeBuilder.NewLabel, CodeBuilder.Label],
      Or.inr ⟨rfl, rfl⟩⟩
  | nextCaseLabel ref =>
    simp only [LabelOp.run, switchCtx.nextCaseLabel, hfn, Except.map, Except.ok.injEq] at h
    subst h
    exact ⟨_, [.NewLabel ("_cgol_" ++ Itoa (fn.basel + 1))], rfl, rfl, Or.inr ⟨rfl, rfl⟩⟩
  | elseLabel ref =>
    simp only [LabelOp.run, ifCtx.elseLabel, hfn, Except.map, Except.ok.injEq] at h
    subst h
    exact ⟨_, [.NewLabel ("_cgol_" ++ Itoa (fn.basel + 1))], rfl, rfl, Or.inr ⟨rfl, rfl⟩⟩
  | labelDefault ref =>
    simp only [LabelOp.run, switchCtx.labelDefault, hfn, Except.ok.injEq] at h
    subst h
    exact ⟨_, [.NewLabel ("_cgol_" ++ Itoa (fn.basel + 1)),
      .Label ⟨"_cgol_" ++ Itoa (fn.basel + 1)⟩],
      rfl, by simp [funcCtx.label, funcCtx.newLabel, CodeBuilder.NewLabel, CodeBuilder.Label],
      Or.inr ⟨rfl, rfl⟩⟩
  | labelStart ref =>
    simp only [LabelOp.run, loopCtx.labelStart, hfn, Except.ok.injEq] at h
    subst h
    exact ⟨_, [.NewLabel ("_cgol_" ++ Itoa (fn.basel + 1)),
      .Label ⟨"_cgol_" ++ Itoa (fn.basel + 1)⟩],
      rfl, by simp [funcCtx.label, funcCtx.newLabel, CodeBuilder.NewLabel, CodeBuilder.Label],
      Or.inr ⟨rfl, rfl⟩⟩

/-- A run of label operations allocates the labels numbered from the counter
it starts from, one after the other. -/
theorem runLabelOps_allocates : ∀ (ops : List LabelOp) (ctx ctx1 : blockCtx) (fn : funcCtx),
    runLabelOps ops ctx = .ok ctx1 → ctx.curfn = some fn →
    ∃ fn1 added, ctx1.curfn = some fn1 ∧ ctx1.cb.log = ctx.cb.log ++ added ∧
      fn.basel ≤ fn1.basel ∧
      labelsCreated added =
        (List.range' (fn.basel + 1) (fn1.basel - fn.basel)).map (fun k => "_cgol_" ++ Itoa k)
  | [], ctx, ctx1, fn, h, hfn => by
    simp only [runLabelOps, Except.ok.injEq] at h
    subst h
    exact ⟨fn, [], hfn, by simp, le_refl _, by simp [labelsCreated]⟩
  | op :: ops, ctx, ctx1, fn, h, hfn => by
    unfold runLabelOps at h
    cases hr : op.run ctx with
    | error e => simp [hr] at h
    | ok c =>
      simp only [hr] at h
      obtain ⟨fn1, a1, hf1, hl1, hc1⟩ := LabelOp_allocates op ctx c fn hr hfn
      obtain ⟨fn2, a2, hf2, hl2, hle2, hc2⟩ := runLabelOps_allocates ops c ctx1 fn1 h hf1
      refine ⟨fn2, a1 ++ a2, hf2, by rw [hl2, hl1, List.append_assoc], ?_, ?_⟩
      · rcases hc1 with ⟨hb, _⟩ | ⟨hb, _⟩ <;> omega
      · have happ : labelsCreated (a1 ++ a2) = labelsCreated a1 ++ labelsCreated a2 := by
          simp [labelsCreated, List.filterMap_append]
        rw [happ, hc2]
        rcases hc1 with ⟨hb, ha⟩ | ⟨hb, ha⟩
        · rw [ha, hb]; rfl
        · rw [ha, hb]
          have hlen : fn2.basel - fn.basel = (fn2.basel - (fn.basel + 1)) + 1 := by omega
          rw [hlen, List.range'_succ]
          rfl

/-- C9: starting from a function context with `basel = 0`, after any sequence
of label operations (`newLabel`, `label`, `EndLabel`, `nextCaseLabel`,
`elseLabel`, `labelDefault`, `labelStart`) the labels created are, in order,
`_cgol_1`, `_cgol_2`, ..., `_cgol_<basel>`: the `k`-th is named `_cgol_<k>`,
their number is the current value of `basel`, and their names are pairwise
different.  Every operation other than `EndLabel` of a nil or plain-flow
context returns. -/
theorem label_names_unique (ops : List LabelOp) (ctx ctx1 : blockCtx) (fn : funcCtx)
    (hfn : ctx.curfn = some fn) (h0 : fn.basel = 0) (hrun : runLabelOps ops ctx = .ok ctx1) :
    (∃ fn1 added, ctx1.curfn = some fn1 ∧ ctx1.cb.log = ctx.cb.log ++ added ∧
      labelsCreated added = (List.range' 1 fn1.basel).map (fun k => "_cgol_" ++ Itoa k) ∧
      (∀ k, k < fn1.basel → (labelsCreated added)[k]? = some ("_cgol_" ++ Itoa (k + 1))) ∧
      (labelsCreated added).length = fn1.basel ∧
      (labelsCreated added).Nodup) ∧
    (∀ op : LabelOp, op ≠ .EndLabel .nil → (∀ p kind, op ≠ .EndLabel (.baseFlowCtx p kind)) →
      ∃ c, op.run ctx = .ok c) := by
  constructor
  · obtain ⟨fn1, added, hf1, hl1, _, hc1⟩ := runLabelOps_allocates ops ctx ctx1 fn hrun hfn
    rw [h0] at hc1
    simp only [Nat.zero_add, Nat.sub_zero] at hc1
    refine ⟨fn1, added, hf1, hl1, hc1, ?_, by rw [hc1]; simp, ?_⟩
    · intro k hk
      rw [hc1]
      simp [List.getElem?_map, List.getElem?_range', hk, Nat.add_comm]
    · rw [hc1]
      exact (List.nodup_range' 1 fn1.basel).map cgol_name_injective
  · intro op h1 h2
    cases op with
    | EndLabel f =>
      cases f with
      | nil => exact absurd rfl h1
      | baseFlowCtx p kind => exact absurd rfl (h2 p kind)
      | switchCtx ref p =>
        cases hd : (ctx.flows ref).done <;>
          simp [LabelOp.run, flowCtx.EndLabel, endLabelCtx.EndLabel, hd, hfn, Except.map]
      | ifCtx ref p =>
        cases hd : (ctx.flows ref).done <;>
          simp [LabelOp.run, flowCtx.EndLabel, endLabelCtx.EndLabel, hd, hfn, Except.map]
      | loopCtx ref p =>
        cases hd : (ctx.flows ref).done <;>
          simp [LabelOp.run, flowCtx.EndLabel, endLabelCtx.EndLabel, hd, hfn, Except.map]
    | newLabel => simp [LabelOp.run, hfn]
    | label => simp [LabelOp.run, hfn]
    | nextCaseLabel ref => simp [LabelOp.run, switchCtx.nextCaseLabel, hfn, Except.map]
    | elseLabel ref => simp [LabelOp.run, ifCtx.elseLabel, hfn, Except.map]
    | labelDefault ref => simp [LabelOp.run, switchCtx.labelDefault, hfn]
    | labelStart ref => simp [LabelOp.run, loopCtx.labelStart, hfn]

/-- Witness of C9: in a fresh function, bind the start label of a loop, ask
twice for its end label, then allocate a next-case label and an else label:
four labels `_cgol_1` ... `_cgol_4` are created. -/
theorem label_names_unique_witness :
    ∃ c, runLabelOps [.labelStart 0, .EndLabel (.loopCtx 0 .nil), .EndLabel (.loopCtx 0 .nil),
        .nextCaseLabel 1, .elseLabel 2] blockCtx.start = .ok c ∧
      labelsCreated c.cb.log = ["_cgol_1", "_cgol_2", "_cgol_3", "_cgol_4"] ∧
      (labelsCreated c.cb.log).Nodup := by
  refine ⟨_, rfl, rfl, ?_⟩
  obtain ⟨⟨fn1, added, _, hl, _, _, _, hnd⟩, _⟩ :=
    label_names_unique [.labelStart 0, .EndLabel (.loopCtx 0 .nil), .EndLabel (.loopCtx 0 .nil),
      .nextCaseLabel 1, .elseLabel 2] blockCtx.start _ ⟨[], some 0, 0, 0⟩ rfl rfl rfl
  rw [hl]
  simpa [blockCtx.start] using hnd

/-! ### Variables -/

/-- Looking a name up in a scope extended at the end by an object of that
name, when the scope did not hold the name before, finds that object. -/
theorem Scope.Lookup_append_new (s : Scope) (obj : Object) (h : s.Lookup obj.Name = none) :
    Scope.Lookup (s ++ [obj]) obj.Name = some obj := by
  unfold Scope.Lookup at h ⊢
  rw [List.find?_append, h]
  simp

/-! ### End labels are allocated once -/

/-- `EndLabel` of any flow context keeps an end label that is already
stored. -/
theorem EndLabel_keeps_done (f : flowCtx) : ∀ (c : blockCtx) (r : Option Label) (c1 : blockCtx),
    f.EndLabel c = .ok (r, c1) → ∀ (ref : Nat) (l : Label),
    (c.flows ref).done = some l → (c1.flows ref).done = some l := by
  have hend : ∀ (ref0 : Nat) (c : blockCtx) (r : Option Label) (c1 : blockCtx),
      endLabelCtx.EndLabel ref0 c = .ok (r, c1) → ∀ (ref : Nat) (l : Label),
      (c.flows ref).done = some l → (c1.flows ref).done = some l := by
    intro ref0 c r c1 h ref l hl
    unfold endLabelCtx.EndLabel at h
    cases hd : (c.flows ref0).done with
    | some done =>
      simp only [hd, Except.ok.injEq, Prod.mk.injEq] at h
      obtain ⟨_, rfl⟩ := h
      exact hl
    | none =>
      cases hfn : c.curfn with
      | none => simp [hd, hfn] at h
      | some fn =>
        simp only [hd, hfn, Except.ok.injEq, Prod.mk.injEq] at h
        obtain ⟨_, rfl⟩ := h
        have hne : ref ≠ ref0 := by
          rintro rfl
          rw [hd] at hl
          exact absurd hl (by simp)
        simp [Function.update_noteq hne, hl]
  induction f with
  | nil => intro c r c1 h; simp [flowCtx.EndLabel] at h
  | baseFlowCtx parent kind ih =>
    intro c r c1 h ref l hl
    unfold flowCtx.EndLabel at h
    split_ifs at h with hk
    · simp only [Except.ok.injEq, Prod.mk.injEq] at h
      obtain ⟨_, rfl⟩ := h
      exact hl
    · exact ih c r c1 h ref l hl
  | switchCtx ref0 parent _ => exact hend ref0
  | ifCtx ref0 parent _ => exact hend ref0
  | loopCtx ref0 parent _ => exact hend ref0

/-- Every label operation keeps an end label that is already stored. -/
theorem LabelOp_keeps_done (op : LabelOp) (c c1 : blockCtx) (h : op.run c = .ok c1)
    (ref : Nat) (l : Label) (hl : (c.flows ref).done = some l) :
    (c1.flows ref).done = some l := by
  cases op with
  | EndLabel f =>
    simp only [LabelOp.run] at h
    cases hr : f.EndLabel c with
    | error e => simp [hr, Except.map] at h
    | ok r =>
      obtain ⟨r1, c2⟩ := r
      simp only [hr, Except.map, Except.ok.injEq] at h
      subst h
      exact EndLabel_keeps_done f c r1 c2 hr ref l hl
  | newLabel =>
    cases hfn : c.curfn with
    | none => simp [LabelOp.run, hfn] at h
    | some fn =>
      simp only [LabelOp.run, hfn, Except.ok.injEq] at h
      subst h
      exact hl
  | label =>
    cases hfn : c.curfn with
    | none => simp [LabelOp.run, hfn] at h
    | some fn =>
      simp only [LabelOp.run, hfn, Except.ok.injEq] at h
      subst h
      exact hl
  | nextCaseLabel ref0 =>
    cases hfn : c.curfn with
    | none => simp [LabelOp.run, switchCtx.nextCaseLabel, hfn, Except.map] at h
    | some fn =>
      simp only [LabelOp.run, switchCtx.nextCaseLabel, hfn, Except.map, Except.ok.injEq] at h
      subst h
      by_cases hr : ref = ref0
      · subst hr; simp [hl]
      · simp [Function.update_noteq hr, hl]
  | elseLabel ref0 =>
    cases hfn : c.curfn with
    | none => simp [LabelOp.run, ifCtx.elseLabel, hfn, Except.map] at h
    | some fn =>
      simp only [LabelOp.run, ifCtx.elseLabel, hfn, Except.map, Except.ok.injEq] at h
      subst h
      exact hl
  | labelDefault ref0 =>
    cases hfn : c.curfn with
    | none => simp [LabelOp.run, switchCtx.labelDefault, hfn] at h
    | some fn =>
      simp only [LabelOp.run, switchCtx.labelDefault, hfn, Except.ok.injEq] at h
      subst h
      by_cases hr : ref = ref0
      · subst hr; simp [hl]
      · simp [Function.update_noteq hr, hl]
  | labelStart ref0 =>
    cases hfn : c.curfn with
    | none => simp [LabelOp.run, loopCtx.labelStart, hfn] at h
    | some fn =>
      simp only [LabelOp.run, loopCtx.labelStart, hfn, Except.ok.injEq] at h
      subst h
      by_cases hr : ref = ref0
      · subst hr; simp [hl]
      · simp [Function.update_noteq hr, hl]

/-- A run of label operations keeps an end label that is already stored. -/
theorem runLabelOps_keeps_done : ∀ (ops : List LabelOp) (c c1 : blockCtx),
    runLabelOps ops c = .ok c1 → ∀ (ref : Nat) (l : Label),
    (c.flows ref).done = some l → (c1.flows ref).done = some l
  | [], c, c1, h, ref, l, hl => by
    simp only [runLabelOps, Except.ok.injEq] at h
    subst h
    exact hl
  | op :: ops, c, c1, h, ref, l, hl => by
    unfold runLabelOps at h
    cases hr : op.run c with
    | error e => simp [hr] at h
    | ok c2 =>
      simp only [hr] at h
      exact runLabelOps_keeps_done ops c2 c1 h ref l (LabelOp_keeps_done op c c2 hr ref l hl)

/-- C17: for a `switchCtx`, `loopCtx` (or `ifCtx`: every context whose
`EndLabel` is the one of the embedded `endLabelCtx`) that has no end label
yet, the first `EndLabel` call creates exactly one label, the next one of the
function (`_cgol_<basel+1>`), advances `basel` by one and stores the label in
the context.  After any further label operations, `EndLabel` on the same
context returns that same label and leaves the whole translation context,
label counter and stored label included, unchanged.  `nextCaseLabel`, by
contrast, creates a new label on every call and overwrites `next` with it. -/
theorem EndLabel_allocated_once (f : flowCtx) (ref : Nat) (parent : flowCtx) (ctx : blockCtx)
    (fn : funcCtx)
    (hf : f = .switchCtx ref parent ∨ f = .loopCtx ref parent ∨ f = .ifCtx ref parent)
    (hfn : ctx.curfn = some fn) (hd : (ctx.flows ref).done = none) :
    (∃ ctx1, f.EndLabel ctx = .ok (some ⟨"_cgol_" ++ Itoa (fn.basel + 1)⟩, ctx1) ∧
      ctx1.curfn = some { fn with basel := fn.basel + 1 } ∧
      ctx1.cb.log = ctx.cb.log ++ [.NewLabel ("_cgol_" ++ Itoa (fn.basel + 1))] ∧
      (ctx1.flows ref).done = some ⟨"_cgol_" ++ Itoa (fn.basel + 1)⟩ ∧
      (∀ ops ctx2, runLabelOps ops ctx1 = .ok ctx2 →
        f.EndLabel ctx2 = .ok (some ⟨"_cgol_" ++ Itoa (fn.basel + 1)⟩, ctx2))) ∧
    (∃ c1 c2, switchCtx.nextCaseLabel ref ctx = .ok (⟨"_cgol_" ++ Itoa (fn.basel + 1)⟩, c1) ∧
      (c1.flows ref).next = some ⟨"_cgol_" ++ Itoa (fn.basel + 1)⟩ ∧
      switchCtx.nextCaseLabel ref c1 = .ok (⟨"_cgol_" ++ Itoa (fn.basel + 2)⟩, c2) ∧
      (c2.flows ref).next = some ⟨"_cgol_" ++ Itoa (fn.basel + 2)⟩ ∧
      c2.curfn = some { fn with basel := fn.basel + 2 } ∧
      (⟨"_cgol_" ++ Itoa (fn.basel + 1)⟩ : Label) ≠ ⟨"_cgol_" ++ Itoa (fn.basel + 2)⟩) := by
  have hE : f.EndLabel = endLabelCtx.EndLabel ref := by
    rcases hf with rfl | rfl | rfl <;> rfl
  constructor
  · refine ⟨{ ctx with
        curfn := some { fn with basel := fn.basel + 1 },
        cb := ⟨ctx.cb.log ++ [.NewLabel ("_cgol_" ++ Itoa (fn.basel + 1))], ctx.cb.blocks⟩,
        flows := Function.update ctx.flows ref
          { ctx.flows ref with done := some ⟨"_cgol_" ++ Itoa (fn.basel + 1)⟩ } },
      ?_, rfl, rfl, by simp, ?_⟩
    · rw [hE]
      simp [endLabelCtx.EndLabel, hd, hfn, funcCtx.newLabel, CodeBuilder.NewLabel]
    · intro ops ctx2 hrun
      have hdone := runLabelOps_keeps_done ops _ ctx2 hrun ref
        ⟨"_cgol_" ++ Itoa (fn.basel + 1)⟩ (by simp)
      rw [hE]
      simp [endLabelCtx.EndLabel, hdone]
  · refine ⟨{ ctx with
        curfn := some { fn with basel := fn.basel + 1 },
        cb := ⟨ctx.cb.log ++ [.NewLabel ("_cgol_" ++ Itoa (fn.basel + 1))], ctx.cb.blocks⟩,
        flows := Function.update ctx.flows ref
          { ctx.flows ref with next := some ⟨"_cgol_" ++ Itoa (fn.basel + 1)⟩ } }, _,
      ?_, by simp, by simp only [switchCtx.nextCaseLabel]; rfl, by simp [funcCtx.newLabel,
        CodeBuilder.NewLabel], by simp [funcCtx.newLabel], ?_⟩
    · simp [switchCtx.nextCaseLabel, hfn, funcCtx.newLabel, CodeBuilder.NewLabel]
    · intro h
      have h1 := cgol_name_injective (congrArg Label.name h)
      omega

/-- Witness of C17: in a fresh function the first `EndLabel` of a loop context
creates `_cgol_1`; a second call, after a start label and a next-case label
were allocated in between, still returns `_cgol_1`. -/
theorem EndLabel_allocated_once_witness :
    ∃ ctx1 ctx2, (flowCtx.loopCtx 0 .nil).EndLabel blockCtx.start =
        .ok (some ⟨"_cgol_1"⟩, ctx1) ∧
      runLabelOps [.labelStart 0, .nextCaseLabel 1] ctx1 = .ok ctx2 ∧
      (flowCtx.loopCtx 0 .nil).EndLabel ctx2 = .ok (some ⟨"_cgol_1"⟩, ctx2) := by
  obtain ⟨⟨ctx1, h1, h2, _, _, h5⟩, _⟩ :=
    EndLabel_allocated_once (.loopCtx 0 .nil) 0 .nil blockCtx.start ⟨[], some 0, 0, 0⟩
      (Or.inr (Or.inl rfl)) rfl rfl
  have hrun : ∃ ctx2, runLabelOps [.labelStart 0, .nextCaseLabel 1] ctx1 = .ok ctx2 := by
    simp [runLabelOps, LabelOp.run, loopCtx.labelStart, switchCtx.nextCaseLabel, h2, Except.map]
  obtain ⟨ctx2, h6⟩ := hrun
  exact ⟨ctx1, ctx2, h1, h6, h5 _ ctx2 h6⟩

/-! ### Dispatch on the node kind -/

/-- C16: for a node whose kind is none of the kinds listed in the switch of
`compileExprEx`, the function performs no step at all and aborts with the
prompt and the offending kind.  For a node of a listed kind it does what the
one compile function of that kind does, and nothing else: the operator kinds
run `compileBinaryExpr`, `compileUnaryOperator` or
`compileCompoundAssignOperator`; ParenExpr and ConstantExpr run `compileExprEx`
on `Inner[0]`; every other listed kind consists of the single call of its
compile function (with `lhs = (flags&flagLHS) != 0` where it takes one). -/
theorem compileExprEx_dispatch (ctx : ExprCtx) (expr : Node) (prompt : String) (flags : Nat) :
    (expr.Kind ∉ listedKinds →
      compileExprEx ctx expr prompt flags = ⟨[], some (prompt ++ " " ++ expr.Kind ++ "\n")⟩) ∧
    (expr.Kind = ast.BinaryOperator →
      compileExprEx ctx expr prompt flags = compileBinaryExpr expr flags) ∧
    (expr.Kind = ast.UnaryOperator →
      compileExprEx ctx expr prompt flags = compileUnaryOperator ctx expr flags) ∧
    (expr.Kind = ast.CompoundAssignOperator →
      compileExprEx ctx expr prompt flags = compileCompoundAssignOperator expr flags) ∧
    (expr.Kind = ast.ParenExpr ∨ expr.Kind = ast.ConstantExpr →
      compileExprEx ctx expr prompt flags = ⟨[.compileExprEx 0 prompt flags], none⟩) ∧
    (∀ fn : CompileFn,
      (expr.Kind = ast.DeclRefExpr ∧
          fn = .compileDeclRefExpr (decide ((flags &&& flagLHS) ≠ 0)) ∨
        expr.Kind = ast.MemberExpr ∧
          fn = .compileMemberExpr (decide ((flags &&& flagLHS) ≠ 0)) ∨
        expr.Kind = ast.CallExpr ∧ fn = .compileCallExpr ∨
        expr.Kind = ast.ImplicitCastExpr ∧ fn = .compileImplicitCastExpr ∨
        expr.Kind = ast.IntegerLiteral ∧ fn = .compileLiteral token.INT ∨
        expr.Kind = ast.StringLiteral ∧ fn = .compileStringLiteral ∨
        expr.Kind = ast.CharacterLiteral ∧ fn = .compileCharacterLiteral ∨
        expr.Kind = ast.FloatingLiteral ∧ fn = .compileLiteral token.FLOAT ∨
        expr.Kind = ast.CStyleCastExpr ∧ fn = .compileTypeCast ∨
        expr.Kind = ast.ArraySubscriptExpr ∧
          fn = .compileArraySubscriptExpr (decide ((flags &&& flagLHS) ≠ 0)) ∨
        expr.Kind = ast.UnaryExprOrTypeTraitExpr ∧ fn = .compileUnaryExprOrTypeTraitExpr ∨
        expr.Kind = ast.ImplicitValueInitExpr ∧ fn = .compileImplicitValueInitExpr ∨
        expr.Kind = ast.ConditionalOperator ∧ fn = .compileConditionalOperator ∨
        expr.Kind = ast.ImaginaryLiteral ∧ fn = .compileImaginaryLiteral ∨
        expr.Kind = ast.VAArgExpr ∧ fn = .compileVAArgExpr ∨
        expr.Kind = ast.AtomicExpr ∧ fn = .compileAtomicExpr ∨
        expr.Kind = ast.OffsetOfExpr ∧ fn = .compileOffsetOfExpr) →
      compileExprEx ctx expr prompt flags = ⟨[.run fn], none⟩) := by
  refine ⟨?_, ?_, ?_, ?_, ?_, ?_⟩
  · intro h
    simp only [listedKinds, List.mem_cons, List.mem_singleton, List.not_mem_nil, or_false,
      not_or] at h
    simp [compileExprEx, h]
  · intro hk
    simp [compileExprEx, hk]
  · intro hk
    simp [compileExprEx, hk, ast.BinaryOperator, ast.UnaryOperator]
  · intro hk
    simp [compileExprEx, hk, ast.BinaryOperator, ast.UnaryOperator, ast.DeclRefExpr,
      ast.MemberExpr, ast.CallExpr, ast.CompoundAssignOperator]
  · intro hk
    rcases hk with hk | hk <;>
      simp [compileExprEx, hk, ast.BinaryOperator, ast.UnaryOperator, ast.DeclRefExpr,
        ast.MemberExpr, ast.CallExpr, ast.CompoundAssignOperator, ast.ImplicitCastExpr,
        ast.IntegerLiteral, ast.StringLiteral, ast.CharacterLiteral, ast.FloatingLiteral,
        ast.ParenExpr, ast.ConstantExpr]
  · intro fn hk
    rcases hk with ⟨hk, rfl⟩ | ⟨hk, rfl⟩ | ⟨hk, rfl⟩ | ⟨hk, rfl⟩ | ⟨hk, rfl⟩ | ⟨hk, rfl⟩ |
      ⟨hk, rfl⟩ | ⟨hk, rfl⟩ | ⟨hk, rfl⟩ | ⟨hk, rfl⟩ | ⟨hk, rfl⟩ | ⟨hk, rfl⟩ | ⟨hk, rfl⟩ |
      ⟨hk, rfl⟩ | ⟨hk, rfl⟩ | ⟨hk, rfl⟩ | ⟨hk, rfl⟩ <;>
      simp [compileExprEx, hk, ast.BinaryOperator, ast.UnaryOperator, ast.DeclRefExpr,
        ast.MemberExpr, ast.CallExpr, ast.CompoundAssignOperator, ast.ImplicitCastExpr,
        ast.IntegerLiteral, ast.StringLiteral, ast.CharacterLiteral, ast.FloatingLiteral,
        ast.ParenExpr, ast.ConstantExpr, ast.CStyleCastExpr, ast.ArraySubscriptExpr,
        ast.UnaryExprOrTypeTraitExpr, ast.ImplicitValueInitExpr, ast.ConditionalOperator,
        ast.ImaginaryLiteral, ast.VAArgExpr, ast.AtomicExpr, ast.OffsetOfExpr]

/-! ### Calls -/

/-- C15 (as amended): a call of `__builtin_va_start` or `__builtin_va_end`
compiles to nothing.  For every other call node with a callee, the callee and
the arguments are compiled in source order (`Inner[0]`, `Inner[1]`, ...), each
once, and the last step is `CallWith(len(Inner) - 1, flags)`.  The flags are
the ellipsis flag, and the value on top of the stack is popped and replaced by
the object looked up under `valistName`, exactly when `len(Inner) > 2` and the
last compiled value has the va_list type; otherwise nothing stands between the
arguments and the call, and the call carries no ellipsis flag. -/
theorem call_compiled_in_order (stkTopIsValist : Bool) (v : Node) (fn : Node)
    (rest : List Node) (hv : v.Inner = fn :: rest) :
    (isVaStartOrEnd fn = .ok true → compileCallExpr stkTopIsValist v = ⟨[], none⟩) ∧
    (isVaStartOrEnd fn = .ok false →
      (compileCallExpr stkTopIsValist v).fatal = none ∧
      ((v.Inner.length > 2 ∧ stkTopIsValist = true) →
        (compileCallExpr stkTopIsValist v).steps =
          (List.range v.Inner.length).map compileExpr ++
            [.stkPop, .cb (.Val (.lookupParent valistName)),
              .cb (.CallWith ((v.Inner.length : Int) - 1) true)]) ∧
      (¬ (v.Inner.length > 2 ∧ stkTopIsValist = true) →
        (compileCallExpr stkTopIsValist v).steps =
          (List.range v.Inner.length).map compileExpr ++
            [.cb (.CallWith ((v.Inner.length : Int) - 1) false)])) := by
  constructor
  · intro h
    simp [compileCallExpr, hv, h]
  · intro h
    refine ⟨by simp [compileCallExpr, hv, h], ?_, ?_⟩
    · rintro ⟨hn, hs⟩
      rw [hv] at hn ⊢
      have hd : decide (2 < (fn :: rest).length) = true := by simpa using hn
      simp only [compileCallExpr, hv, h, hs, gt_iff_lt, hd, Bool.and_self, if_true,
        List.append_assoc]
      rfl
    · intro hn
      rw [hv] at hn ⊢
      have hd : (decide (2 < (fn :: rest).length) && stkTopIsValist) = false := by
        cases stkTopIsValist <;> simp_all
      simp only [compileCallExpr, hv, h, gt_iff_lt, hd, if_false, List.append_nil,
        Bool.false_eq_true]

/-- Witness of C15: `vprintf(fmt, ap)`: three children, the last value of the
va_list type. -/
theorem call_compiled_in_order_witness :
    (compileCallExpr true (.mk ast.CallExpr "" false "" "" none
        [.mk ast.ImplicitCastExpr "" false "FunctionToPointerDecay" "" none [],
          .mk ast.DeclRefExpr "" false "" "" (some "fmt") [],
          .mk ast.DeclRefExpr "" false "" "" (some "ap") []])).steps =
      [compileExpr 0, compileExpr 1, compileExpr 2, .stkPop,
        .cb (.Val (.lookupParent valistName)), .cb (.CallWith 2 true)] :=
  ((call_compiled_in_order true (.mk ast.CallExpr "" false "" "" none
      [.mk ast.ImplicitCastExpr "" false "FunctionToPointerDecay" "" none [],
        .mk ast.DeclRefExpr "" false "" "" (some "fmt") [],
        .mk ast.DeclRefExpr "" false "" "" (some "ap") []])
    (.mk ast.ImplicitCastExpr "" false "FunctionToPointerDecay" "" none []) _ rfl).2 rfl).2.1
    ⟨by decide, rfl⟩

/-- Counterexample to C15 as stated: the call `g(ap)`, whose only and last
argument has the va_list type, is emitted as an ordinary call: the argument
is not replaced and the call carries no ellipsis flag.  And the call
`__builtin_va_start(ap, n)`, whose last value is not of the va_list type,
compiles neither callee nor arguments and emits no call. -/
theorem call_single_valist_not_ellipsis :
    compileCallExpr true (.mk ast.CallExpr "" false "" "" none
        [.mk ast.ImplicitCastExpr "" false "FunctionToPointerDecay" "" none [],
          .mk ast.DeclRefExpr "" false "" "" (some "ap") []]) =
      ⟨[compileExpr 0, compileExpr 1, .cb (.CallWith 1 false)], none⟩ ∧
    compileCallExpr false (.mk ast.CallExpr "" false "" "" none
        [.mk ast.ImplicitCastExpr "" false ast.BuiltinFnToFnPtr "" none
            [.mk ast.DeclRefExpr "" false "" "" (some "__builtin_va_start") []],
          .mk ast.DeclRefExpr "" false "" "" (some "ap") [],
          .mk ast.DeclRefExpr "" false "" "" (some "n") []]) = ⟨[], none⟩ := by
  decide

/-! ### Struct fields and offsets -/

/-- When no remaining field has the name, the loop of `getFld` returns
`(nil, -1)`. -/
theorem getFldLoop_none (name : String) : ∀ (rest : List Var) (i : Nat) (flds : List Var),
    (∀ f ∈ rest, f.Name ≠ name) → getFldLoop name rest i flds = ([], -1)
  | [], _, _, _ => rfl
  | f :: rest, i, flds, h => by
    have hf : f.Name ≠ name := h f (by simp)
    simp only [getFldLoop, hf, if_false]
    exact getFldLoop_none name rest (i + 1) (flds ++ [f]) (fun g hg => h g (by simp [hg]))

/-- When `slot` is the first remaining field with the name, the loop of
`getFld` returns the fields up to and including `slot` and the index of
`slot`. -/
theorem getFldLoop_found (name : String) (slot : Var) (post : List Var)
    (hs : slot.Name = name) : ∀ (pre : List Var) (i : Nat) (flds : List Var),
    (∀ f ∈ pre, f.Name ≠ name) →
    getFldLoop name (pre ++ slot :: post) i flds =
      (flds ++ pre ++ [slot], ((i + pre.length : Nat) : Int))
  | [], i, flds, _ => by simp [getFldLoop, hs]
  | f :: pre, i, flds, h => by
    have hf : f.Name ≠ name := h f (by simp)
    show getFldLoop name (f :: (pre ++ slot :: post)) i flds = _
    rw [getFldLoop, if_neg hf, getFldLoop_found name slot post hs pre (i + 1) (flds ++ [f])
      (fun g hg => h g (by simp [hg]))]
    simp only [List.append_assoc, List.singleton_append, List.length_cons, Prod.mk.injEq,
      true_and]
    congr 1
    omega

/-- A field list either has no field of a given name, or splits at the first
field of that name. -/
theorem first_field_named (name : String) : ∀ (t : List Var),
    (∀ f ∈ t, f.Name ≠ name) ∨
      ∃ pre slot post, t = pre ++ slot :: post ∧ slot.Name = name ∧ ∀ f ∈ pre, f.Name ≠ name
  | [] => Or.inl (by simp)
  | f :: t => by
    by_cases hf : f.Name = name
    · exact Or.inr ⟨[], f, t, rfl, hf, by simp⟩
    · rcases first_field_named name t with h | ⟨pre, slot, post, rfl, hs, hp⟩
      · left
        intro g hg
        rcases List.mem_cons.mp hg with rfl | hg
        · exact hf
        · exact h g hg
      · right
        refine ⟨f :: pre, slot, post, rfl, hs, ?_⟩
        intro g hg
        rcases List.mem_cons.mp hg with rfl | hg
        · exact hf
        · exact hp g hg

/-- On a struct without a field of the name, `offsetof` aborts. -/
theorem offsetof_struct_none (pkg : Package) (t : Struct) (name : String)
    (h : ∀ f ∈ t, f.Name ≠ name) :
    offsetof pkg (.Struct t) name =
      .error ("offsetof(" ++ pkg.Sprint (.Struct t) ++ ", " ++ name ++ "): field not found") := by
  have hg : getFld t name 0 = ([], -1) := by
    simp only [getFld, List.drop_zero]
    exact getFldLoop_none name t 0 [] h
  simp [offsetof, hg]

/-- On a struct whose first field of the name is `slot`, `getFld` returns the
fields up to and including `slot` with the index of `slot`, and `offsetof`
returns the entry of that index of their layout offsets. -/
theorem offsetof_struct_found (pkg : Package) (pre : List Var) (slot : Var) (post : List Var)
    (name : String) (hs : slot.Name = name) (hp : ∀ f ∈ pre, f.Name ≠ name) :
    getFld (pre ++ slot :: post) name 0 = (pre ++ [slot], (pre.length : Int)) ∧
    ∃ off, (pkg.Offsetsof (pre ++ [slot]))[pre.length]? = some off ∧
      offsetof pkg (.Struct (pre ++ slot :: post)) name = .ok off := by
  have hg : getFld (pre ++ slot :: post) name 0 = (pre ++ [slot], (pre.length : Int)) := by
    simp only [getFld, List.drop_zero]
    rw [getFldLoop_found name slot post hs pre 0 [] hp]
    simp
  refine ⟨hg, ?_⟩
  have hlen : pre.length < (pkg.Offsetsof (pre ++ [slot])).length := by
    rw [pkg.Offsetsof_length]; simp
  refine ⟨(pkg.Offsetsof (pre ++ [slot]))[pre.length], List.getElem?_eq_getElem hlen, ?_⟩
  simp [offsetof, hg, List.getElem?_eq_getElem hlen]

/-- `offsetof` looks through named types. -/
theorem offsetof_unwrap (pkg : Package) (name : String) : ∀ typ : TypeExpr,
    offsetof pkg typ name = offsetof pkg typ.unwrap name
  | .Struct _ => rfl
  | .Other _ => rfl
  | .Named _ u => by
    simp only [offsetof, TypeExpr.unwrap]
    exact offsetof_unwrap pkg name u

/-- Unwrapping never ends on a named type. -/
theorem unwrap_not_named : ∀ (typ : TypeExpr) (n : String) (u : TypeExpr),
    typ.unwrap ≠ .Named n u
  | .Struct _, _, _ => by simp [TypeExpr.unwrap]
  | .Other _, _, _ => by simp [TypeExpr.unwrap]
  | .Named _ u0, n, u => by
    simp only [TypeExpr.unwrap]
    exact unwrap_not_named u0 n u

/-- C13: `offsetof(typ, name)` aborts with "field not found" if and only if
the field does not resolve, that is unless `typ`, with the named types around
it removed, is a struct that has a field called `name`.  When it resolves,
with `slot` the first field called `name` and `pre` the fields before it,
`getFld` returns exactly the fields `pre ++ [slot]` and the index
`idx = len(pre)`, and the result is entry `idx` of the layout offsets of
those fields. -/
theorem offsetof_resolves_or_aborts (pkg : Package) (typ : TypeExpr) (name : String) :
    (offsetof pkg typ name =
        .error ("offsetof(" ++ pkg.Sprint typ.unwrap ++ ", " ++ name ++ "): field not found") ↔
      ¬ ∃ t, typ.unwrap = .Struct t ∧ ∃ f ∈ t, f.Name = name) ∧
    (∀ pre slot post, typ.unwrap = .Struct (pre ++ slot :: post) → slot.Name = name →
      (∀ f ∈ pre, f.Name ≠ name) →
      getFld (pre ++ slot :: post) name 0 = (pre ++ [slot], (pre.length : Int)) ∧
      ∃ off, (pkg.Offsetsof (pre ++ [slot]))[pre.length]? = some off ∧
        offsetof pkg typ name = .ok off) := by
  rw [offsetof_unwrap]
  constructor
  · cases hu : typ.unwrap with
    | Named n u => exact absurd hu (unwrap_not_named typ n u)
    | Other g => simp [offsetof]
    | Struct t =>
      rcases first_field_named name t with h | ⟨pre, slot, post, rfl, hs, hp⟩
      · constructor
        · rintro _ ⟨t1, ht1, f, hf, hn⟩
          simp only [TypeExpr.Struct.injEq] at ht1
          subst ht1
          exact h f hf hn
        · intro _
          exact offsetof_struct_none pkg t name h
      · obtain ⟨_, off, _, hoff⟩ := offsetof_struct_found pkg pre slot post name hs hp
        constructor
        · intro herr
          rw [hoff] at herr
          exact absurd herr (by simp)
        · intro hno
          exact absurd ⟨_, rfl, slot, by simp, hs⟩ hno
  · intro pre slot post hu hs hp
    rw [hu]
    exact offsetof_struct_found pkg pre slot post name hs hp

/-- C14 (as amended): `offsetof` resolves a name against the real fields of
the underlying struct only and never consults the bit-field metadata.  For a
named struct type that carries bit-field metadata and a bit-field `b` of it:
if no real field is called as `b`, `offsetof(type, b.Name)` aborts with "field
not found"; and `offsetof(type, b.FldName)`, the name of the storage unit of
`b`, returns the byte offset of that storage unit. -/
theorem offsetof_bitfield_name_aborts (pkg : Package) (tname : String) (t : Struct)
    (v : List BitField) (b : BitField) (_hv : pkg.VFields tname = some (.BitFields v))
    (_hb : b ∈ v) :
    ((∀ f ∈ t, f.Name ≠ b.Name) →
      offsetof pkg (.Named tname (.Struct t)) b.Name =
        .error ("offsetof(" ++ pkg.Sprint (.Struct t) ++ ", " ++ b.Name ++
          "): field not found")) ∧
    (∀ pre slot post, t = pre ++ slot :: post → slot.Name = b.FldName →
      (∀ f ∈ pre, f.Name ≠ b.FldName) →
      ∃ off, (pkg.Offsetsof (pre ++ [slot]))[pre.length]? = some off ∧
        offsetof pkg (.Named tname (.Struct t)) b.FldName = .ok off) := by
  constructor
  · intro h
    exact offsetof_struct_none pkg t b.Name h
  · rintro pre slot post rfl hs hp
    exact (offsetof_struct_found pkg pre slot post b.FldName hs hp).2

/-- Witness of C14: in `struct_foo`, with the real fields `x` and `a_` and the
bit-fields `a`, `b` stored in `a_`, `offsetof(struct_foo, b)` aborts and
`offsetof(struct_foo, a_)` is 4. -/
theorem offsetof_bitfield_name_aborts_witness :
    offsetof Package.sample (.Named "struct_foo" (.Struct
        [⟨"x", .type (.Other "int")⟩, ⟨"a_", .type (.Other "uint32")⟩])) "b" =
      .error "offsetof(struct, b): field not found" ∧
    offsetof Package.sample (.Named "struct_foo" (.Struct
        [⟨"x", .type (.Other "int")⟩, ⟨"a_", .type (.Other "uint32")⟩])) "a_" = .ok 4 := by
  have h := offsetof_bitfield_name_aborts Package.sample "struct_foo"
    [⟨"x", .type (.Other "int")⟩, ⟨"a_", .type (.Other "uint32")⟩]
    [⟨"a", "a_", 0, 3⟩, ⟨"b", "a_", 3, 5⟩] ⟨"b", "a_", 3, 5⟩ rfl (by decide)
  refine ⟨h.1 (by decide), ?_⟩
  obtain ⟨off, h1, h2⟩ := h.2 [⟨"x", .type (.Other "int")⟩] ⟨"a_", .type (.Other "uint32")⟩ []
    rfl rfl (by decide)
  have h3 : off = 4 := by
    have : (Package.sample.Offsetsof
        ([⟨"x", .type (.Other "int")⟩] ++ [⟨"a_", .type (.Other "uint32")⟩]))[
        [(⟨"x", .type (.Other "int")⟩ : Var)].length]? = some 4 := by decide
    rw [this] at h1
    exact (Option.some.inj h1).symm
  rw [h2, h3]

/-- Counterexample to C14 as stated: `struct_foo` carries the bit-fields `a`
and `b`, both stored in the real field `a_`; `offsetof(struct_foo, a)` does
not return the offset of `a_` (which is 4): it aborts. -/
theorem offsetof_on_bitfield_not_found :
    Package.sample.VFields "struct_foo" =
      some (.BitFields [⟨"a", "a_", 0, 3⟩, ⟨"b", "a_", 3, 5⟩]) ∧
    offsetof Package.sample (.Named "struct_foo" (.Struct
        [⟨"x", .type (.Other "int")⟩, ⟨"a_", .type (.Other "uint32")⟩])) "a" =
      .error "offsetof(struct, a): field not found" ∧
    offsetof Package.sample (.Named "struct_foo" (.Struct
        [⟨"x", .type (.Other "int")⟩, ⟨"a_", .type (.Other "uint32")⟩])) "a_" = .ok 4 :=
  ⟨rfl, rfl, rfl⟩

/-! ### The struct view -/

/-- The inner loop of `buildVStruct` takes the bit-fields that share the
`FldName` of the run, in order, and leaves the others. -/
theorem bitfieldRun_eq (typ : FieldType) (name : String) : ∀ bs : List BitField,
    bitfieldRun typ name bs =
      ((bs.takeWhile (fun c => c.FldName = name)).map
          (fun c => (⟨c.Name, .bfType typ c false⟩ : Var)),
        bs.dropWhile (fun c => c.FldName = name))
  | [] => rfl
  | c :: bs => by
    by_cases hc : c.FldName = name
    · simp [bitfieldRun, hc, bitfieldRun_eq typ name bs, List.takeWhile_cons,
        List.dropWhile_cons]
    · simp [bitfieldRun, hc, List.takeWhile_cons, List.dropWhile_cons]

theorem viewFields_nil (s : Struct) : viewFields s [] = .ok s := by
  cases s <;> rfl

/-- Without a field named as the slot of the next run, the view fails. -/
theorem viewFields_none (b : BitField) (bs : List BitField) : ∀ t : List Var,
    (∀ f ∈ t, f.Name ≠ b.FldName) →
    viewFields t (b :: bs) = .error ("buildVStruct: field not found - " ++ b.FldName ++ "\n")
  | [], _ => rfl
  | f :: t, h => by
    have hf : f.Name ≠ b.FldName := h f (by simp)
    rw [viewFields, if_neg hf, viewFields_none b bs t (fun g hg => h g (by simp [hg]))]
    rfl

/-- The view keeps the fields before the slot of the next run, replaces the
slot by the synthetic fields of the run and goes on behind the slot with the
bit-fields left. -/
theorem viewFields_found (slot : Var) (post : List Var) (b : BitField) (bs : List BitField)
    (hs : slot.Name = b.FldName) : ∀ pre : List Var, (∀ f ∈ pre, f.Name ≠ b.FldName) →
    viewFields (pre ++ slot :: post) (b :: bs) =
      (viewFields post (bs.dropWhile (fun c => c.FldName = b.FldName))).map
        (fun r => pre ++ synthFields slot
          (b :: bs.takeWhile (fun c => c.FldName = b.FldName)) ++ r)
  | [], _ => by
    show viewFields (slot :: post) (b :: bs) = _
    rw [viewFields, if_pos hs]
    rfl
  | f :: pre, h => by
    have hf : f.Name ≠ b.FldName := h f (by simp)
    show viewFields (f :: (pre ++ slot :: post)) (b :: bs) = _
    rw [viewFields, if_neg hf, viewFields_found slot post b bs hs pre
      (fun g hg => h g (by simp [hg]))]
    cases viewFields post (bs.dropWhile (fun c => c.FldName = b.FldName)) with
    | error e => rfl
    | ok r => simp [Except.map]

/-- The loop of `buildVStruct`, followed by the copy of the fields left,
computes the specified view of the fields from `frm` on, behind the fields
built so far. -/
theorem buildVStructLoop_eq (struc : Struct) : ∀ (fuel : Nat) (bfs : List BitField) (frm : Nat)
    (vFlds : List Var), bfs.length ≤ fuel →
    (match buildVStructLoop struc fuel bfs frm vFlds with
      | .error e => (.error e : Except String (List Var))
      | .ok (frm1, vf) => .ok (vf ++ struc.drop frm1)) =
      (viewFields (struc.drop frm) bfs).map (fun r => vFlds ++ r) := by
  intro fuel
  induction fuel with
  | zero =>
    intro bfs frm vFlds hlen
    have hb : bfs = [] := List.length_eq_zero.mp (Nat.le_zero.mp hlen)
    subst hb
    simp [buildVStructLoop, viewFields_nil, Except.map]
  | succ fuel ih =>
    intro bfs frm vFlds hlen
    cases bfs with
    | nil => simp [buildVStructLoop, viewFields_nil, Except.map]
    | cons b bs =>
      rcases first_field_named b.FldName (struc.drop frm) with h | ⟨pre, slot, post, hsplit, hs, hp⟩
      · have hg : getFld struc b.FldName frm = ([], -1) :=
          getFldLoop_none b.FldName (struc.drop frm) frm [] h
        rw [viewFields_none b bs _ h]
        simp [buildVStructLoop, hg, Except.map]
      · have hg : getFld struc b.FldName frm =
            (pre ++ [slot], ((frm + pre.length : Nat) : Int)) := by
          unfold getFld
          rw [hsplit, getFldLoop_found b.FldName slot post hs pre frm [] hp]
          simp
        have hidx : (((frm + pre.length : Nat) : Int) - (frm : Int)).toNat = pre.length := by
          omega
        have hnext : (((frm + pre.length : Nat) : Int) + 1).toNat = frm + pre.length + 1 := by
          omega
        have hnn : ¬ (((frm + pre.length : Nat) : Int) < 0) := by omega
        have hget : (pre ++ [slot])[pre.length]? = some slot := by
          rw [List.getElem?_append_right (le_refl _)]
          simp
        have htake : (pre ++ [slot]).take pre.length = pre := List.take_left' rfl
        have hdrop : struc.drop (frm + pre.length + 1) = post := by
          have h1 : struc.drop (frm + (pre.length + 1)) =
              (struc.drop frm).drop (pre.length + 1) := (List.drop_drop _ _ _).symm
          rw [Nat.add_assoc, h1, hsplit]
          have h2 : (pre ++ slot :: post).drop (pre.length + 1) = post := by
            have h3 : pre ++ slot :: post = (pre ++ [slot]) ++ post := by simp
            rw [h3]
            exact List.drop_left' (by simp)
          exact h2
        have hle : (bs.dropWhile (fun c => c.FldName = b.FldName)).length ≤ fuel := by
          have h1 : (bs.dropWhile (fun c => c.FldName = b.FldName)).length ≤ bs.length :=
            (List.dropWhile_sublist _).length_le
          simp only [List.length_cons] at hlen
          omega
        have hstep := ih (bs.dropWhile (fun c => c.FldName = b.FldName))
          (frm + pre.length + 1)
          (vFlds ++ pre ++ [⟨b.Name, .bfType slot.Typ b true⟩] ++
            (bs.takeWhile (fun c => c.FldName = b.FldName)).map
              (fun c => (⟨c.Name, .bfType slot.Typ c false⟩ : Var))) hle
        rw [hdrop] at hstep
        rw [hsplit, viewFields_found slot post b bs hs pre hp]
        simp only [buildVStructLoop, hg, hnn, if_false, hidx, hget, htake, hnext,
          bitfieldRun_eq]
        rw [hstep]
        cases viewFields post (bs.dropWhile (fun c => c.FldName = b.FldName)) with
        | error e => rfl
        | ok r => simp [Except.map, synthFields]

/-- A run more: the number of runs of `b :: bs` is one more than that of the
bit-fields left behind the run of `b`. -/
theorem numRuns_cons (b : BitField) : ∀ bs : List BitField,
    numRuns (b :: bs) = 1 + numRuns (bs.dropWhile (fun c => c.FldName = b.FldName))
  | [] => rfl
  | c :: bs => by
    by_cases hc : c.FldName = b.FldName
    · have hbc : b.FldName = c.FldName := hc.symm
      rw [numRuns, if_pos hbc, numRuns_cons c bs, List.dropWhile_cons, hc]
      simp
    · have hbc : ¬ b.FldName = c.FldName := fun h => hc h.symm
      rw [numRuns, if_neg hbc, List.dropWhile_cons]
      simp [hc]

/-- The view has one field per bit-field and one per field of the struct
that is not the slot of a run. -/
theorem viewFields_length : ∀ (s : Struct) (v : List BitField) (r : List Var),
    viewFields s v = .ok r → r.length + numRuns v = s.length + v.length
  | s, [], r, h => by
    rw [viewFields_nil] at h
    simp only [Except.ok.injEq] at h
    subst h
    simp [numRuns]
  | [], b :: bs, r, h => by simp [viewFields] at h
  | f :: s, b :: bs, r, h => by
    rw [viewFields] at h
    split_ifs at h with hf
    · cases hr : viewFields s (bs.dropWhile (fun c => c.FldName = b.FldName)) with
      | error e => simp [hr, Except.map] at h
      | ok r1 =>
        simp only [hr, Except.map, Except.ok.injEq] at h
        subst h
        have ih := viewFields_length s _ r1 hr
        have hsplit := congrArg List.length
          (List.takeWhile_append_dropWhile (fun c : BitField => decide (c.FldName = b.FldName))
            bs)
        simp only [List.length_append] at hsplit
        rw [numRuns_cons]
        simp only [synthFields, List.length_append, List.length_cons, List.length_map]
        omega
    · cases hr : viewFields s (b :: bs) with
      | error e => simp [hr, Except.map] at h
      | ok r1 =>
        simp only [hr, Except.map, Except.ok.injEq] at h
        subst h
        have ih := viewFields_length s _ r1 hr
        simp only [List.length_cons] at ih ⊢
        omega

/-- When the slots of the runs occur in order, the view exists. -/
theorem viewFields_of_slotsInOrder (s : Struct) (v : List BitField) (h : SlotsInOrder s v) :
    ∃ r, viewFields s v = .ok r := by
  induction h with
  | done s => exact ⟨s, viewFields_nil s⟩
  | run pre slot post b bs hs hp _ ih =>
    obtain ⟨r, hr⟩ := ih
    exact ⟨_, by rw [viewFields_found slot post b bs hs pre hp, hr]; rfl⟩

/-- C12: `buildVStruct` on bit-field metadata computes exactly the specified
view: the fields of the struct in order, each storage slot of a run of
bit-fields replaced by one synthetic field per bit-field of the run (named as
the bit-field, typed as a `bfType` of the slot's type and the bit-field, with
`first = true` on the first one only), every other field kept; and it aborts
with "field not found" exactly where that view does not exist.  When the slots
of the runs occur in the struct in order, the view exists and has
`NumFields(S) - runs + v.Len()` fields.  On other metadata `buildVStruct`
returns the struct itself, and `getVStruct` returns the underlying struct of a
named type without metadata unmodified. -/
theorem buildVStruct_is_view (struc : Struct) (v : List BitField) :
    buildVStruct struc (.BitFields v) = viewFields struc v ∧
    (SlotsInOrder struc v → ∃ r, buildVStruct struc (.BitFields v) = .ok r ∧
      r.length + numRuns v = struc.length + v.length) ∧
    (∀ slot b bs, synthFields slot (b :: bs) =
      ⟨b.Name, .bfType slot.Typ b true⟩ ::
        bs.map (fun c => (⟨c.Name, .bfType slot.Typ c false⟩ : Var))) ∧
    buildVStruct struc .Other = .ok struc ∧
    (∀ (pkg : Package) (name : String), pkg.VFields name = none →
      getVStruct pkg name (.Struct struc) = .ok struc) := by
  have heq : buildVStruct struc (.BitFields v) = viewFields struc v := by
    have h := buildVStructLoop_eq struc v.length v 0 [] (le_refl _)
    simp only [List.drop_zero] at h
    have h2 : (viewFields struc v).map (fun r => [] ++ r) = viewFields struc v := by
      cases viewFields struc v <;> simp [Except.map]
    exact h.trans h2
  refine ⟨heq, ?_, fun _ _ _ => rfl, rfl, ?_⟩
  · intro hs
    obtain ⟨r, hr⟩ := viewFields_of_slotsInOrder struc v hs
    exact ⟨r, by rw [heq, hr], viewFields_length struc v r hr⟩
  · intro pkg name hn
    simp [getVStruct, hn]

/-- Witness of C12: the struct `x, a_, y, d_` with the bit-fields `a`, `b`
(stored in `a_`) and `d` (stored in `d_`) is viewed as `x, a, b, y, d`, with
`first` set on `a` and `d`: 4 - 2 + 3 = 5 fields. -/
theorem buildVStruct_is_view_witness :
    SlotsInOrder
      [⟨"x", .type (.Other "int")⟩, ⟨"a_", .type (.Other "uint32")⟩,
        ⟨"y", .type (.Other "int")⟩, ⟨"d_", .type (.Other "uint8")⟩]
      [⟨"a", "a_", 0, 3⟩, ⟨"b", "a_", 3, 5⟩, ⟨"d", "d_", 0, 1⟩] ∧
    buildVStruct
      [⟨"x", .type (.Other "int")⟩, ⟨"a_", .type (.Other "uint32")⟩,
        ⟨"y", .type (.Other "int")⟩, ⟨"d_", .type (.Other "uint8")⟩]
      (.BitFields [⟨"a", "a_", 0, 3⟩, ⟨"b", "a_", 3, 5⟩, ⟨"d", "d_", 0, 1⟩]) =
      .ok [⟨"x", .type (.Other "int")⟩,
        ⟨"a", .bfType (.type (.Other "uint32")) ⟨"a", "a_", 0, 3⟩ true⟩,
        ⟨"b", .bfType (.type (.Other "uint32")) ⟨"b", "a_", 3, 5⟩ false⟩,
        ⟨"y", .type (.Other "int")⟩,
        ⟨"d", .bfType (.type (.Other "uint8")) ⟨"d", "d_", 0, 1⟩ true⟩] := by
  have hs : SlotsInOrder
      [⟨"x", .type (.Other "int")⟩, ⟨"a_", .type (.Other "uint32")⟩,
        ⟨"y", .type (.Other "int")⟩, ⟨"d_", .type (.Other "uint8")⟩]
      [⟨"a", "a_", 0, 3⟩, ⟨"b", "a_", 3, 5⟩, ⟨"d", "d_", 0, 1⟩] :=
    .run [⟨"x", .type (.Other "int")⟩] ⟨"a_", .type (.Other "uint32")⟩ _ _ _ rfl (by decide)
      (.run [⟨"y", .type (.Other "int")⟩] ⟨"d_", .type (.Other "uint8")⟩ [] _ _ rfl
        (by decide) (.done _))
  refine ⟨hs, ?_⟩
  rw [(buildVStruct_is_view _ _).1]
  rfl

/-! ### Scanning identifiers -/

/-- The scan returns -1 when no character satisfies the test. -/
theorem IndexFuncLoop_none (f : Char → Bool) : ∀ (b : List Char) (i : Nat),
    (∀ c ∈ b, f c = false) → IndexFuncLoop f b i = -1
  | [], _, _ => rfl
  | c :: b, i, h => by
    have hc : f c = false := h c (by simp)
    rw [IndexFuncLoop]
    simp only [hc, Bool.false_eq_true, if_false]
    exact IndexFuncLoop_none f b (i + 1) (fun x hx => h x (by simp [hx]))

/-- The scan returns the position of the first character that satisfies the
test. -/
theorem IndexFuncLoop_found (f : Char → Bool) (c : Char) (rest : List Char) (hc : f c = true) :
    ∀ (pre : List Char) (i : Nat), (∀ x ∈ pre, f x = false) →
    IndexFuncLoop f (pre ++ c :: rest) i = ((i + pre.length : Nat) : Int)
  | [], i, _ => by simp [IndexFuncLoop, hc]
  | x :: pre, i, h => by
    have hx : f x = false := h x (by simp)
    show IndexFuncLoop f (x :: (pre ++ c :: rest)) i = _
    rw [IndexFuncLoop]
    simp only [hx, Bool.false_eq_true, if_false]
    rw [IndexFuncLoop_found f c rest hc pre (i + 1) (fun y hy => h y (by simp [hy]))]
    simp only [List.length_cons]
    congr 1
    omega

/-- An identifier character is no blank. -/
theorem isCSymbolNextChar_not_space (x : Char) (h : isCSymbolNextChar x = true) :
    space.toList.contains x = false := by
  cases hc : space.toList.contains x with
  | false => rfl
  | true =>
    have hx : x = ' ' ∨ x = '\t' ∨ x = '\r' ∨ x = '\n' := by
      have hs : space.toList = [' ', '\t', '\r', '\n'] := rfl
      rw [hs] at hc
      simpa using hc
    rcases hx with rfl | rfl | rfl | rfl <;> revert h <;> decide

/-- Trimming skips a run of blanks that is followed by an identifier
character. -/
theorem TrimLeft_blanks (ws : List Char) (c : Char) (rest : List Char)
    (hws : ∀ x ∈ ws, space.toList.contains x = true) (hc : space.toList.contains c = false) :
    TrimLeft (ws ++ c :: rest) space = c :: rest := by
  induction ws with
  | nil =>
    simp only [TrimLeft, List.nil_append, List.dropWhile_cons, hc, Bool.false_eq_true,
      if_false]
  | cons x ws ih =>
    have hx : space.toList.contains x = true := hws x (by simp)
    have := ih (fun y hy => hws y (by simp [hy]))
    simp only [TrimLeft] at this ⊢
    simp only [List.cons_append, List.dropWhile_cons, hx, if_true]
    exact this

/-- The function `ident` aborts on a text that, with its leading blanks
skipped, holds identifier characters only (none, or some up to its end). -/
theorem ident_no_terminator (b : List Char) (msg : String)
    (h : ∀ c ∈ TrimLeft b space, isCSymbolNextChar c = true) :
    ident b msg = .error (msg ++ "\n") := by
  have hidx : IndexFunc (TrimLeft b space) (fun r => !isCSymbolNextChar r) = -1 :=
    IndexFuncLoop_none _ _ 0 (fun c hc => by simp [h c hc])
  simp [ident, hidx]

/-- The function `ident` returns the leading run of identifier characters when
that run is not empty and is followed by another character. -/
theorem ident_run (b : List Char) (msg : String) (name : List Char) (c : Char)
    (rest : List Char) (ht : TrimLeft b space = name ++ c :: rest) (hne : name ≠ [])
    (hname : ∀ x ∈ name, isCSymbolNextChar x = true) (hc : isCSymbolNextChar c = false) :
    ident b msg = .ok (String.mk name) := by
  have hidx : IndexFunc (TrimLeft b space) (fun r => !isCSymbolNextChar r) =
      ((0 + name.length : Nat) : Int) := by
    rw [ht]
    exact IndexFuncLoop_found _ c rest (by simp [hc]) name 0 (fun x hx => by simp [hname x hx])
  have hpos : 0 < name.length := List.length_pos.mpr hne
  have hnot : ¬ ((name.length : Int) ≤ 0) := by omega
  have htake : (name ++ c :: rest).take name.length = name := List.take_left' rfl
  rw [ht] at hidx
  simp only [ident, ht, hidx, hnot, if_false, Nat.zero_add, Int.toNat_ofNat, htake]

/-- C18 (amended): `ident(b, msg)` aborts when `b`, with its leading blanks
skipped, is empty, or begins with a character that is no identifier
character, or consists of identifier characters up to its very end (`IndexFunc`
then finds no terminator and returns -1, which `idx <= 0` takes for a failure);
it returns the maximal leading run of identifier characters when that run is
not empty and is followed by some other character.  So for every source in
which the token at the offset is `goto`, followed by blanks (possibly none), a
label name and one more character that is no identifier character,
`labelOfGoto` returns that label name; and it aborts with "gotoOp: ..." when the
token at the offset is not `goto`. -/
theorem ident_returns_leading_run (b : List Char) (msg : String) :
    (TrimLeft b space = [] → ident b msg = .error (msg ++ "\n")) ∧
    (∀ c rest, TrimLeft b space = c :: rest → isCSymbolNextChar c = false →
      ident b msg = .error (msg ++ "\n")) ∧
    ((∀ c ∈ TrimLeft b space, isCSymbolNextChar c = true) →
      ident b msg = .error (msg ++ "\n")) ∧
    (∀ name c rest, TrimLeft b space = name ++ c :: rest → name ≠ [] →
      (∀ x ∈ name, isCSymbolNextChar x = true) → isCSymbolNextChar c = false →
      ident b msg = .ok (String.mk name)) ∧
    (∀ pre ws name c rest, b = pre ++ ("goto".toList ++ (ws ++ (name ++ c :: rest))) →
      (∀ x ∈ ws, space.toList.contains x = true) → name ≠ [] →
      (∀ x ∈ name, isCSymbolNextChar x = true) → isCSymbolNextChar c = false →
      labelOfGoto b pre.length 4 = .ok (String.mk name)) ∧
    (∀ off n, off + n ≤ b.length → String.mk ((b.drop off).take n) ≠ "goto" →
      labelOfGoto b off n =
        .error ("gotoOp: " ++ String.mk ((b.drop off).take n) ++ "\n")) := by
  refine ⟨?_, ?_, ?_, ?_, ?_, ?_⟩
  · intro h
    exact ident_no_terminator b msg (by rw [h]; simp)
  · intro c rest ht hc
    have hidx : IndexFunc (TrimLeft b space) (fun r => !isCSymbolNextChar r) = 0 := by
      rw [ht]
      simp [IndexFunc, IndexFuncLoop, hc]
    simp [ident, hidx]
  · exact ident_no_terminator b msg
  · exact ident_run b msg
  · intro pre ws name c rest hb hws hne hname hc
    obtain ⟨n0, name1, rfl⟩ := List.exists_cons_of_ne_nil hne
    have hn0 : space.toList.contains n0 = false :=
      isCSymbolNextChar_not_space n0 (hname n0 (by simp))
    have hg : "goto".toList = ['g', 'o', 't', 'o'] := rfl
    have hlen : ¬ (pre.length + 4 > b.length) := by
      rw [hb, hg]
      simp only [List.length_append, List.length_cons]
      omega
    have hop : String.mk ((b.drop pre.length).take 4) = "goto" := by
      rw [hb, List.drop_left, hg]
      rfl
    have hrest : b.drop (pre.length + 4) = ws ++ ((n0 :: name1) ++ c :: rest) := by
      rw [hb, ← List.append_assoc]
      exact List.drop_left' (by rw [hg]; simp)
    have htrim : TrimLeft (b.drop (pre.length + 4)) space = (n0 :: name1) ++ c :: rest := by
      rw [hrest]
      exact TrimLeft_blanks ws n0 (name1 ++ c :: rest) hws hn0
    simp only [labelOfGoto, hlen, if_false, hop, ne_eq, not_true_eq_false]
    exact ident_run _ _ (n0 :: name1) c rest htrim hne hname hc
  · intro off n hle hop
    have hlen : ¬ (off + n > b.length) := by omega
    simp only [labelOfGoto, hlen, if_false, ne_eq, hop, not_false_eq_true, if_true]

/-- Witness of C18 (amended): `goto`, two blanks, the label `done_1`, a blank
and `;` at offset 3 of the source; and a token that is not `goto`. -/
theorem ident_returns_leading_run_witness :
    labelOfGoto "x: goto  done_1 ;".toList 3 4 = .ok "done_1" ∧
    labelOfGoto "gotx L;".toList 0 4 = .error "gotoOp: gotx\n" ∧
    ident "  L;".toList "label not found" = .ok "L" :=
  ⟨(ident_returns_leading_run "x: goto  done_1 ;".toList "").2.2.2.2.1
      "x: ".toList "  ".toList "done_1".toList ' ' ";".toList rfl (by decide) (by decide)
      (by decide) (by decide),
    (ident_returns_leading_run "gotx L;".toList "").2.2.2.2.2 0 4 (by decide) (by decide),
    (ident_returns_leading_run "  L;".toList "label not found").2.2.2.1
      "L".toList ';' [] rfl (by decide) (by decide) (by decide)⟩

/-- Counterexample to C18 as stated: the text ` L` begins, after its leading
blank, with the identifier character `L`, yet `ident` aborts on it, because the
identifier runs to the end of the text; likewise `labelOfGoto` aborts on a
source that ends with `goto L`, while it returns `L` on `goto L;`. -/
theorem ident_aborts_at_end_of_text :
    TrimLeft " L".toList space = ['L'] ∧
    isCSymbolNextChar 'L' = true ∧
    ident " L".toList "label not found" = .error "label not found\n" ∧
    labelOfGoto "goto L".toList 0 4 = .error "label not found\n" ∧
    labelOfGoto "goto L;".toList 0 4 = .ok "L" :=
  ⟨rfl, rfl, rfl, rfl, rfl⟩

/-! ### Declaring variables through the builder -/

/-- Looking up another name in a scope extended at the end is looking it up
in the scope. -/
theorem Scope.Lookup_append_other (s : Scope) (obj : Object) (name : String)
    (h : obj.Name ≠ name) : Scope.Lookup (s ++ [obj]) name = s.Lookup name := by
  unfold Scope.Lookup
  rw [List.find?_append]
  cases s.find? (fun o => o.Name == name) with
  | some o => rfl
  | none => simp [h]

/-- A synthesized storage name is never the source name itself. -/
theorem cgo_name_ne (name : String) (k : Nat) : name ++ "_cgo" ++ Itoa k ≠ name := by
  intro h
  have hl := congrArg String.length h
  simp only [String.length_append] at hl
  have h4 : "_cgo".length = 4 := by decide
  omega

/-- What `VarDefs.New` returns when it returns: the declaration of the given
type and name, recorded at the end of the group. -/
theorem VarDefs.New_ok (p : VarDefs) (scopes : Nat → Scope) (pkgScope : Nat) (typ : GoType)
    (name : String) (ret : VarDecl) (vd : VarDefs) (sc : Nat → Scope)
    (h : p.New scopes pkgScope typ name = .ok (ret, vd, sc)) :
    ret = ⟨typ, name⟩ ∧ vd = { p with vars := p.vars ++ [⟨typ, name⟩] } := by
  unfold VarDefs.New at h
  split at h
  · simp only [Except.ok.injEq, Prod.mk.injEq] at h
    exact ⟨h.1.symm, h.2.1.symm⟩
  · split_ifs at h
    simp only [Except.ok.injEq, Prod.mk.injEq] at h
    exact ⟨h.1.symm, h.2.1.symm⟩

/-- On a name that the scope of the group does not hold, `VarDefs.New`
returns and binds the name in that scope. -/
theorem VarDefs.New_fresh (p : VarDefs) (scopes : Nat → Scope) (pkgScope : Nat) (typ : GoType)
    (name : String) (h : (scopes p.scope).Lookup name = none) :
    p.New scopes pkgScope typ name =
      .ok (⟨typ, name⟩, { p with vars := p.vars ++ [⟨typ, name⟩] },
        Function.update scopes p.scope (scopes p.scope ++ [.Var name typ])) := by
  have hl : (scopes p.scope).Lookup (Object.Var name typ).Name = none := h
  simp [VarDefs.New, Scope.Insert, hl]

/-- What `newAutoVar` returns when it returns: the declaration under the next
synthesized name, and the function context with `basev` advanced by one. -/
theorem newAutoVar_ok (p : funcCtx) (defs : Nat → VarDefs) (scopes : Nat → Scope)
    (pkgScope : Nat) (typ : GoType) (name : String) (ret : VarDecl) (obj : Object)
    (p1 : funcCtx) (defs1 : Nat → VarDefs) (scopes1 : Nat → Scope)
    (h : p.newAutoVar defs scopes pkgScope typ name = .ok ((ret, obj), p1, defs1, scopes1)) :
    ret = ⟨typ, name ++ "_cgo" ++ Itoa (p.basev + 1)⟩ ∧
    obj = .Var (name ++ "_cgo" ++ Itoa (p.basev + 1)) typ ∧
    p1 = { p with basev := p.basev + 1 } := by
  unfold funcCtx.newAutoVar at h
  cases hd : p.vdefs with
  | none => simp [hd] at h
  | some d =>
    simp only [hd] at h
    cases hn : (defs d).New scopes pkgScope typ (name ++ "_cgo" ++ Itoa (p.basev + 1)) with
    | error e => simp [hn] at h
    | ok r =>
      obtain ⟨ret0, vd, sc⟩ := r
      simp only [hn, Except.ok.injEq, Prod.mk.injEq] at h
      obtain ⟨⟨h1, h2⟩, h3, _, _⟩ := h
      obtain ⟨hr, _⟩ := VarDefs.New_ok _ _ _ _ _ _ _ _ hn
      subst h1
      subst hr
      refine ⟨rfl, h2.symm, ?_⟩
      rw [← h3]

/-- Whenever successive calls of `newAutoVar` all return, the counter has
advanced by one per call, the `i`-th name is the `i`-th source name with
`_cgo` and the counter value of that call, and the names are pairwise
different. -/
theorem newAutoVars_names (pkgScope : Nat) : ∀ (vars : List (GoType × String)) (p : funcCtx)
    (defs : Nat → VarDefs) (scopes : Nat → Scope) (names : List String) (p1 : funcCtx)
    (defs1 : Nat → VarDefs) (scopes1 : Nat → Scope),
    newAutoVars pkgScope vars p defs scopes = .ok (names, p1, defs1, scopes1) →
    p1.basev = p.basev + vars.length ∧
      (∀ i, names[i]? = (vars[i]?).map (fun v => v.2 ++ "_cgo" ++ Itoa (p.basev + (i + 1)))) ∧
      (∀ name ∈ names, ∃ src k, name = src ++ "_cgo" ++ Itoa k ∧ p.basev < k) ∧
      names.Nodup
  | [], p, defs, scopes, names, p1, defs1, scopes1, h => by
    simp only [newAutoVars, Except.ok.injEq, Prod.mk.injEq] at h
    obtain ⟨rfl, rfl, _, _⟩ := h
    exact ⟨rfl, by simp, by simp, List.nodup_nil⟩
  | (typ, name) :: vars, p, defs, scopes, names, p1, defs1, scopes1, h => by
    unfold newAutoVars at h
    cases ha : p.newAutoVar defs scopes pkgScope typ name with
    | error e => simp [ha] at h
    | ok r =>
      obtain ⟨⟨ret, obj⟩, q, dq, sq⟩ := r
      obtain ⟨hret, _, hq⟩ := newAutoVar_ok _ _ _ _ _ _ _ _ _ _ _ ha
      simp only [ha] at h
      cases hr : newAutoVars pkgScope vars q dq sq with
      | error e => simp [hr] at h
      | ok r2 =>
        obtain ⟨names2, p2, d2, s2⟩ := r2
        simp only [hr, Except.ok.injEq, Prod.mk.injEq] at h
        obtain ⟨rfl, rfl, _, _⟩ := h
        obtain ⟨hb, hi, hn, hnd⟩ := newAutoVars_names pkgScope vars q dq sq names2 _ d2 s2 hr
        subst hq
        subst hret
        refine ⟨?_, ?_, ?_, ?_⟩
        · rw [hb]; simp only [List.length_cons]; omega
        · intro i
          cases i with
          | zero => simp
          | succ i =>
            simp only [List.getElem?_cons_succ, hi i]
            cases vars[i]? with
            | none => rfl
            | some v => simp only [Option.map_some']; congr 3; omega
        · intro x hx
          rcases List.mem_cons.mp hx with rfl | hx
          · exact ⟨name, p.basev + 1, rfl, by omega⟩
          · obtain ⟨src, k, hk, hlt⟩ := hn x hx
            exact ⟨src, k, hk, by simp only at hlt; omega⟩
        · refine List.nodup_cons.mpr ⟨?_, hnd⟩
          intro hmem
          obtain ⟨src, k, hk, hlt⟩ := hn _ hmem
          have := cgo_name_number _ _ _ _ hk
          simp only at hlt
          omega

/-- Successive calls of `newAutoVar` all return when the function context has
its hoisted-variable group and the scope of that group holds no name of the
form `src_cgo<k>` with `k` above the counter. -/
theorem newAutoVars_returns (pkgScope : Nat) : ∀ (vars : List (GoType × String)) (p : funcCtx)
    (defs : Nat → VarDefs) (scopes : Nat → Scope) (d : Nat), p.vdefs = some d →
    (∀ src k, p.basev < k → (scopes (defs d).scope).Lookup (src ++ "_cgo" ++ Itoa k) = none) →
    ∃ names p1 defs1 scopes1,
      newAutoVars pkgScope vars p defs scopes = .ok (names, p1, defs1, scopes1)
  | [], p, defs, scopes, _, _, _ => ⟨[], p, defs, scopes, rfl⟩
  | (typ, name) :: vars, p, defs, scopes, d, h, hfree => by
    have hnew := VarDefs.New_fresh (defs d) scopes pkgScope typ
      (name ++ "_cgo" ++ Itoa (p.basev + 1)) (hfree name (p.basev + 1) (by omega))
    have ha : p.newAutoVar defs scopes pkgScope typ name =
        .ok ((⟨typ, name ++ "_cgo" ++ Itoa (p.basev + 1)⟩,
            .Var (name ++ "_cgo" ++ Itoa (p.basev + 1)) typ),
          { p with basev := p.basev + 1 },
          Function.update defs d { defs d with vars := (defs d).vars ++
            [⟨typ, name ++ "_cgo" ++ Itoa (p.basev + 1)⟩] },
          Function.update scopes (defs d).scope (scopes (defs d).scope ++
            [.Var (name ++ "_cgo" ++ Itoa (p.basev + 1)) typ])) := by
      simp only [funcCtx.newAutoVar, h, hnew]
      rfl
    obtain ⟨names, p2, defs2, scopes2, hr⟩ := newAutoVars_returns pkgScope vars
      { p with basev := p.basev + 1 }
      (Function.update defs d { defs d with vars := (defs d).vars ++
        [⟨typ, name ++ "_cgo" ++ Itoa (p.basev + 1)⟩] })
      (Function.update scopes (defs d).scope (scopes (defs d).scope ++
        [.Var (name ++ "_cgo" ++ Itoa (p.basev + 1)) typ])) d h (by
        intro src k hk
        have hk1 : p.basev + 1 < k := hk
        show Scope.Lookup (Function.update scopes (defs d).scope (scopes (defs d).scope ++
          [.Var (name ++ "_cgo" ++ Itoa (p.basev + 1)) typ])
          (Function.update defs d { defs d with vars := (defs d).vars ++
            [⟨typ, name ++ "_cgo" ++ Itoa (p.basev + 1)⟩] } d).scope) _ = none
        rw [Function.update_same, Function.update_same, Scope.Lookup_append_other]
        · exact hfree src k (by omega)
        · intro he
          have := cgo_name_number _ _ _ _ he
          omega)
    exact ⟨(name ++ "_cgo" ++ Itoa (p.basev + 1)) :: names, p2, defs2, scopes2,
      by simp only [newAutoVars, ha, hr]⟩


/-- C8: the calls of `newAutoVar` made on one function context (one that has
its hoisted-variable group) synthesize pairwise different storage names,
whatever the source names are: the call number `i + 1` after a counter value
`basev` returns `name ++ "_cgo" ++ Itoa (basev + i + 1)`, so the `n`-th call on
a fresh context returns `name_cgo<n>`; and two names `s1_cgo<a>`, `s2_cgo<b>`
are equal only if `a = b`, for arbitrary `s1` and `s2`.  The calls all return
when the scope of the group holds no name `src_cgo<k>` with `k` above the
counter (the builder refuses a name its scope already holds); and whenever
they all return, with or without that condition, the names are as stated and
pairwise different. -/
theorem newAutoVar_names_distinct (pkgScope : Nat) (vars : List (GoType × String))
    (p : funcCtx) (defs : Nat → VarDefs) (scopes : Nat → Scope) (d : Nat)
    (h : p.vdefs = some d) :
    ((∀ src k, p.basev < k →
        (scopes (defs d).scope).Lookup (src ++ "_cgo" ++ Itoa k) = none) →
      ∃ names p1 defs1 scopes1,
        newAutoVars pkgScope vars p defs scopes = .ok (names, p1, defs1, scopes1) ∧
        p1.basev = p.basev + vars.length ∧
        (∀ i, names[i]? =
          (vars[i]?).map (fun v => v.2 ++ "_cgo" ++ Itoa (p.basev + (i + 1)))) ∧
        names.Nodup) ∧
    (∀ names p1 defs1 scopes1,
      newAutoVars pkgScope vars p defs scopes = .ok (names, p1, defs1, scopes1) →
      p1.basev = p.basev + vars.length ∧
      (∀ i, names[i]? =
        (vars[i]?).map (fun v => v.2 ++ "_cgo" ++ Itoa (p.basev + (i + 1)))) ∧
      names.Nodup) ∧
    (∀ (s1 s2 : String) (a b : Nat), a ≠ b →
      s1 ++ "_cgo" ++ Itoa a ≠ s2 ++ "_cgo" ++ Itoa b) := by
  refine ⟨?_, ?_, fun s1 s2 a b hab he => hab (cgo_name_number s1 s2 a b he)⟩
  · intro hfree
    obtain ⟨names, p1, defs1, scopes1, h1⟩ :=
      newAutoVars_returns pkgScope vars p defs scopes d h hfree
    obtain ⟨h2, h3, _, h5⟩ := newAutoVars_names pkgScope vars p defs scopes _ _ _ _ h1
    exact ⟨names, p1, defs1, scopes1, h1, h2, h3, h5⟩
  · intro names p1 defs1 scopes1 h1
    obtain ⟨h2, h3, _, h5⟩ := newAutoVars_names pkgScope vars p defs scopes _ _ _ _ h1
    exact ⟨h2, h3, h5⟩

/-- Witness of C8: three hoisted variables `x`, `x` and `x_cgo1` in a fresh
function context get the names `x_cgo1`, `x_cgo2` and `x_cgo1_cgo3`. -/
theorem newAutoVar_names_distinct_witness :
    (newFuncCtx blockCtx.start 1 true).1.vdefs = some 1 ∧
    (∃ names p1 defs1 scopes1,
      newAutoVars 0 [(.Other "int", "x"), (.Other "int", "x"), (.Other "int", "x_cgo1")]
        (newFuncCtx blockCtx.start 1 true).1 (newFuncCtx blockCtx.start 1 true).2.defs
        (newFuncCtx blockCtx.start 1 true).2.scopes = .ok (names, p1, defs1, scopes1) ∧
      names = ["x_cgo1", "x_cgo2", "x_cgo1_cgo3"] ∧ names.Nodup) := by
  refine ⟨rfl, ?_⟩
  obtain ⟨names, p1, defs1, scopes1, h1, _, h3, h4⟩ :=
    (newAutoVar_names_distinct 0
      [(.Other "int", "x"), (.Other "int", "x"), (.Other "int", "x_cgo1")]
      (newFuncCtx blockCtx.start 1 true).1 (newFuncCtx blockCtx.start 1 true).2.defs
      (newFuncCtx blockCtx.start 1 true).2.scopes 1 rfl).1 (fun _ _ _ => rfl)
  refine ⟨names, p1, defs1, scopes1, h1, ?_, h4⟩
  apply List.ext_getElem?
  intro i
  rw [h3 i]
  match i with
  | 0 => decide
  | 1 => decide
  | 2 => decide
  | _ + 3 => rfl


/-- A name found in a scope is found, bound to the same object, in the scope
extended at the end. -/
theorem Scope.Lookup_append_of_some (s : Scope) (obj o : Object) (name : String)
    (h : s.Lookup name = some o) : Scope.Lookup (s ++ [obj]) name = some o := by
  unfold Scope.Lookup at h ⊢
  rw [List.find?_append, h]
  rfl

/-- The call `newAutoVar` returns when the function context has its
hoisted-variable group and the builder accepts the synthesized name: the
scope of the group does not hold it, or that scope is the package scope and
holds it as a variable of the identical type.  The storage is then recorded in
the group and bound in its scope; no binding of another name changes. -/
theorem newAutoVar_accepts (fn : funcCtx) (defs : Nat → VarDefs) (scopes : Nat → Scope)
    (pkgScope : Nat) (typ : GoType) (name : String) (d : Nat) (hd : fn.vdefs = some d)
    (hacc : (scopes (defs d).scope).Lookup (name ++ "_cgo" ++ Itoa (fn.basev + 1)) = none ∨
      ((defs d).scope = pkgScope ∧
        (scopes (defs d).scope).Lookup (name ++ "_cgo" ++ Itoa (fn.basev + 1)) =
          some (.Var (name ++ "_cgo" ++ Itoa (fn.basev + 1)) typ))) :
    ∃ scopes1, fn.newAutoVar defs scopes pkgScope typ name =
        .ok ((⟨typ, name ++ "_cgo" ++ Itoa (fn.basev + 1)⟩,
            .Var (name ++ "_cgo" ++ Itoa (fn.basev + 1)) typ),
          { fn with basev := fn.basev + 1 },
          Function.update defs d { defs d with vars := (defs d).vars ++
            [⟨typ, name ++ "_cgo" ++ Itoa (fn.basev + 1)⟩] },
          scopes1) ∧
      (scopes1 (defs d).scope).Lookup (name ++ "_cgo" ++ Itoa (fn.basev + 1)) =
        some (.Var (name ++ "_cgo" ++ Itoa (fn.basev + 1)) typ) ∧
      (∀ s nm, nm ≠ name ++ "_cgo" ++ Itoa (fn.basev + 1) →
        (scopes1 s).Lookup nm = (scopes s).Lookup nm) ∧
      (∀ s, s ≠ (defs d).scope → scopes1 s = scopes s) := by
  rcases hacc with hfree | ⟨hpkg, hold⟩
  · refine ⟨Function.update scopes (defs d).scope (scopes (defs d).scope ++
      [.Var (name ++ "_cgo" ++ Itoa (fn.basev + 1)) typ]), ?_, ?_, ?_, ?_⟩
    · have hnew := VarDefs.New_fresh (defs d) scopes pkgScope typ _ hfree
      simp only [funcCtx.newAutoVar, hd, hnew]
      rfl
    · rw [Function.update_same]
      exact Scope.Lookup_append_new _ (.Var (name ++ "_cgo" ++ Itoa (fn.basev + 1)) typ) hfree
    · intro s nm hnm
      by_cases hs : s = (defs d).scope
      · subst hs
        rw [Function.update_same]
        exact Scope.Lookup_append_other _ _ _ (fun he => hnm he.symm)
      · rw [Function.update_noteq hs]
    · intro s hs
      rw [Function.update_noteq hs]
  · refine ⟨scopes, ?_, hold, fun _ _ _ => rfl, fun _ _ => rfl⟩
    have hl : (scopes (defs d).scope).Lookup
        (Object.Var (name ++ "_cgo" ++ Itoa (fn.basev + 1)) typ).Name =
        some (.Var (name ++ "_cgo" ++ Itoa (fn.basev + 1)) typ) := hold
    have hnew : (defs d).New scopes pkgScope typ (name ++ "_cgo" ++ Itoa (fn.basev + 1)) =
        .ok (⟨typ, name ++ "_cgo" ++ Itoa (fn.basev + 1)⟩,
          { defs d with vars := (defs d).vars ++
            [⟨typ, name ++ "_cgo" ++ Itoa (fn.basev + 1)⟩] }, scopes) := by
      simp only [VarDefs.New, Scope.Insert, hl]
      rw [if_pos ⟨hpkg, trivial⟩]
    simp only [funcCtx.newAutoVar, hd, hnew]
    rfl

/-- The call `newAutoVar` aborts with "<name> redeclared in this block" when the
scope of the hoisted-variable group already holds the synthesized name and
the builder does not accept the redeclaration. -/
theorem newAutoVar_redeclared (fn : funcCtx) (defs : Nat → VarDefs) (scopes : Nat → Scope)
    (pkgScope : Nat) (typ : GoType) (name : String) (d : Nat) (old : Object)
    (hd : fn.vdefs = some d)
    (hold : (scopes (defs d).scope).Lookup (name ++ "_cgo" ++ Itoa (fn.basev + 1)) = some old)
    (hrej : ¬ ((defs d).scope = pkgScope ∧
      old = .Var (name ++ "_cgo" ++ Itoa (fn.basev + 1)) typ)) :
    fn.newAutoVar defs scopes pkgScope typ name =
      .error (name ++ "_cgo" ++ Itoa (fn.basev + 1) ++ " redeclared in this block") := by
  have hl : (scopes (defs d).scope).Lookup
      (Object.Var (name ++ "_cgo" ++ Itoa (fn.basev + 1)) typ).Name = some old := hold
  simp only [funcCtx.newAutoVar, hd, VarDefs.New, Scope.Insert, hl, if_neg hrej]


/-- C10 (amended): when `newVar` is called inside a virtual block, it first
hoists the storage through `newAutoVar`.  That call aborts with a nil
dereference when there is no function context or the function context has no
hoisted-variable group, and with "<name>_cgo<n> redeclared in this block" when
the scope of the group already holds the synthesized name and the builder does
not accept the redeclaration.  When the builder accepts the synthesized name
(the scope of the group does not hold it, or that scope is the package scope
and holds it as a variable of the identical type): if the source name is
already bound in the given scope (to a substitution alias or to any other
object) `newVar` aborts with "newVar: variable ... exists already"; if the
source name is not bound in that scope it returns `inVBlock = true` and the
declaration of the storage under the name `name_cgo<basev+1>`, which is
recorded in the hoisted-variable group and bound in the scope of the group,
binds the source name in the given scope to a substitution alias of that
storage, advances `basev` by one and leaves `gblvars`, the code builder and
every binding of another name as they were. -/
theorem newVar_in_vblock (p : blockCtx) (scope : Nat) (typ : GoType) (name : String)
    (hv : p.cb.InVBlock = true) :
    ((p.curfn = none ∨ ∃ fn, p.curfn = some fn ∧ fn.vdefs = none) →
      p.newVar scope typ name = .error nilDeref) ∧
    (∀ fn d old, p.curfn = some fn → fn.vdefs = some d →
      (p.scopes (p.defs d).scope).Lookup (name ++ "_cgo" ++ Itoa (fn.basev + 1)) = some old →
      ¬ ((p.defs d).scope = p.pkgScope ∧
        old = .Var (name ++ "_cgo" ++ Itoa (fn.basev + 1)) typ) →
      p.newVar scope typ name =
        .error (name ++ "_cgo" ++ Itoa (fn.basev + 1) ++ " redeclared in this block")) ∧
    (∀ fn d, p.curfn = some fn → fn.vdefs = some d →
      ((p.scopes (p.defs d).scope).Lookup (name ++ "_cgo" ++ Itoa (fn.basev + 1)) = none ∨
        ((p.defs d).scope = p.pkgScope ∧
          (p.scopes (p.defs d).scope).Lookup (name ++ "_cgo" ++ Itoa (fn.basev + 1)) =
            some (.Var (name ++ "_cgo" ++ Itoa (fn.basev + 1)) typ))) →
      (∀ alt, (p.scopes scope).Lookup name = some alt →
        p.newVar scope typ name =
          .error ("newVar: variable " ++ name ++ " exists already\n")) ∧
      ((p.scopes scope).Lookup name = none →
        ∃ p1, p.newVar scope typ name =
            .ok ((⟨typ, name ++ "_cgo" ++ Itoa (fn.basev + 1)⟩, true), p1) ∧
          (p1.scopes scope).Lookup name =
            some (.SubstVar name (.Var (name ++ "_cgo" ++ Itoa (fn.basev + 1)) typ)) ∧
          (p1.scopes (p.defs d).scope).Lookup (name ++ "_cgo" ++ Itoa (fn.basev + 1)) =
            some (.Var (name ++ "_cgo" ++ Itoa (fn.basev + 1)) typ) ∧
          (∀ s nm, nm ≠ name → nm ≠ name ++ "_cgo" ++ Itoa (fn.basev + 1) →
            (p1.scopes s).Lookup nm = (p.scopes s).Lookup nm) ∧
          (∀ s, s ≠ scope → s ≠ (p.defs d).scope → p1.scopes s = p.scopes s) ∧
          (p1.defs d).vars =
            (p.defs d).vars ++ [⟨typ, name ++ "_cgo" ++ Itoa (fn.basev + 1)⟩] ∧
          (∀ d0, d0 ≠ d → p1.defs d0 = p.defs d0) ∧
          p1.curfn = some { fn with basev := fn.basev + 1 } ∧
          p1.gblvars = p.gblvars ∧
          p1.cb = p.cb)) := by
  refine ⟨?_, ?_, ?_⟩
  · rintro (hnone | ⟨fn, hfn, hd⟩)
    · simp [blockCtx.newVar, hv, hnone]
    · simp [blockCtx.newVar, hv, hfn, funcCtx.newAutoVar, hd]
  · intro fn d old hfn hd hold hrej
    have hnav := newAutoVar_redeclared fn p.defs p.scopes p.pkgScope typ name d old hd hold hrej
    simp [blockCtx.newVar, hv, hfn, hnav]
  · intro fn d hfn hd hacc
    obtain ⟨scopes1, hnav, h2, h3, h4⟩ :=
      newAutoVar_accepts fn p.defs p.scopes p.pkgScope typ name d hd hacc
    have hne : name ≠ name ++ "_cgo" ++ Itoa (fn.basev + 1) :=
      fun he => cgo_name_ne name (fn.basev + 1) he.symm
    constructor
    · intro alt halt
      have hl : (scopes1 scope).Lookup (Object.SubstVar name
          (Object.Var (name ++ "_cgo" ++ Itoa (fn.basev + 1)) typ)).Name = some alt := by
        show (scopes1 scope).Lookup name = some alt
        rw [h3 scope name hne]
        exact halt
      simp [blockCtx.newVar, hv, hfn, hnav, Scope.Insert, hl]
    · intro hnone
      have hl1 : (scopes1 scope).Lookup name = none := by
        rw [h3 scope name hne]
        exact hnone
      have hl : (scopes1 scope).Lookup (Object.SubstVar name
          (Object.Var (name ++ "_cgo" ++ Itoa (fn.basev + 1)) typ)).Name = none := hl1
      refine ⟨{ p with
          curfn := some { fn with basev := fn.basev + 1 },
          defs := Function.update p.defs d { p.defs d with vars := (p.defs d).vars ++
            [⟨typ, name ++ "_cgo" ++ Itoa (fn.basev + 1)⟩] },
          scopes := Function.update scopes1 scope (scopes1 scope ++
            [.SubstVar name (.Var (name ++ "_cgo" ++ Itoa (fn.basev + 1)) typ)]) },
        ?_, ?_, ?_, ?_, ?_, ?_, ?_, rfl, rfl, rfl⟩
      · simp [blockCtx.newVar, hv, hfn, hnav, Scope.Insert, hl]
      · show Scope.Lookup (Function.update scopes1 scope (scopes1 scope ++
          [.SubstVar name (.Var (name ++ "_cgo" ++ Itoa (fn.basev + 1)) typ)]) scope) name = _
        rw [Function.update_same]
        exact Scope.Lookup_append_new _ (.SubstVar name _) hl1
      · show Scope.Lookup (Function.update scopes1 scope (scopes1 scope ++
          [.SubstVar name (.Var (name ++ "_cgo" ++ Itoa (fn.basev + 1)) typ)])
          (p.defs d).scope) _ = _
        by_cases hs : (p.defs d).scope = scope
        · rw [hs, Function.update_same]
          rw [hs] at h2
          exact Scope.Lookup_append_of_some _ _ _ _ h2
        · rw [Function.update_noteq hs]
          exact h2
      · intro s nm hnm hnr
        show Scope.Lookup (Function.update scopes1 scope (scopes1 scope ++
          [.SubstVar name (.Var (name ++ "_cgo" ++ Itoa (fn.basev + 1)) typ)]) s) nm = _
        by_cases hs : s = scope
        · rw [hs, Function.update_same,
            Scope.Lookup_append_other _ (.SubstVar name _) nm (fun he => hnm he.symm)]
          exact h3 scope nm hnr
        · rw [Function.update_noteq hs]
          exact h3 s nm hnr
      · intro s hs hg
        show Function.update scopes1 scope _ s = _
        rw [Function.update_noteq hs]
        exact h4 s hg
      · show (Function.update p.defs d _ d).vars = _
        rw [Function.update_same]
      · intro d0 hd0
        show Function.update p.defs d _ d0 = _
        rw [Function.update_noteq hd0]

/-- Counterexample to C10 as stated: inside the virtual block opened by
`enterIf`, with `x` bound in no scope, `newVar` aborts with a nil dereference
when the function context was made without a hoisted-variable group
(`newFuncCtx` with `complicated = false`), and aborts with
"x_cgo1 redeclared in this block" when the scope of the group already holds a
variable `x_cgo1`. -/
theorem newVar_in_vblock_unbound_aborts :
    ({ blockCtx.start.enterIf.2 with
        curfn := some (newFuncCtx blockCtx.start 1 false).1 } : blockCtx).cb.InVBlock = true ∧
    (({ blockCtx.start.enterIf.2 with
        curfn := some (newFuncCtx blockCtx.start 1 false).1 } : blockCtx).scopes 2).Lookup "x" =
      none ∧
    blockCtx.newVar { blockCtx.start.enterIf.2 with
        curfn := some (newFuncCtx blockCtx.start 1 false).1 } 2 (.Other "int") "x" =
      .error nilDeref ∧
    ({ blockCtx.start.enterIf.2 with
        scopes := fun s => if s = 1 then [.Var "x_cgo1" (.Other "int")] else [] }
      : blockCtx).cb.InVBlock = true ∧
    (({ blockCtx.start.enterIf.2 with
        scopes := fun s => if s = 1 then [.Var "x_cgo1" (.Other "int")] else [] }
      : blockCtx).scopes 2).Lookup "x" = none ∧
    blockCtx.newVar { blockCtx.start.enterIf.2 with
        scopes := fun s => if s = 1 then [.Var "x_cgo1" (.Other "int")] else [] }
        2 (.Other "int") "x" =
      .error "x_cgo1 redeclared in this block" := by
  exact ⟨rfl, rfl, rfl, rfl, rfl, rfl⟩

/-- Witness of C10 (amended): inside the virtual block opened by `enterIf` in a
fresh complicated function, declaring `x` in an empty scope hoists it as
`x_cgo1` and binds `x` to the alias; declaring `x` in a scope that already
binds `x` to an alias aborts. -/
theorem newVar_in_vblock_witness :
    blockCtx.start.enterIf.2.cb.InVBlock = true ∧
    (∃ p1, blockCtx.start.enterIf.2.newVar 2 (.Other "int") "x" =
        .ok ((⟨.Other "int", "x_cgo1"⟩, true), p1) ∧
      (p1.scopes 2).Lookup "x" = some (.SubstVar "x" (.Var "x_cgo1" (.Other "int"))) ∧
      (p1.scopes 1).Lookup "x_cgo1" = some (.Var "x_cgo1" (.Other "int")) ∧
      p1.gblvars = blockCtx.start.enterIf.2.gblvars) ∧
    blockCtx.newVar { blockCtx.start.enterIf.2 with
        scopes := fun s => if s = 2 then [.SubstVar "x" (.Var "x_cgo7" (.Other "int"))] else [] }
        2 (.Other "int") "x" =
      .error "newVar: variable x exists already\n" := by
  refine ⟨rfl, ?_, ?_⟩
  · obtain ⟨p1, h1, h2, h3, _, _, _, _, _, h9, _⟩ :=
      ((newVar_in_vblock blockCtx.start.enterIf.2 2 (.Other "int") "x" rfl).2.2
        ⟨[], some 0, 0, 0⟩ 0 rfl rfl (Or.inl rfl)).2 rfl
    exact ⟨p1, h1, h2, h3, h9⟩
  · exact ((newVar_in_vblock { blockCtx.start.enterIf.2 with
        scopes := fun s => if s = 2 then [.SubstVar "x" (.Var "x_cgo7" (.Other "int"))] else [] }
        2 (.Other "int") "x" rfl).2.2
      ⟨[], some 0, 0, 0⟩ 0 rfl rfl (Or.inl rfl)).1 (.SubstVar "x" (.Var "x_cgo7" (.Other "int")))
      rfl


/-- Outside a virtual block `newVar` returns exactly what the declaration
through a new group for the given scope returns: it aborts when that
declaration aborts, and otherwise returns the declaration with
`inVBlock = false` and the state in which the group is stored under the next
reference and `gblvars` is updated. -/
theorem newVar_direct (p : blockCtx) (scope : Nat) (typ : GoType) (name : String)
    (hv : p.cb.InVBlock = false) :
    p.newVar scope typ name =
      match (VarDefs.mk scope []).New p.scopes p.pkgScope typ name with
      | .error e => .error e
      | .ok (ret, vd, scopes1) =>
        .ok ((ret, false), { p with
          defs := Function.update
            (if scope = p.pkgScope then
              match p.gblvars name with
              | some d => Function.update p.defs d ((p.defs d).Delete name)
              | none => p.defs
            else p.defs) p.ndefs vd,
          ndefs := p.ndefs + 1, scopes := scopes1,
          gblvars :=
            if scope = p.pkgScope then Function.update p.gblvars name (some p.ndefs)
            else p.gblvars }) := by
  by_cases hg : scope = p.pkgScope
  · cases hgv : p.gblvars name with
    | none =>
      simp only [blockCtx.newVar, hv, hg, hgv]
      simp
    | some d =>
      simp only [blockCtx.newVar, hv, hg, hgv]
      simp
  · simp only [blockCtx.newVar, hv, hg]
    simp [hg]

/-- C11: outside a virtual block, whenever `newVar` returns it returns, with
`inVBlock = false`, the declaration made through a `VarDefs` group created by
this call, and leaves the function context (so `basev`) unchanged.  With the
package scope: afterwards `gblvars[name]` is that new group, every entry of
`gblvars` under another name is unchanged, and if `gblvars` held an earlier
(allocated) group for `name`, `name` has been deleted from that group.  With any
other scope `gblvars` is unchanged.  The call returns when the builder accepts
the declaration: the name is not bound in the given scope, or the scope is the
package scope and binds the name to a variable of the identical type; it
aborts with "<name> redeclared in this block" when the scope binds the name
otherwise. -/
theorem newVar_global_replaces (p : blockCtx) (scope : Nat) (typ : GoType) (name : String)
    (hv : p.cb.InVBlock = false) :
    (((p.scopes scope).Lookup name = none ∨
        (scope = p.pkgScope ∧ (p.scopes scope).Lookup name = some (.Var name typ))) →
      ∃ p1, p.newVar scope typ name = .ok ((⟨typ, name⟩, false), p1)) ∧
    (∀ old, (p.scopes scope).Lookup name = some old →
      ¬ (scope = p.pkgScope ∧ old = .Var name typ) →
      p.newVar scope typ name = .error (name ++ " redeclared in this block")) ∧
    (∀ r p1, p.newVar scope typ name = .ok (r, p1) →
      r = (⟨typ, name⟩, false) ∧
      p1.curfn = p.curfn ∧
      p1.ndefs = p.ndefs + 1 ∧
      p1.defs p.ndefs = ⟨scope, [⟨typ, name⟩]⟩ ∧
      (scope = p.pkgScope →
        p1.gblvars name = some p.ndefs ∧
        (∀ m, m ≠ name → p1.gblvars m = p.gblvars m) ∧
        (∀ d0, p.gblvars name = some d0 → d0 < p.ndefs →
          p1.defs d0 = (p.defs d0).Delete name ∧
          (∀ v ∈ (p1.defs d0).vars, v.name ≠ name) ∧
          (∀ v ∈ (p.defs d0).vars, v.name ≠ name → v ∈ (p1.defs d0).vars))) ∧
      (scope ≠ p.pkgScope → p1.gblvars = p.gblvars ∧
        ∀ d0, d0 < p.ndefs → p1.defs d0 = p.defs d0)) := by
  have hdir := newVar_direct p scope typ name hv
  refine ⟨?_, ?_, ?_⟩
  · intro hacc
    rcases hacc with hfree | ⟨hpkg, hold⟩
    · have hnew := VarDefs.New_fresh ⟨scope, []⟩ p.scopes p.pkgScope typ name hfree
      rw [hdir, hnew]
      exact ⟨_, rfl⟩
    · have hl : (p.scopes scope).Lookup (Object.Var name typ).Name =
          some (.Var name typ) := hold
      have hnew : (VarDefs.mk scope []).New p.scopes p.pkgScope typ name =
          .ok (⟨typ, name⟩, ⟨scope, [⟨typ, name⟩]⟩, p.scopes) := by
        simp only [VarDefs.New, Scope.Insert, hl]
        rw [if_pos ⟨hpkg, trivial⟩]
        rfl
      rw [hdir, hnew]
      exact ⟨_, rfl⟩
  · intro old hold hrej
    have hl : (p.scopes scope).Lookup (Object.Var name typ).Name = some old := hold
    have hnew : (VarDefs.mk scope []).New p.scopes p.pkgScope typ name =
        .error (name ++ " redeclared in this block") := by
      simp only [VarDefs.New, Scope.Insert, hl, if_neg hrej]
    rw [hdir, hnew]
  · intro r p1 hret
    rw [hdir] at hret
    cases hnew : (VarDefs.mk scope []).New p.scopes p.pkgScope typ name with
    | error e => simp [hnew] at hret
    | ok res =>
      obtain ⟨ret, vd, scopes1⟩ := res
      obtain ⟨hr, hvd⟩ := VarDefs.New_ok _ _ _ _ _ _ _ _ hnew
      simp only [hnew, Except.ok.injEq, Prod.mk.injEq] at hret
      obtain ⟨hr1, hp1⟩ := hret
      subst hr1
      subst hp1
      subst hr
      subst hvd
      refine ⟨rfl, rfl, rfl, ?_, ?_, ?_⟩
      · show Function.update _ p.ndefs _ p.ndefs = _
        rw [Function.update_same]
        rfl
      · intro hg
        refine ⟨?_, ?_, ?_⟩
        · show (if scope = p.pkgScope then Function.update p.gblvars name (some p.ndefs)
            else p.gblvars) name = _
          rw [if_pos hg, Function.update_same]
        · intro m hm
          show (if scope = p.pkgScope then Function.update p.gblvars name (some p.ndefs)
            else p.gblvars) m = _
          rw [if_pos hg, Function.update_noteq hm]
        · intro d0 hd0 hlt
          have hne : d0 ≠ p.ndefs := by omega
          have hdef : (Function.update
              (if scope = p.pkgScope then
                match p.gblvars name with
                | some d => Function.update p.defs d ((p.defs d).Delete name)
                | none => p.defs
              else p.defs) p.ndefs
              (⟨scope, [] ++ [⟨typ, name⟩]⟩ : VarDefs)) d0 = (p.defs d0).Delete name := by
            rw [Function.update_noteq hne, if_pos hg, hd0]
            simp only [Function.update_same]
          refine ⟨hdef, ?_, ?_⟩
          · intro v hv1
            have hv2 : v ∈ ((p.defs d0).Delete name).vars := by
              rw [← hdef]
              exact hv1
            simp only [VarDefs.Delete, List.mem_filter, bne_iff_ne, ne_eq] at hv2
            exact hv2.2
          · intro v hv1 hn
            have hv2 : v ∈ ((p.defs d0).Delete name).vars := by
              simp only [VarDefs.Delete, List.mem_filter, bne_iff_ne, ne_eq]
              exact ⟨hv1, hn⟩
            rw [← hdef] at hv2
            exact hv2
      · intro hg
        refine ⟨?_, ?_⟩
        · show (if scope = p.pkgScope then Function.update p.gblvars name (some p.ndefs)
            else p.gblvars) = _
          rw [if_neg hg]
        · intro d0 hlt
          have hne : d0 ≠ p.ndefs := by omega
          show Function.update _ p.ndefs _ d0 = _
          rw [Function.update_noteq hne, if_neg hg]

/-- Witness of C11: a second global declaration of `x`, of the same type,
replaces the first: `gblvars["x"]` moves from group 0 to the new group 1, and
`x` is deleted from group 0. -/
theorem newVar_global_replaces_witness :
    ({ blockCtx.start with
        curfn := none, gblvars := fun m => if m = "x" then some 0 else none,
        scopes := fun s => if s = 0 then [.Var "x" (.Other "int")] else [],
        defs := fun _ => ⟨0, [⟨.Other "int", "x"⟩]⟩ } : blockCtx).cb.InVBlock = false ∧
    ∃ p1, blockCtx.newVar { blockCtx.start with
          curfn := none, gblvars := fun m => if m = "x" then some 0 else none,
          scopes := fun s => if s = 0 then [.Var "x" (.Other "int")] else [],
          defs := fun _ => ⟨0, [⟨.Other "int", "x"⟩]⟩ } 0 (.Other "int") "x" =
        .ok ((⟨.Other "int", "x"⟩, false), p1) ∧
      p1.gblvars "x" = some 1 ∧
      p1.defs 1 = ⟨0, [⟨.Other "int", "x"⟩]⟩ ∧
      p1.defs 0 = ⟨0, []⟩ := by
  refine ⟨rfl, ?_⟩
  have h := newVar_global_replaces
    { blockCtx.start with
      curfn := none, gblvars := fun m => if m = "x" then some 0 else none,
      scopes := fun s => if s = 0 then [.Var "x" (.Other "int")] else [],
      defs := fun _ => ⟨0, [⟨.Other "int", "x"⟩]⟩ } 0 (.Other "int") "x" rfl
  obtain ⟨p1, h1⟩ := h.1 (Or.inr ⟨rfl, rfl⟩)
  obtain ⟨_, _, _, h4, h5, _⟩ := h.2.2 _ p1 h1
  obtain ⟨h6, _, h8⟩ := h5 rfl
  exact ⟨p1, h1, h6, h4, (h8 0 rfl (by decide)).1⟩

end cl
